import Mathlib

/-!
# Lineage: recursive queries over a gene mutation graph

A shallow embedding of `lineage.cpp`.  The program loads an array of genes,
each with at most one outgoing mutation, and answers four queries by walking
the mutation edges recursively while marking the genes it leaves as `seen`.

Modelling conventions.

* The gene array `Gene *` together with its length is a `List Gene`.
* A `Gene *` into that array is the index of the gene (`Nat`); the mutation
  target is `Option Nat`, with `none` for `nullptr`.
* The recursive functions mutate the `seen` flag, so each of them returns its
  result together with the gene array it leaves behind.
* The recursion of the C++ functions is driven by a fuel argument; the entry
  points run with `length + 1` units, which is shown to be always enough.
* A dereference outside the array (undefined behaviour in C++) is `none`.
* C++ `int` values are `Int`.  The cost sum of `evolution_cost` is reduced to
  the 32-bit `int` by `wrap_int`: signed overflow is undefined in C++, and the
  compiled program wraps around.  The step count of `evolution_steps` stays
  within `int` for every array that fits in memory.
-/

/-! ## Formatted input

The programs read their files and the standard input with `stream >> variable`.
A stream is modelled by the list of whitespace-separated tokens still unread.
A read that fails leaves the stream failed for good, and a failed stream
behaves like an exhausted one: every later read fails and leaves its variable
as it was; the failed stream is the empty list. -/

namespace Stream

/-- What `>>` finds when it scans an `int` at the head of a token. -/
inductive IntScan where
  | no_digits
  | out_of_range (clamped : Int)
  | value (v : Int) (left : List Char)
deriving DecidableEq

/-- Value of a run of decimal digits. -/
def digits_value (ds : List Char) : Nat :=
  ds.foldl (fun acc c => 10 * acc + (c.toNat - 48)) 0

/-- Range check of a scanned value against the 32-bit `int`. -/
def in_range (v : Int) (left : List Char) : IntScan :=
  if v > 2147483647 then IntScan.out_of_range 2147483647
  else if v < -2147483648 then IntScan.out_of_range (-2147483648)
  else IntScan.value v left

/-- Scan of an optional sign and decimal digits at the head of a token. -/
def scan_int (tok : String) : IntScan :=
  match tok.data with
  | '-' :: cs =>
    if (cs.takeWhile Char.isDigit) = [] then IntScan.no_digits
    else in_range (-(digits_value (cs.takeWhile Char.isDigit) : Int)) (cs.dropWhile Char.isDigit)
  | '+' :: cs =>
    if (cs.takeWhile Char.isDigit) = [] then IntScan.no_digits
    else in_range (digits_value (cs.takeWhile Char.isDigit) : Int) (cs.dropWhile Char.isDigit)
  | cs =>
    if (cs.takeWhile Char.isDigit) = [] then IntScan.no_digits
    else in_range (digits_value (cs.takeWhile Char.isDigit) : Int) (cs.dropWhile Char.isDigit)

/-- The operation `stream >> s` for a string variable holding `old`: the new
value of the variable and the stream afterwards. -/
def read_string (stream : List String) (old : String) : String × List String :=
  match stream with
  | [] => (old, [])
  | tok :: rest => (tok, rest)

/-- The operation `stream >> n` for an `int` variable: the value stored, if one
is stored, and the stream afterwards.  At the end of the input nothing is
stored; a token without digits stores 0 and an out-of-range value stores the
nearest bound, both failing the stream; characters after the digits stay in the
stream. -/
def read_int (stream : List String) : Option Int × List String :=
  match stream with
  | [] => (none, [])
  | tok :: rest =>
    match scan_int tok with
    | IntScan.no_digits => (some 0, [])
    | IntScan.out_of_range clamped => (some clamped, [])
    | IntScan.value v [] => (some v, rest)
    | IntScan.value v (c :: left) => (some v, String.mk (c :: left) :: rest)

/-- The integer a token stands for, when the whole token is one `int`. -/
def token_value (tok : String) : Option Int :=
  match scan_int tok with
  | IntScan.value v [] => some v
  | _ => none

end Stream

namespace Lineage

/-- Outgoing mutation of a gene: `struct Mutation`. -/
structure Mutation where
  cost : Int
  target : Option Nat
deriving DecidableEq

/-- Gene record: `struct Gene`; the field `mut` is spelled `mutation`, `mut` being reserved. -/
structure Gene where
  sq : String
  seen : Bool
  mutation : Mutation
deriving DecidableEq

/-- The assignment `src->seen = true`. -/
def mark_seen (genes : List Gene) (src : Nat) : List Gene :=
  match genes[src]? with
  | none => genes
  | some s => genes.set src { s with seen := true }

/-- Linear scan of `index_of`, started at position `i` of the array. -/
def index_of_from (seq : String) : List Gene → Nat → Int
  | [], _ => -1
  | d :: rest, i => if d.sq = seq then (i : Int) else index_of_from seq rest (i + 1)

/-- Source function `index_of`: first index whose gene is named `seq`, else `-1`. -/
def index_of (dna : List Gene) (seq : String) : Int :=
  index_of_from seq dna 0

/-- The pointer `&all_genes[index]`; outside the array it is not a valid gene. -/
def gene_ptr (all_genes : List Gene) (index : Int) : Option Nat :=
  if 0 ≤ index ∧ index.toNat < all_genes.length then some index.toNat else none

/-- Source function `can_evolve`, with the recursion depth bounded by fuel. -/
def can_evolve_fuel : Nat → List Gene → Nat → Nat → Option (Bool × List Gene)
  | 0, _, _, _ => none
  | fuel + 1, genes, src, tgt =>
    match genes[src]? with
    | none => none
    | some s =>
      match s.mutation.target with
      | none => some (false, genes)
      | some nx =>
        match genes[nx]?, genes[tgt]? with
        | some n, some t =>
          if n.sq = t.sq then some (true, genes)
          else if s.seen then some (false, genes)
          else can_evolve_fuel fuel (mark_seen genes src) nx tgt
        | _, _ => none

/-- Source function `can_evolve`. -/
def can_evolve (genes : List Gene) (src tgt : Nat) : Option (Bool × List Gene) :=
  can_evolve_fuel (genes.length + 1) genes src tgt

/-- Source function `evolution_steps`, with the recursion depth bounded by fuel. -/
def evolution_steps_fuel : Nat → List Gene → Nat → Nat → Option (Int × List Gene)
  | 0, _, _, _ => none
  | fuel + 1, genes, src, tgt =>
    match genes[src]? with
    | none => none
    | some s =>
      match s.mutation.target with
      | none => some (-10000000, genes)
      | some nx =>
        match genes[nx]?, genes[tgt]? with
        | some n, some t =>
          if n.sq = t.sq then some (1, genes)
          else if s.seen then some (-10000000, genes)
          else
            match evolution_steps_fuel fuel (mark_seen genes src) nx tgt with
            | none => none
            | some (r, genes') => some (1 + r, genes')
        | _, _ => none

/-- Source function `evolution_steps`. -/
def evolution_steps (genes : List Gene) (src tgt : Nat) : Option (Int × List Gene) :=
  evolution_steps_fuel (genes.length + 1) genes src tgt

/-- The values of the 32-bit `int`. -/
def fits_int (x : Int) : Prop :=
  -2147483648 ≤ x ∧ x ≤ 2147483647

instance (x : Int) : Decidable (fits_int x) := by
  unfold fits_int; infer_instance

/-- The `int` an arithmetic result is stored as: its representative modulo
`2^32` among the values of `int`.  A sum that fits is stored as it is; a sum
that overflows wraps around, as in the compiled program. -/
def wrap_int (x : Int) : Int :=
  (x + 2147483648) % 4294967296 - 2147483648

/-- Source function `evolution_cost`, with the recursion depth bounded by fuel;
the sum `n + evolution_cost(...)` is an `int`. -/
def evolution_cost_fuel : Nat → List Gene → Nat → Nat → Option (Int × List Gene)
  | 0, _, _, _ => none
  | fuel + 1, genes, src, tgt =>
    match genes[src]? with
    | none => none
    | some s =>
      let n := s.mutation.cost
      match s.mutation.target with
      | none => some (10000000, genes)
      | some nx =>
        match genes[nx]?, genes[tgt]? with
        | some nxt, some t =>
          if nxt.sq = t.sq then some (n, genes)
          else if s.seen then some (10000000, genes)
          else
            match evolution_cost_fuel fuel (mark_seen genes src) nx tgt with
            | none => none
            | some (r, genes') => some (wrap_int (n + r), genes')
        | _, _ => none

/-- Source function `evolution_cost`. -/
def evolution_cost (genes : List Gene) (src tgt : Nat) : Option (Int × List Gene) :=
  evolution_cost_fuel (genes.length + 1) genes src tgt

/-- Source function `evolution_path`, with the recursion depth bounded by fuel. -/
def evolution_path_fuel : Nat → List Gene → Nat → Nat → Option (String × List Gene)
  | 0, _, _, _ => none
  | fuel + 1, genes, src, tgt =>
    match genes[src]?, genes[tgt]? with
    | some s, some t =>
      let whole_path := s.sq
      if s.sq = t.sq then some (t.sq, genes)
      else
        match s.mutation.target with
        | none => some ("X", genes)
        | some nx =>
          if s.seen then some ("X", genes)
          else
            match evolution_path_fuel fuel (mark_seen genes src) nx tgt with
            | none => none
            | some (r, genes') => some (whole_path ++ " -> " ++ r, genes')
    | _, _ => none

/-- Source function `evolution_path`. -/
def evolution_path (genes : List Gene) (src tgt : Nat) : Option (String × List Gene) :=
  evolution_path_fuel (genes.length + 1) genes src tgt

/-- The name `p->sq` read through a gene pointer. -/
def sq_at (genes : List Gene) (p : Nat) : Option String :=
  (genes[p]?).map Gene.sq

/-- Source function `handle_e`: the text written to standard output. -/
def handle_e (all_genes : List Gene) (input2 input3 : String) : Option (String × List Gene) :=
  match gene_ptr all_genes (index_of all_genes input2),
        gene_ptr all_genes (index_of all_genes input3) with
  | some src, some tgt =>
    match can_evolve all_genes src tgt with
    | none => none
    | some (b, genes) =>
      match sq_at genes src, sq_at genes tgt with
      | some s, some t =>
        if b then some (s ++ " can evolve into " ++ t ++ "\n\n", genes)
        else some (s ++ " cannot evolve into " ++ t ++ "\n\n", genes)
      | _, _ => none
  | _, _ => none

/-- Source function `handle_es`: the text written to standard output. -/
def handle_es (all_genes : List Gene) (input2 input3 : String) : Option (String × List Gene) :=
  match gene_ptr all_genes (index_of all_genes input2),
        gene_ptr all_genes (index_of all_genes input3) with
  | some src, some tgt =>
    match evolution_steps all_genes src tgt with
    | none => none
    | some (steps, genes) =>
      match sq_at genes src, sq_at genes tgt with
      | some s, some t =>
        if steps > 0 then
          some ("It will take " ++ toString steps ++ " evolutionary steps to get from "
            ++ s ++ " to " ++ t ++ "\n\n", genes)
        else
          some ("It will take -1 evolutionary steps to get from " ++ s ++ " to " ++ t
            ++ "\n\n", genes)
      | _, _ => none
  | _, _ => none

/-- Source function `handle_ene`: the text written to standard output. -/
def handle_ene (all_genes : List Gene) (input2 input3 : String) (cost : Int) :
    Option (String × List Gene) :=
  match gene_ptr all_genes (index_of all_genes input2),
        gene_ptr all_genes (index_of all_genes input3) with
  | some src, some tgt =>
    match evolution_cost all_genes src tgt with
    | none => none
    | some (c, genes) =>
      match sq_at genes src, sq_at genes tgt with
      | some s, some t =>
        if c ≤ cost then
          some (s ++ " can evolve into " ++ t ++ " with at most " ++ toString cost
            ++ " evolutionary cost\n" ++ "\n", genes)
        else
          some (s ++ " cannot evolve into " ++ t ++ " with at most " ++ toString cost
            ++ " evolutionary cost\n" ++ "\n", genes)
      | _, _ => none
  | _, _ => none

/-- Source function `handle_path`: the text written to standard output.  Reading
the last character of an empty string is outside the string. -/
def handle_path (all_genes : List Gene) (input2 input3 : String) : Option (String × List Gene) :=
  match gene_ptr all_genes (index_of all_genes input2),
        gene_ptr all_genes (index_of all_genes input3) with
  | some src, some tgt =>
    match evolution_path all_genes src tgt with
    | none => none
    | some (evo_path, genes) =>
      match evo_path.data.getLast? with
      | none => none
      | some last =>
        if last = 'X' then
          match sq_at genes src, sq_at genes tgt with
          | some s, some t => some ("There is no path from " ++ s ++ " to " ++ t ++ "\n\n", genes)
          | _, _ => none
        else some (evo_path ++ "\n\n", genes)
  | _, _ => none

/-- Scenario file S1 as loaded: the chain `AAA -> BBB -> CCC -> DDD`. -/
def fileS1 : List Gene :=
  [ ⟨"AAA", false, ⟨2, some 1⟩⟩, ⟨"BBB", false, ⟨3, some 2⟩⟩,
    ⟨"CCC", false, ⟨4, some 3⟩⟩, ⟨"DDD", false, ⟨-1, none⟩⟩ ]

/-- Scenario file S2 as loaded: the cycle `X -> Y -> Z -> X`. -/
def fileS2 : List Gene :=
  [ ⟨"X", false, ⟨1, some 1⟩⟩, ⟨"Y", false, ⟨1, some 2⟩⟩, ⟨"Z", false, ⟨1, some 0⟩⟩ ]

/-- Scenario file S3 as loaded: `A` has no mutation, `B` mutates into `A`. -/
def fileS3 : List Gene :=
  [ ⟨"A", false, ⟨-1, none⟩⟩, ⟨"B", false, ⟨5, some 0⟩⟩ ]

/-- The file `3 / A 1 B 2147483647 / B 1 C 1 / C 0` as loaded: the costs on the
walk from `A` to `C` add up to `2^31`. -/
def file_large_cost : List Gene :=
  [ ⟨"A", false, ⟨2147483647, some 1⟩⟩, ⟨"B", false, ⟨1, some 2⟩⟩,
    ⟨"C", false, ⟨-1, none⟩⟩ ]

/-- The file `2 / A 1 B 2147483647 / B 0` as loaded: one edge of the largest
cost into a gene without mutation. -/
def file_large_edge : List Gene :=
  [ ⟨"A", false, ⟨2147483647, some 1⟩⟩, ⟨"B", false, ⟨-1, none⟩⟩ ]

/-! ## Vocabulary of the claims -/

/-- Every mutation target is a gene of the same array. -/
def targets_in_range (genes : List Gene) : Prop :=
  ∀ s ∈ genes, ∀ nx ∈ s.mutation.target, nx < genes.length

instance (genes : List Gene) : Decidable (targets_in_range genes) := by
  unfold targets_in_range; infer_instance

/-- All `seen` flags are false, as the dispatcher leaves them before a query. -/
def all_unseen (genes : List Gene) : Prop :=
  ∀ s ∈ genes, s.seen = false

instance (genes : List Gene) : Decidable (all_unseen genes) := by
  unfold all_unseen; infer_instance

/-- Gene reached from `v` by following `k` mutation edges, when the edges exist. -/
def successor (genes : List Gene) : Nat → Nat → Option Nat
  | 0, v => some v
  | k + 1, v =>
    match genes[v]? with
    | none => none
    | some s =>
      match s.mutation.target with
      | none => none
      | some nx => successor genes k nx

/-- Name of the gene reached from `v` by following `k` mutation edges. -/
def name_after (genes : List Gene) (k v : Nat) : Option String :=
  (successor genes k v).bind (sq_at genes)

/-- Sum of the costs of the first `k` edges of the walk that starts at `v`. -/
def walk_cost (genes : List Gene) : Nat → Nat → Int
  | 0, _ => 0
  | k + 1, v =>
    match genes[v]? with
    | none => 0
    | some s =>
      match s.mutation.target with
      | none => 0
      | some nx => s.mutation.cost + walk_cost genes k nx

/-- Names of the genes `v`, its successor, ..., up to the `k`-th successor. -/
def walk_names (genes : List Gene) : Nat → Nat → List String
  | 0, v => (sq_at genes v).toList
  | k + 1, v =>
    match genes[v]? with
    | none => []
    | some s =>
      match s.mutation.target with
      | none => [s.sq]
      | some nx => s.sq :: walk_names genes k nx

/-- Number of `" -> "` separators in a text, scanned left to right. -/
def count_arrows : List Char → Nat
  | ' ' :: '-' :: '>' :: ' ' :: rest => 1 + count_arrows rest
  | _ :: rest => count_arrows rest
  | [] => 0

/-- Number of genes whose `seen` flag is still false. -/
def unseen (genes : List Gene) : Nat :=
  (genes.filter (fun s => !s.seen)).length

/-- The walk from `src` first arrives at a gene named `name` after `k` edges,
where only arrivals after at least `lo` edges count. -/
def first_arrival (genes : List Gene) (lo k src : Nat) (name : String) : Prop :=
  lo ≤ k ∧ name_after genes k src = some name ∧
    ∀ j < k, lo ≤ j → name_after genes j src ≠ some name

instance (genes : List Gene) (lo k src : Nat) (name : String) :
    Decidable (first_arrival genes lo k src name) := by
  unfold first_arrival; infer_instance

/-- Invariant of a walk in progress: every gene already marked has its target
in the array, satisfies `q` with it, and that target is marked too or is the
gene `cur` the walk has come to. -/
def trail (q : String → String → Prop) (genes : List Gene) (cur : Nat) : Prop :=
  ∀ (v : Nat) (s : Gene), genes[v]? = some s → s.seen = true →
    ∃ (w : Nat) (n : Gene), s.mutation.target = some w ∧ genes[w]? = some n ∧
      q s.sq n.sq ∧ (n.seen = true ∨ w = cur)

/-- Every mutation that exists has a non-negative cost. -/
def costs_nonneg (genes : List Gene) : Prop :=
  ∀ s ∈ genes, s.mutation.target ≠ none → 0 ≤ s.mutation.cost

instance (genes : List Gene) : Decidable (costs_nonneg genes) := by
  unfold costs_nonneg; infer_instance

/-- The text ends in the given name. -/
def ends_in (text name : String) : Prop :=
  name.data <:+ text.data

instance (text name : String) : Decidable (ends_in text name) := by
  unfold ends_in; infer_instance

/-- No gene name contains a blank, as for names read token by token. -/
def blank_free (genes : List Gene) : Prop :=
  ∀ g ∈ genes, ' ' ∉ g.sq.data

instance (genes : List Gene) : Decidable (blank_free genes) := by
  unfold blank_free; infer_instance

/-- Two genes without mutations, the second one named `X`. -/
def fileDeadX : List Gene :=
  [ ⟨"A", false, ⟨-1, none⟩⟩, ⟨"X", false, ⟨-1, none⟩⟩ ]

/-- The gene array `genes'` is `genes` with some flags raised: same length, and
at every index the same name and mutation, the flag either unchanged or raised
from false to true, the latter only at genes on the walk that starts at `src`. -/
def only_marks (genes genes' : List Gene) (src : Nat) : Prop :=
  genes'.length = genes.length ∧
  ∀ (p : Nat) (g : Gene), genes[p]? = some g →
    ∃ g', genes'[p]? = some g' ∧ g'.sq = g.sq ∧ g'.mutation = g.mutation ∧
      (g'.seen = g.seen ∨
        (g.seen = false ∧ g'.seen = true ∧ ∃ k, successor genes k src = some p))

/-! ## The query loop -/

/-- The loop `for (i ...) all_genes[i].seen = false` of `prompt_and_execute`. -/
def reset_seen (all_genes : List Gene) : List Gene :=
  all_genes.map (fun g => { g with seen := false })

/-- One pass through the body of the `while` loop of `prompt_and_execute` for
the command `input`, up to the next prompt: the text printed, the gene array
and the standard input afterwards.  The handlers read their arguments from the
standard input; the budget of `ene` is read into an uninitialised `int`. -/
def execute (all_genes : List Gene) (input : String) (cin : List String) :
    Option (String × List Gene × List String) :=
  let all_genes := reset_seen all_genes
  if input = "e" then
    let (input2, cin) := Stream.read_string cin ""
    let (input3, cin) := Stream.read_string cin ""
    (handle_e all_genes input2 input3).map (fun r => (r.1, r.2, cin))
  else if input = "es" then
    let (input2, cin) := Stream.read_string cin ""
    let (input3, cin) := Stream.read_string cin ""
    (handle_es all_genes input2 input3).map (fun r => (r.1, r.2, cin))
  else if input = "ene" then
    let (input2, cin) := Stream.read_string cin ""
    let (input3, cin) := Stream.read_string cin ""
    match Stream.read_int cin with
    | (none, _) => none
    | (some cost, cin) => (handle_ene all_genes input2 input3 cost).map (fun r => (r.1, r.2, cin))
  else if input = "path" then
    let (input2, cin) := Stream.read_string cin ""
    let (input3, cin) := Stream.read_string cin ""
    (handle_path all_genes input2 input3).map (fun r => (r.1, r.2, cin))
  else some (input ++ " not recognized." ++ "\n\n", all_genes, cin)

/-- The `while (input != "q")` loop of `prompt_and_execute`, bounded by fuel:
the text printed until the loop is left. -/
def prompt_and_execute_loop : Nat → List Gene → String → List String → Option String
  | 0, _, _, _ => none
  | fuel + 1, all_genes, input, cin =>
    if input = "q" then some ""
    else
      match execute all_genes input cin with
      | none => none
      | some (out, all_genes, cin) =>
        match prompt_and_execute_loop fuel all_genes (Stream.read_string cin input).1
            (Stream.read_string cin input).2 with
        | none => none
        | some more => some (out ++ "Enter a query: " ++ more)

/-- Source function `prompt_and_execute`, with the number of loop passes
bounded by fuel: the text printed when the loop is left. -/
def prompt_and_execute (fuel : Nat) (all_genes : List Gene) (cin : List String) :
    Option String :=
  match prompt_and_execute_loop fuel all_genes (Stream.read_string cin "").1
      (Stream.read_string cin "").2 with
  | none => none
  | some more => some ("Enter a query: " ++ more)

/-- One pass of the `while (input != "q")` loop from the state `st` (the gene
array, the command in `input`, the standard input): the body for the command
and the read of the next command.  There is no pass when the loop is left
(`input` is `q`) or the body is undefined. -/
def pass (st : List Gene × String × List String) : Option (List Gene × String × List String) :=
  if st.2.1 = "q" then none
  else
    match execute st.1 st.2.1 st.2.2 with
    | none => none
    | some (_, all_genes, cin) =>
      some (all_genes, (Stream.read_string cin st.2.1).1, (Stream.read_string cin st.2.1).2)

/-- The state after `n` passes of the loop, when the loop makes that many. -/
def passes : Nat → List Gene × String × List String →
    Option (List Gene × String × List String)
  | 0, st => some st
  | n + 1, st =>
    match pass st with
    | none => none
    | some st' => passes n st'

/-- Commands before `q` that the loop can carry out on the graph: each
recognised command is followed by names of genes of the graph (and `ene` by a
budget token that is one `int`; the target of `path` has a non-empty name), any
other token is a command of its own. -/
inductive Script (genes : List Gene) : List String → Prop where
  | quit (rest : List String) : Script genes ("q" :: rest)
  | e (a b : String) (rest : List String) :
      (gene_ptr genes (index_of genes a)).isSome → (gene_ptr genes (index_of genes b)).isSome →
      Script genes rest → Script genes ("e" :: a :: b :: rest)
  | es (a b : String) (rest : List String) :
      (gene_ptr genes (index_of genes a)).isSome → (gene_ptr genes (index_of genes b)).isSome →
      Script genes rest → Script genes ("es" :: a :: b :: rest)
  | ene (a b c : String) (rest : List String) :
      (gene_ptr genes (index_of genes a)).isSome → (gene_ptr genes (index_of genes b)).isSome →
      (Stream.token_value c).isSome →
      Script genes rest → Script genes ("ene" :: a :: b :: c :: rest)
  | path (a b : String) (rest : List String) :
      (gene_ptr genes (index_of genes a)).isSome → (gene_ptr genes (index_of genes b)).isSome →
      b ≠ "" →
      Script genes rest → Script genes ("path" :: a :: b :: rest)
  | other (tok : String) (rest : List String) :
      tok ≠ "q" → tok ≠ "e" → tok ≠ "es" → tok ≠ "ene" → tok ≠ "path" →
      Script genes rest → Script genes (tok :: rest)

/-! ## Loading the file -/

/-- Source function `init`: `num_nodes` genes without name and without mutation. -/
def init (num_nodes : Nat) : List Gene :=
  List.replicate num_nodes ⟨"", false, ⟨-1, none⟩⟩

/-- The assignment `dna[i].sq = seq`. -/
def set_sq (dna : List Gene) (i : Nat) (seq : String) : List Gene :=
  match dna[i]? with
  | none => dna
  | some g => dna.set i { g with sq := seq }

/-- The assignments `dna[i].mut.cost = cost; dna[i].mut.target = &dna[index]`. -/
def set_mut (dna : List Gene) (i : Nat) (cost : Int) (index : Nat) : List Gene :=
  match dna[i]? with
  | none => dna
  | some g => dna.set i { g with mutation := ⟨cost, some index⟩ }

/-- Inner loop of `populate_nodes`: `num_muts` times `*inf >> mut_seq >> num`;
only the position in the file matters afterwards. -/
def skip_pairs : Nat → List String → List String
  | 0, inf => inf
  | j + 1, inf => skip_pairs j (Stream.read_int (Stream.read_string inf "").2).2

/-- Loop of `populate_nodes` over the genes `i, i + 1, ...` (`count` of them).
The variables `seq` and `num_muts` live across the passes; `num_muts` starts
uninitialised (`none`) and must not be used as a loop bound before it is set. -/
def populate_nodes_from :
    Nat → Nat → List Gene → List String → String → Option Int →
      Option (List Gene × List String)
  | 0, _, dna, inf, _, _ => some (dna, inf)
  | count + 1, i, dna, inf, seq, num_muts =>
    match (Stream.read_int (Stream.read_string inf seq).2).1.orElse (fun _ => num_muts) with
    | none => none
    | some k =>
      populate_nodes_from count (i + 1) (set_sq dna i (Stream.read_string inf seq).1)
        (skip_pairs k.toNat (Stream.read_int (Stream.read_string inf seq).2).2)
        (Stream.read_string inf seq).1 (some k)

/-- Source function `populate_nodes`. -/
def populate_nodes (dna : List Gene) (inf : List String) (num_nodes : Nat) :
    Option (List Gene × List String) :=
  populate_nodes_from num_nodes 0 dna inf "" none

/-- Loop of `populate_links` over the genes `i, i + 1, ...` (`count` of them).
The variables `mut_seq` and `num_muts` live across the passes; `cost` is a fresh
uninitialised `int` in each pass, and `&dna[index]` must be a gene of the array. -/
def populate_links_from :
    Nat → Nat → List Gene → List String → String → Option Int →
      Option (List Gene × List String)
  | 0, _, dna, inf, _, _ => some (dna, inf)
  | count + 1, i, dna, inf, mut_seq, num_muts =>
    match (Stream.read_int (Stream.read_string inf "").2).1.orElse (fun _ => num_muts) with
    | none => none
    | some k =>
      if k = 1 then
        match Stream.read_int
            (Stream.read_string (Stream.read_int (Stream.read_string inf "").2).2 mut_seq).2 with
        | (none, _) => none
        | (some cost, inf') =>
          match gene_ptr dna (index_of dna
              (Stream.read_string (Stream.read_int (Stream.read_string inf "").2).2 mut_seq).1) with
          | none => none
          | some index =>
            populate_links_from count (i + 1) (set_mut dna i cost index) inf'
              (Stream.read_string (Stream.read_int (Stream.read_string inf "").2).2 mut_seq).1
              (some k)
      else
        populate_links_from count (i + 1) dna (Stream.read_int (Stream.read_string inf "").2).2
          mut_seq (some k)

/-- Source function `populate_links`. -/
def populate_links (dna : List Gene) (inf : List String) (num_nodes : Nat) :
    Option (List Gene × List String) :=
  populate_links_from num_nodes 0 dna inf "" none

/-- Source function `read_genes` on the tokens of a file that opens: the gene
array it returns (its length is the value stored through `num_genes`).  The
count is read into the caller's uninitialised `int`, and the array is allocated
with that many genes. -/
def read_genes (file : List String) : Option (List Gene) :=
  match Stream.read_int file with
  | (none, _) => none
  | (some num_genes, inf) =>
    if num_genes < 0 then none
    else
      match populate_nodes (init num_genes.toNat) inf num_genes.toNat with
      | none => none
      | some (dna_p, _) =>
        match (Stream.read_int file).1.orElse (fun _ => some num_genes) with
        | none => none
        | some num_genes2 =>
          if num_genes2 < 0 then none
          else
            match populate_links dna_p (Stream.read_int file).2 num_genes2.toNat with
            | none => none
            | some (dna_p, _) => some dna_p

/-- One node line of a primary-variant file: the name, the token of the edge
count, and the tokens of the edge (target name and cost) when there is one. -/
structure Record where
  name : String
  count : String
  edge : Option (String × String)
deriving DecidableEq

/-- Tokens of a node line. -/
def Record.tokens (r : Record) : List String :=
  match r.edge with
  | none => [r.name, r.count]
  | some (target, cost) => [r.name, r.count, target, cost]

/-- A node line is well formed among the `names` declared in the file: its count
token is the `int` 0 and it has no edge, or its count token is the `int` 1 and
it has one edge whose cost token is an `int` and whose target is declared. -/
def Record.well_formed (names : List String) (r : Record) : Prop :=
  match r.edge with
  | none => Stream.token_value r.count = some 0
  | some (target, cost) =>
    Stream.token_value r.count = some 1 ∧ (Stream.token_value cost).isSome ∧ target ∈ names

instance (names : List String) (r : Record) : Decidable (r.well_formed names) := by
  unfold Record.well_formed
  cases r.edge with
  | none => infer_instance
  | some e => cases e; infer_instance

/-- The genes of `names`, in order, as the first pass leaves them: named, unseen,
without mutation. -/
def named (names : List String) : List Gene :=
  names.map (fun n => ⟨n, false, ⟨-1, none⟩⟩)

/-- The gene a well-formed node line stands for, among the `names` declared in
the file: its target is the first gene that carries the target name. -/
def Record.gene (names : List String) (r : Record) : Gene :=
  match r.edge with
  | none => ⟨r.name, false, ⟨-1, none⟩⟩
  | some (target, cost) =>
    ⟨r.name, false,
      ⟨(Stream.token_value cost).getD 0, some (index_of (named names) target).toNat⟩⟩

/-- Tokens of scenario file S1. -/
def tokensS1 : List String :=
  ["4", "AAA", "1", "BBB", "2", "BBB", "1", "CCC", "3", "CCC", "1", "DDD", "4", "DDD", "0"]

/-- Tokens of scenario file S3: the second line names a gene declared before it. -/
def tokensS3 : List String := ["2", "A", "0", "B", "1", "A", "5"]

/-- Tokens of file S3 with its node lines swapped: `B` refers forward to `A`. -/
def tokensS3_forward : List String := ["2", "B", "1", "A", "5", "A", "0"]

end Lineage

/-!
# Mutations: the strict loader and its queries

A shallow embedding of `mutations.cpp`.  Each gene has up to five mutations,
kept in a fixed array of five slots of which the first `possibilities` are in
use.  The conventions are those of the first part: the gene array is a list, a
`Gene *` is an index, `nullptr` is `none`, undefined behaviour is `none`, and an
`exit(status)` of the program is the error `status`.
-/

namespace Mutations

deriving instance DecidableEq for Except

/-- One slot of `mutations[5]`: `struct Mutation`. -/
structure Mutation where
  mutation_name : Option Nat
  energy : Int
deriving DecidableEq

/-- Gene record: `struct Gene`; `mutations` is the array of five slots. -/
structure Gene where
  source : String
  possibilities : Int
  mutations : List Mutation
deriving DecidableEq

/-- The loop of `is_valid` that reads the file character by character: `get`
stores the character read in `next`, and the last `get`, at the end of the file,
fails and leaves `next` as it was before `next` is tested once more. -/
def count_lines : List Char → Char → Int → Int
  | [], next, i => if next = '\n' then i + 1 else i
  | c :: rest, _, i => count_lines rest c (if c = '\n' then i + 1 else i)

/-- Source function `is_valid` on a file that opens and whose first token is the
`int` `lines`; `after` holds the characters that follow that token.  When
nothing follows, reading the token has reached the end of the file and the loop
is not entered. -/
def is_valid (lines : Int) (after : List Char) : Except Nat Unit :=
  match after with
  | [] => if (1 : Int) ≠ lines then Except.error 3 else Except.ok ()
  | next :: rest => if count_lines rest next 1 ≠ lines then Except.error 3 else Except.ok ()

/-- Source function `init_data`. -/
def init_data (num_genes : Nat) : List Gene :=
  List.replicate num_genes ⟨" ", 0, List.replicate 5 ⟨none, 0⟩⟩

/-- The character `source[j]`: a character of the string, the terminating null
character at `j = length`, and nothing beyond. -/
def char_at (source : String) (j : Nat) : Option Char :=
  if j < source.data.length then source.data[j]?
  else if j = source.data.length then some (Char.ofNat 0)
  else none

/-- The loop `for (j = 0; j < 4; j++)` of `read_genes` over the characters
`source[j]`, from `j` on: `some false` when the program exits. -/
def check_chars_from : Nat → Nat → String → Option Bool
  | 0, _, _ => some true
  | count + 1, j, source =>
    match char_at source j with
    | none => none
    | some c =>
      if c ≠ 'A' ∧ c ≠ 'G' ∧ c ≠ 'C' ∧ c ≠ 'T' then some false
      else check_chars_from count (j + 1) source

/-- The two checks `read_genes` makes on a name it has read: the characters
`source[0..3]`, then the length. -/
def check_source (source : String) : Option (Except Nat Unit) :=
  match check_chars_from 4 0 source with
  | none => none
  | some false => some (Except.error 3)
  | some true =>
    if (source.data.length : Int) > 4 then some (Except.error 3) else some (Except.ok ())

/-- The loop that skips the pairs of a line: `count` times
`infile >> skip_string; infile >> skip_int`. -/
def skip_pairs : Nat → List String → List String
  | 0, infile => infile
  | j + 1, infile => skip_pairs j (Stream.read_int (Stream.read_string infile "").2).2

/-- First loop of `read_genes` over the genes `i, i + 1, ...` (`count` of them). -/
def read_genes_from : Nat → Nat → List Gene → List String → Option (Except Nat (List Gene))
  | 0, _, genes, _ => some (Except.ok genes)
  | count + 1, i, genes, infile =>
    match genes[i]? with
    | none => none
    | some g =>
      match check_source (Stream.read_string infile g.source).1 with
      | none => none
      | some (Except.error status) => some (Except.error status)
      | some (Except.ok _) =>
        if ((Stream.read_int (Stream.read_string infile g.source).2).1.getD g.possibilities < 0
            ∨ (Stream.read_int (Stream.read_string infile g.source).2).1.getD g.possibilities > 5)
        then some (Except.error 3)
        else
          read_genes_from count (i + 1)
            (genes.set i { g with
              source := (Stream.read_string infile g.source).1
              possibilities :=
                (Stream.read_int (Stream.read_string infile g.source).2).1.getD g.possibilities })
            (skip_pairs
              ((Stream.read_int (Stream.read_string infile g.source).2).1.getD
                g.possibilities).toNat
              (Stream.read_int (Stream.read_string infile g.source).2).2)

/-- Inner loop of the repeat check: `repeat` counts the genes named `source`
seen so far; `true` when the program exits. -/
def repeats_from (source : String) : List Gene → Int → Bool
  | [], _ => false
  | g :: rest, rep =>
    if (if source = g.source then rep + 1 else rep) > 1 then true
    else repeats_from source rest (if source = g.source then rep + 1 else rep)

/-- Outer loop of the repeat check over the genes still to test. -/
def has_repeat_from (genes : List Gene) : List Gene → Bool
  | [] => false
  | g :: rest => if repeats_from g.source genes 0 then true else has_repeat_from genes rest

/-- Source function `read_genes` on the tokens of the file: it reads the count
again, fills names and counts, then checks that no name is repeated. -/
def read_genes (file : List String) (genes : List Gene) (num_genes : Int) :
    Option (Except Nat (List Gene)) :=
  match read_genes_from ((Stream.read_int file).1.getD num_genes).toNat 0 genes
      (Stream.read_int file).2 with
  | none => none
  | some (Except.error status) => some (Except.error status)
  | some (Except.ok genes) =>
    if has_repeat_from genes genes then some (Except.error 3) else some (Except.ok genes)

/-- Scan of `find_gene` from position `i` of the array. -/
def find_gene_from (name : String) : List Gene → Nat → Option Nat
  | [], _ => none
  | g :: rest, i => if name = g.source then some i else find_gene_from name rest (i + 1)

/-- Source function `find_gene`: the first gene named `name`, or `nullptr`. -/
def find_gene (genes : List Gene) (name : String) : Option Nat :=
  find_gene_from name genes 0

/-- The assignment `genes[i].mutations[j].energy = energy`. -/
def set_energy (genes : List Gene) (i j : Nat) (energy : Int) : List Gene :=
  match genes[i]? with
  | none => genes
  | some g =>
    match g.mutations[j]? with
    | none => genes
    | some m => genes.set i { g with mutations := g.mutations.set j { m with energy := energy } }

/-- The assignment `genes[i].mutations[j].mutation_name = ptr`. -/
def set_mutation_name (genes : List Gene) (i j : Nat) (ptr : Nat) : List Gene :=
  match genes[i]? with
  | none => genes
  | some g =>
    match g.mutations[j]? with
    | none => genes
    | some m =>
      genes.set i { g with mutations := g.mutations.set j { m with mutation_name := some ptr } }

/-- The value `genes[i].mutations[j].energy`, when the slot exists. -/
def energy_at (genes : List Gene) (i j : Nat) : Option Int :=
  match genes[i]? with
  | none => none
  | some g => (g.mutations[j]?).map Mutation.energy

/-- Inner loop of `read_mutations` for gene `i` over the slots `j, j + 1, ...`
(`count` of them): the gene array, the file and the variable `name` afterwards.
The array `mutations` has five slots. -/
def read_pairs :
    Nat → Nat → Nat → List Gene → List String → String →
      Option (Except Nat (List Gene × List String × String))
  | 0, _, _, genes, infile, name => some (Except.ok (genes, infile, name))
  | count + 1, j, i, genes, infile, name =>
    match energy_at genes i j with
    | none => none
    | some old =>
      if (Stream.read_int (Stream.read_string infile name).2).1.getD old < 0
      then some (Except.error 3)
      else
        match find_gene
            (set_energy genes i j
              ((Stream.read_int (Stream.read_string infile name).2).1.getD old))
            (Stream.read_string infile name).1 with
        | none => some (Except.error 3)
        | some ptr =>
          read_pairs count (j + 1) i
            (set_mutation_name
              (set_energy genes i j
                ((Stream.read_int (Stream.read_string infile name).2).1.getD old)) i j ptr)
            (Stream.read_int (Stream.read_string infile name).2).2
            (Stream.read_string infile name).1

/-- Outer loop of `read_mutations` over the genes `i, i + 1, ...` (`count` of
them).  The variables `name` and `skip_int` live across the passes; `skip_int`
starts uninitialised (`none`). -/
def read_mutations_from :
    Nat → Nat → List Gene → List String → String → Option Int →
      Option (Except Nat (List Gene))
  | 0, _, genes, _, _, _ => some (Except.ok genes)
  | count + 1, i, genes, infile, name, skip_int =>
    match (Stream.read_int (Stream.read_string infile "").2).1.orElse (fun _ => skip_int) with
    | none => none
    | some k =>
      match read_pairs k.toNat 0 i genes (Stream.read_int (Stream.read_string infile "").2).2
          name with
      | none => none
      | some (Except.error status) => some (Except.error status)
      | some (Except.ok (genes, infile, name)) =>
        read_mutations_from count (i + 1) genes infile name (some k)

/-- Source function `read_mutations` on the tokens of the file. -/
def read_mutations (file : List String) (genes : List Gene) (num_genes : Int) :
    Option (Except Nat (List Gene)) :=
  read_mutations_from ((Stream.read_int file).1.getD num_genes).toNat 0 genes
    (Stream.read_int file).2 "" none

/-- Source function `read_data` on the tokens of a file that opens: the count
is read into the caller's uninitialised `int` and the array is allocated with
that many genes. -/
def read_data (file : List String) : Option (Except Nat (List Gene)) :=
  match (Stream.read_int file).1 with
  | none => none
  | some num_genes =>
    if num_genes < 0 then none
    else
      match read_genes file (init_data num_genes.toNat) num_genes with
      | none => none
      | some (Except.error status) => some (Except.error status)
      | some (Except.ok genes) => read_mutations file genes num_genes

/-- Inner loop of `print_data` for the gene `g` over the slots `j, j + 1, ...`
(`count` of them): one line per mutation. -/
def print_mutations : Nat → Nat → Gene → List Gene → Option String
  | 0, _, _, _ => some ""
  | count + 1, j, g, genes =>
    match g.mutations[j]? with
    | none => none
    | some m =>
      match m.mutation_name with
      | none => none
      | some ptr =>
        match genes[ptr]? with
        | none => none
        | some t =>
          match print_mutations count (j + 1) g genes with
          | none => none
          | some more => some (t.source ++ " - Cost: " ++ toString m.energy ++ "\n" ++ more)

/-- Outer loop of `print_data` over the genes still to print. -/
def print_data_from : List Gene → List Gene → Option String
  | [], _ => some ""
  | g :: rest, genes =>
    if g.possibilities < 1 then
      match print_data_from rest genes with
      | none => none
      | some more => some ("== " ++ g.source ++ " ==\n" ++ "Mutations:\n" ++ "None\n" ++ more)
    else
      match print_mutations g.possibilities.toNat 0 g genes with
      | none => none
      | some lines =>
        match print_data_from rest genes with
        | none => none
        | some more => some ("== " ++ g.source ++ " ==\n" ++ "Mutations:\n" ++ lines ++ more)

/-- Source function `print_data`: the text written to standard output. -/
def print_data (genes : List Gene) : Option String :=
  print_data_from genes genes

/-- Loop of `is_possible` for the gene `starting` over the slots `i, i + 1, ...`
(`count` of them): the first slot whose target is named `mutated`, if any. -/
def first_match : Nat → Nat → Gene → List Gene → String → Option (Option Nat)
  | 0, _, _, _, _ => some none
  | count + 1, i, starting, genes, mutated =>
    match starting.mutations[i]? with
    | none => none
    | some m =>
      match m.mutation_name with
      | none => none
      | some ptr =>
        match genes[ptr]? with
        | none => none
        | some t =>
          if t.source = mutated then some (some i)
          else first_match count (i + 1) starting genes mutated

/-- Source function `is_possible`: the text printed, the string returned and the
standard input afterwards. -/
def is_possible (genes : List Gene) (starting : Nat) (cin : List String) :
    Option (String × String × List String) :=
  match genes[starting]? with
  | none => none
  | some s =>
    match first_match s.possibilities.toNat 0 s genes (Stream.read_string cin "").1 with
    | none => none
    | some (some _) =>
      some (s.source ++ " can mutate into " ++ (Stream.read_string cin "").1,
        (Stream.read_string cin "").1, (Stream.read_string cin "").2)
    | some none =>
      some (s.source ++ " cannot mutate into " ++ (Stream.read_string cin "").1,
        "no", (Stream.read_string cin "").2)

/-- Loop of `energy_cost` for the gene `starting` over the slots `i, i + 1, ...`
(`count` of them): `cost` is overwritten at every slot whose target is named
`mutated`. -/
def matching_cost : Nat → Nat → Gene → List Gene → String → Int → Option Int
  | 0, _, _, _, _, cost => some cost
  | count + 1, i, starting, genes, mutated, cost =>
    match starting.mutations[i]? with
    | none => none
    | some m =>
      match m.mutation_name with
      | none => none
      | some ptr =>
        match genes[ptr]? with
        | none => none
        | some t =>
          matching_cost count (i + 1) starting genes mutated
            (if t.source = mutated then m.energy else cost)

/-- Source function `energy_cost`: the text printed and the standard input
afterwards; `resources` is read into an uninitialised `int`. -/
def energy_cost (genes : List Gene) (starting : Nat) (cin : List String) :
    Option (String × List String) :=
  match is_possible genes starting cin with
  | none => none
  | some (out, mutated, cin) =>
    match genes[starting]? with
    | none => none
    | some s =>
      match matching_cost s.possibilities.toNat 0 s genes mutated 0 with
      | none => none
      | some cost =>
        match Stream.read_int cin with
        | (none, _) => none
        | (some resources, cin) =>
          some (out
            ++ (if cost ≤ resources ∧ mutated ≠ "no" then
                  " with evolutionary cost " ++ toString resources else "")
            ++ (if cost > resources ∧ mutated ≠ "no" then
                  " but not with evolutionary cost " ++ toString resources else ""), cin)

/-- One pass through the body of the `while` loop of `prompt_and_execute` for
the command `input`, up to the next prompt: the text printed and the standard
input afterwards.  The pointer `starting` is uninitialised until the loop over
the genes finds `input2`, which is the search of `find_gene`. -/
def execute (genes : List Gene) (input : String) (cin : List String) :
    Option (String × List String) :=
  if input = "p" then
    match print_data genes with
    | none => none
    | some out => some (out ++ "\n", cin)
  else if input = "m" ∨ input = "me" then
    match find_gene genes (Stream.read_string cin "").1 with
    | none => none
    | some starting =>
      if input = "m" then
        match is_possible genes starting (Stream.read_string cin "").2 with
        | none => none
        | some (out, _, cin) => some (out ++ "\n" ++ "\n", cin)
      else
        match energy_cost genes starting (Stream.read_string cin "").2 with
        | none => none
        | some (out, cin) => some (out ++ "\n" ++ "\n", cin)
  else some (input ++ " not recognized." ++ "\n" ++ "\n", cin)

/-- The `while (input != "q")` loop of `prompt_and_execute`, bounded by fuel:
the text printed until the loop is left. -/
def prompt_and_execute_loop : Nat → List Gene → String → List String → Option String
  | 0, _, _, _ => none
  | fuel + 1, genes, input, cin =>
    if input = "q" then some ""
    else
      match execute genes input cin with
      | none => none
      | some (out, cin) =>
        match prompt_and_execute_loop fuel genes (Stream.read_string cin input).1
            (Stream.read_string cin input).2 with
        | none => none
        | some more => some (out ++ "Enter a query: " ++ more)

/-- Source function `prompt_and_execute`, with the number of loop passes
bounded by fuel: the text printed when the loop is left. -/
def prompt_and_execute (fuel : Nat) (genes : List Gene) (cin : List String) :
    Option String :=
  match prompt_and_execute_loop fuel genes (Stream.read_string cin "").1
      (Stream.read_string cin "").2 with
  | none => none
  | some more => some ("Enter a query: " ++ more)

/-- One pass of the `while (input != "q")` loop from the state `st` (the command
in `input`, the standard input): the body for the command and the read of the
next command.  There is no pass when the loop is left (`input` is `q`) or the
body is undefined. -/
def pass (genes : List Gene) (st : String × List String) : Option (String × List String) :=
  if st.1 = "q" then none
  else
    match execute genes st.1 st.2 with
    | none => none
    | some (_, cin) => some ((Stream.read_string cin st.1).1, (Stream.read_string cin st.1).2)

/-- The state after `n` passes of the loop, when the loop makes that many. -/
def passes (genes : List Gene) : Nat → String × List String → Option (String × List String)
  | 0, st => some st
  | n + 1, st =>
    match pass genes st with
    | none => none
    | some st' => passes genes n st'

/-- Commands before `q` that the loop can carry out on the graph: `p`, `m` with
the name of a gene of the graph and a second name, `me` with these and a token
that is one `int`; any other token is a command of its own. -/
inductive Script (genes : List Gene) : List String → Prop where
  | quit (rest : List String) : Script genes ("q" :: rest)
  | p (rest : List String) : Script genes rest → Script genes ("p" :: rest)
  | m (a b : String) (rest : List String) :
      (find_gene genes a).isSome → Script genes rest → Script genes ("m" :: a :: b :: rest)
  | me (a b c : String) (rest : List String) :
      (find_gene genes a).isSome → (Stream.token_value c).isSome →
      Script genes rest → Script genes ("me" :: a :: b :: c :: rest)
  | other (tok : String) (rest : List String) :
      tok ≠ "q" → tok ≠ "p" → tok ≠ "m" → tok ≠ "me" →
      Script genes rest → Script genes (tok :: rest)

/-! ## Vocabulary of the claims -/

/-- The character is one of `A`, `G`, `C`, `T`. -/
def is_base (c : Char) : Prop :=
  c = 'A' ∨ c = 'G' ∨ c = 'C' ∨ c = 'T'

instance (c : Char) : Decidable (is_base c) := by
  unfold is_base; infer_instance

/-- The mutations of a gene that are in use: the first `possibilities` slots. -/
def used_mutations (g : Gene) : List Mutation :=
  g.mutations.take g.possibilities.toNat

/-- The gene array is as the strict loader leaves it: every edge count is in
`[0, 5]` and within the slots of the gene, and every mutation in use has a
target in the array and a cost that is not negative. -/
def strictly_loaded (genes : List Gene) : Prop :=
  ∀ g ∈ genes, 0 ≤ g.possibilities ∧ g.possibilities ≤ 5 ∧
    g.possibilities.toNat ≤ g.mutations.length ∧
    ∀ m ∈ used_mutations g,
      (∃ ptr ∈ m.mutation_name, ptr < genes.length) ∧ 0 ≤ m.energy

instance (genes : List Gene) : Decidable (strictly_loaded genes) := by
  unfold strictly_loaded; infer_instance

/-- Name of the gene a mutation points to. -/
def target_source (genes : List Gene) (m : Mutation) : String :=
  match m.mutation_name with
  | none => ""
  | some ptr =>
    match genes[ptr]? with
    | none => ""
    | some t => t.source

/-- The mutations in use of the gene `g` whose target is named `name`, in the
order of the slots. -/
def matching (genes : List Gene) (g : Gene) (name : String) : List Mutation :=
  (used_mutations g).filter (fun m => target_source genes m = name)

/-- The names and edge counts the first loop of `read_genes` reads for `count`
genes from the tokens `infile`, when no check stops it. -/
def scan : Nat → List String → List (String × Int)
  | 0, _ => []
  | count + 1, infile =>
    ((Stream.read_string infile " ").1,
      (Stream.read_int (Stream.read_string infile " ").2).1.getD 0) ::
    scan count
      (skip_pairs ((Stream.read_int (Stream.read_string infile " ").2).1.getD 0).toNat
        (Stream.read_int (Stream.read_string infile " ").2).2)

/-- A gene with its name and edge count set and all five slots empty. -/
def blank (e : String × Int) : Gene :=
  ⟨e.1, e.2, List.replicate 5 ⟨none, 0⟩⟩

/-- What the strict loader guarantees of a gene in an array of `n` genes. -/
def good (n : Nat) (g : Gene) : Prop :=
  0 ≤ g.possibilities ∧ g.possibilities ≤ 5 ∧ g.possibilities.toNat ≤ g.mutations.length ∧
    ∀ m ∈ used_mutations g, (∃ ptr ∈ m.mutation_name, ptr < n) ∧ 0 ≤ m.energy

/-- A node line of a file in the format of the strict program: the name of the
gene, the token of its edge count, and one pair of target name and cost token
per edge. -/
structure Line where
  name : String
  count : String
  edges : List (String × String)
deriving DecidableEq

/-- The tokens of a node line, in file order. -/
def Line.tokens (l : Line) : List String :=
  l.name :: l.count :: l.edges.flatMap (fun e => [e.1, e.2])

/-- The tokens of a file: the token of the gene count, then the node lines. -/
def file_tokens (n : String) (lines : List Line) : List String :=
  n :: lines.flatMap Line.tokens

/-- The edge count a node line declares. -/
def Line.edge_count (l : Line) : Int :=
  (Stream.token_value l.count).getD 0

/-- The cost an edge declares. -/
def edge_cost (e : String × String) : Int :=
  (Stream.token_value e.2).getD 0

/-- The node line is in the format: the count token is one `int`, the line lists
as many edges as it declares, and each cost token is one `int`. -/
def Line.shaped (l : Line) : Prop :=
  (Stream.token_value l.count).isSome ∧ l.edges.length = l.edge_count.toNat ∧
    ∀ e ∈ l.edges, (Stream.token_value e.2).isSome

instance (l : Line) : Decidable l.shaped := by
  unfold Line.shaped; infer_instance

/-- The names the node lines declare, in file order. -/
def names_of (lines : List Line) : List String :=
  lines.map Line.name

/-- The files the strict loader accepts, among those in the format: the names
are pairwise distinct, each passes the name check (4 characters over the
alphabet, see `name_check_accepts`), each edge count is in `[0, 5]`, each cost
is at least 0 and each target is a declared name. -/
def valid (lines : List Line) : Prop :=
  (names_of lines).Nodup ∧
  ∀ l ∈ lines, (l.name.data.length = 4 ∧ ∀ c ∈ l.name.data, is_base c) ∧
    0 ≤ l.edge_count ∧ l.edge_count ≤ 5 ∧
    ∀ e ∈ l.edges, 0 ≤ edge_cost e ∧ e.1 ∈ names_of lines

instance (lines : List Line) : Decidable (valid lines) := by
  unfold valid; infer_instance

/-- The gene a node line declares, among the genes named `names`: the edges in
file order in the first slots, each pointing to the gene of its target name, and
the other slots as `init_data` leaves them. -/
def declared_gene (names : List String) (l : Line) : Gene :=
  ⟨l.name, l.edge_count,
    l.edges.map (fun e => ⟨some (names.indexOf e.1), edge_cost e⟩) ++
      List.replicate (5 - l.edges.length) ⟨none, 0⟩⟩

/-- The gene array a file declares. -/
def declared_genes (lines : List Line) : List Gene :=
  lines.map (declared_gene (names_of lines))

/-- The line `<target-name> - Cost: <cost>` of a mutation. -/
def mutation_line (genes : List Gene) (m : Mutation) : String :=
  target_source genes m ++ " - Cost: " ++ toString m.energy ++ "\n"

/-- What the print command shows for one gene: the header line, the line
`Mutations:`, then `None` or one line per mutation in use. -/
def gene_block (genes : List Gene) (g : Gene) : String :=
  "== " ++ g.source ++ " ==\n" ++ "Mutations:\n" ++
    (if g.possibilities = 0 then "None\n"
     else String.join ((used_mutations g).map (mutation_line genes)))

/-- A strictly loaded graph of two genes: `AAAA` with the mutations `CCCC` at
cost 3 and `AAAA` at cost 0, and `CCCC` without mutation. -/
def two_genes : List Gene :=
  [ ⟨"AAAA", 2, [⟨some 1, 3⟩, ⟨some 0, 0⟩, ⟨none, 0⟩, ⟨none, 0⟩, ⟨none, 0⟩]⟩,
    ⟨"CCCC", 0, List.replicate 5 ⟨none, 0⟩⟩ ]

/-- A file whose first gene lists the target `CCCC` twice, with costs 1 and 7,
as the strict loader leaves it. -/
def twice_listed : List Gene :=
  [ ⟨"AAAA", 2, [⟨some 1, 1⟩, ⟨some 1, 7⟩, ⟨none, 0⟩, ⟨none, 0⟩, ⟨none, 0⟩]⟩,
    ⟨"CCCC", 0, List.replicate 5 ⟨none, 0⟩⟩ ]

end Mutations

namespace Lineage

/-! ## Marking a gene as seen -/

theorem getElem?_mark_seen (genes : List Gene) (i j : Nat) :
    (mark_seen genes i)[j]? =
      (genes[j]?).map (fun s => if j = i then { s with seen := true } else s) := by
  unfold mark_seen
  cases hi : genes[i]? with
  | none =>
    by_cases hji : j = i
    · subst hji; simp [hi]
    · simp [hji]
  | some c =>
    simp only []
    by_cases hji : j = i
    · subst hji
      have hlt : j < genes.length := (List.getElem?_eq_some_iff.mp hi).1
      simp [hi, hlt]
    · have hne : i ≠ j := fun h => hji h.symm
      simp [List.getElem?_set_ne hne, hji]

theorem length_mark_seen (genes : List Gene) (i : Nat) :
    (mark_seen genes i).length = genes.length := by
  unfold mark_seen
  cases genes[i]? <;> simp

theorem sq_at_mark_seen (genes : List Gene) (i j : Nat) :
    sq_at (mark_seen genes i) j = sq_at genes j := by
  unfold sq_at
  rw [getElem?_mark_seen]
  cases genes[j]? with
  | none => rfl
  | some s => by_cases h : j = i <;> simp [h]

theorem successor_mark_seen (genes : List Gene) (i : Nat) :
    ∀ k v, successor (mark_seen genes i) k v = successor genes k v := by
  intro k
  induction k with
  | zero => intro v; rfl
  | succ k ih =>
    intro v
    simp only [successor, getElem?_mark_seen]
    cases genes[v]? with
    | none => rfl
    | some s =>
      by_cases h : v = i
      · simp only [Option.map_some', h, if_true]
        cases s.mutation.target with
        | none => rfl
        | some nx => exact ih nx
      · simp only [Option.map_some', h, if_false]
        cases s.mutation.target with
        | none => rfl
        | some nx => exact ih nx

theorem name_after_mark_seen (genes : List Gene) (i k v : Nat) :
    name_after (mark_seen genes i) k v = name_after genes k v := by
  unfold name_after
  rw [successor_mark_seen]
  cases successor genes k v with
  | none => rfl
  | some w => exact sq_at_mark_seen genes i w

theorem walk_cost_mark_seen (genes : List Gene) (i : Nat) :
    ∀ k v, walk_cost (mark_seen genes i) k v = walk_cost genes k v := by
  intro k
  induction k with
  | zero => intro v; rfl
  | succ k ih =>
    intro v
    simp only [walk_cost, getElem?_mark_seen]
    cases genes[v]? with
    | none => rfl
    | some s =>
      by_cases h : v = i
      · simp only [Option.map_some', h, if_true]
        cases s.mutation.target with
        | none => rfl
        | some nx => simp only [ih nx]
      · simp only [Option.map_some', h, if_false]
        cases s.mutation.target with
        | none => rfl
        | some nx => simp only [ih nx]

theorem walk_names_mark_seen (genes : List Gene) (i : Nat) :
    ∀ k v, walk_names (mark_seen genes i) k v = walk_names genes k v := by
  intro k
  induction k with
  | zero => intro v; simp only [walk_names, sq_at_mark_seen]
  | succ k ih =>
    intro v
    simp only [walk_names, getElem?_mark_seen]
    cases genes[v]? with
    | none => rfl
    | some s =>
      by_cases h : v = i
      · simp only [Option.map_some', h, if_true]
        cases s.mutation.target with
        | none => rfl
        | some nx => simp only [ih nx]
      · simp only [Option.map_some', h, if_false]
        cases s.mutation.target with
        | none => rfl
        | some nx => simp only [ih nx]

theorem targets_in_range_iff (genes : List Gene) :
    targets_in_range genes ↔
      ∀ (v : Nat) (s : Gene) (nx : Nat),
        genes[v]? = some s → s.mutation.target = some nx → nx < genes.length := by
  unfold targets_in_range
  constructor
  · intro h v s nx hv hnx
    exact h s (List.getElem?_mem hv) nx hnx
  · intro h s hs nx hnx
    obtain ⟨v, hv⟩ := List.getElem?_of_mem hs
    exact h v s nx hv hnx

theorem targets_in_range_mark_seen (genes : List Gene) (i : Nat)
    (h : targets_in_range genes) : targets_in_range (mark_seen genes i) := by
  rw [targets_in_range_iff] at h ⊢
  intro v s nx hv hnx
  rw [getElem?_mark_seen] at hv
  rw [length_mark_seen]
  cases hg : genes[v]? with
  | none => rw [hg] at hv; cases hv
  | some c =>
    rw [hg] at hv
    simp only [Option.map_some', Option.some.injEq] at hv
    apply h v c nx hg
    by_cases hvi : v = i
    · simp only [hvi, if_true] at hv
      rw [← hv] at hnx; exact hnx
    · simp only [hvi, if_false] at hv
      rw [← hv] at hnx; exact hnx

theorem unseen_le_length (genes : List Gene) : unseen genes ≤ genes.length := by
  unfold unseen
  exact List.length_filter_le _ _

theorem unseen_set (genes : List Gene) :
    ∀ (i : Nat) (c : Gene), genes[i]? = some c → c.seen = false →
      unseen (genes.set i { c with seen := true }) + 1 = unseen genes := by
  induction genes with
  | nil => intro i c h; simp at h
  | cons a rest ih =>
    intro i c h hc
    cases i with
    | zero =>
      simp only [List.getElem?_cons_zero, Option.some.injEq] at h
      subst h
      simp [unseen, List.filter_cons, hc]
    | succ i =>
      simp only [List.getElem?_cons_succ] at h
      have := ih i c h hc
      simp only [unseen, List.set_cons_succ, List.filter_cons] at this ⊢
      by_cases ha : a.seen = true
      · simp [ha]; omega
      · simp [ha]; omega

theorem unseen_mark_seen (genes : List Gene) (i : Nat) (c : Gene)
    (h : genes[i]? = some c) (hc : c.seen = false) :
    unseen (mark_seen genes i) + 1 = unseen genes := by
  unfold mark_seen
  rw [h]
  exact unseen_set genes i c h hc

theorem unseen_of_all_unseen (genes : List Gene) (h : all_unseen genes) :
    unseen genes = genes.length := by
  unfold unseen
  rw [List.filter_eq_self.mpr]
  intro s hs
  simp [h s hs]

/-! ## The walk invariant -/

theorem trail_of_all_unseen (q : String → String → Prop) (genes : List Gene) (cur : Nat)
    (h : all_unseen genes) : trail q genes cur := by
  intro v s hv hs
  have := h s (List.getElem?_mem hv)
  rw [this] at hs
  cases hs

theorem trail_step (q : String → String → Prop) (genes : List Gene) (cur w : Nat)
    (c n : Gene) (h : trail q genes cur) (hc : genes[cur]? = some c)
    (ht : c.mutation.target = some w) (hw : genes[w]? = some n) (hq : q c.sq n.sq) :
    trail q (mark_seen genes cur) w := by
  intro v s hv hs
  rw [getElem?_mark_seen] at hv
  by_cases hvc : v = cur
  · subst hvc
    rw [hc] at hv
    simp only [Option.map_some', if_true, Option.some.injEq] at hv
    subst hv
    refine ⟨w, if w = v then { n with seen := true } else n, ht, ?_, ?_, Or.inr rfl⟩
    · rw [getElem?_mark_seen, hw]; rfl
    · by_cases hwv : w = v <;> simp [hwv, hq]
  · cases hg : genes[v]? with
    | none => rw [hg] at hv; cases hv
    | some s0 =>
      rw [hg] at hv
      simp only [Option.map_some', hvc, if_false, Option.some.injEq] at hv
      subst hv
      obtain ⟨w2, n2, ht2, hw2, hq2, hor⟩ := h v s0 hg hs
      refine ⟨w2, if w2 = cur then { n2 with seen := true } else n2, ht2, ?_, ?_, Or.inl ?_⟩
      · rw [getElem?_mark_seen, hw2]; rfl
      · by_cases hwc : w2 = cur <;> simp [hwc, hq2]
      · by_cases hwc : w2 = cur
        · simp [hwc]
        · rcases hor with hseen | heq
          · simp [hwc, hseen]
          · exact absurd heq hwc

theorem seen_closed (q : String → String → Prop) (genes : List Gene) (cur : Nat) (c : Gene)
    (h : trail q genes cur) (hc : genes[cur]? = some c) (hcs : c.seen = true) :
    ∀ (k v : Nat) (s : Gene), genes[v]? = some s → s.seen = true →
      ∃ (w : Nat) (n : Gene), successor genes k v = some w ∧ genes[w]? = some n ∧
        n.seen = true := by
  intro k
  induction k with
  | zero => intro v s hv hs; exact ⟨v, s, rfl, hv, hs⟩
  | succ k ih =>
    intro v s hv hs
    obtain ⟨w, n, ht, hw, _, hor⟩ := h v s hv hs
    have hn : n.seen = true := by
      rcases hor with hseen | heq
      · exact hseen
      · subst heq; rw [hc] at hw; cases hw; exact hcs
    obtain ⟨w2, n2, h1, h2, h3⟩ := ih w n hw hn
    refine ⟨w2, n2, ?_, h2, h3⟩
    simp only [successor, hv, ht]
    exact h1

theorem successor_succ_right (genes : List Gene) :
    ∀ (k v : Nat), successor genes (k + 1) v = (successor genes k v).bind (successor genes 1) := by
  intro k
  induction k with
  | zero => intro v; rfl
  | succ k ih =>
    intro v
    cases hv : genes[v]? with
    | none => simp [successor, hv]
    | some s =>
      cases ht : s.mutation.target with
      | none => simp [successor, hv, ht]
      | some nx =>
        have h1 : successor genes (k + 1 + 1) v = successor genes (k + 1) nx := by
          simp [successor, hv, ht]
        have h2 : successor genes (k + 1) v = successor genes k nx := by
          simp [successor, hv, ht]
        rw [h1, h2]
        exact ih nx

theorem name_after_step (genes : List Gene) (k v w : Nat) (s : Gene)
    (hv : genes[v]? = some s) (ht : s.mutation.target = some w) :
    name_after genes (k + 1) v = name_after genes k w := by
  simp [name_after, successor, hv, ht]

theorem name_after_dead_end (genes : List Gene) (k v : Nat) (s : Gene)
    (hv : genes[v]? = some s) (ht : s.mutation.target = none) :
    name_after genes (k + 1) v = none := by
  simp [name_after, successor, hv, ht]

theorem name_after_zero (genes : List Gene) (v : Nat) :
    name_after genes 0 v = sq_at genes v := rfl

/-- From a marked gene no edge leads to a gene named `name`, when the marked
genes are those whose target is not named `name`. -/
theorem no_arrival_by_edge (genes : List Gene) (cur : Nat) (c : Gene) (name : String)
    (h : trail (fun _ b => b ≠ name) genes cur) (hc : genes[cur]? = some c)
    (hcs : c.seen = true) (k : Nat) : name_after genes (k + 1) cur ≠ some name := by
  obtain ⟨w, n, h1, h2, h3⟩ := seen_closed _ genes cur c h hc hcs k cur c hc hcs
  obtain ⟨w2, n2, ht2, hw2, hq2, _⟩ := h w n h2 h3
  have : name_after genes (k + 1) cur = some n2.sq := by
    unfold name_after
    rw [successor_succ_right, h1]
    simp [successor, h2, ht2, sq_at, hw2]
  rw [this]
  intro hh
  exact hq2 (Option.some.inj hh)

/-- From a marked gene no gene named `name` is reached, when the marked genes
are those not named `name`. -/
theorem no_arrival_in_place (genes : List Gene) (cur : Nat) (c : Gene) (name : String)
    (h : trail (fun a _ => a ≠ name) genes cur) (hc : genes[cur]? = some c)
    (hcs : c.seen = true) (k : Nat) : name_after genes k cur ≠ some name := by
  obtain ⟨w, n, h1, h2, h3⟩ := seen_closed _ genes cur c h hc hcs k cur c hc hcs
  obtain ⟨w2, n2, _, _, hq2, _⟩ := h w n h2 h3
  have : name_after genes k cur = some n.sq := by
    simp [name_after, h1, sq_at, h2]
  rw [this]
  intro hh
  exact hq2 (Option.some.inj hh)

/-! ## Reachability: `can_evolve` -/

theorem can_evolve_fuel_spec (name : String) :
    ∀ (fuel : Nat) (genes : List Gene) (cur tgt : Nat),
      targets_in_range genes → cur < genes.length → sq_at genes tgt = some name →
      trail (fun _ b => b ≠ name) genes cur → unseen genes < fuel →
      ∃ (b : Bool) (genes' : List Gene),
        can_evolve_fuel fuel genes cur tgt = some (b, genes') ∧
        (b = true ↔ ∃ k, 1 ≤ k ∧ name_after genes k cur = some name) := by
  intro fuel
  induction fuel with
  | zero => intro genes cur tgt _ _ _ _ hf; omega
  | succ fuel ih =>
    intro genes cur tgt hwf hcur htgt htr hf
    obtain ⟨c, hc⟩ : ∃ c, genes[cur]? = some c := ⟨genes[cur], List.getElem?_eq_getElem hcur⟩
    obtain ⟨t, ht, hts⟩ : ∃ t, genes[tgt]? = some t ∧ t.sq = name := by
      unfold sq_at at htgt
      cases hg : genes[tgt]? with
      | none => rw [hg] at htgt; cases htgt
      | some t => rw [hg] at htgt; exact ⟨t, rfl, Option.some.inj htgt⟩
    cases hnx : c.mutation.target with
    | none =>
      refine ⟨false, genes, by simp [can_evolve_fuel, hc, hnx], ?_⟩
      constructor
      · intro h; cases h
      · rintro ⟨k, hk, hr⟩
        obtain ⟨j, rfl⟩ : ∃ j, k = j + 1 := ⟨k - 1, by omega⟩
        rw [name_after_dead_end genes j cur c hc hnx] at hr
        cases hr
    | some w =>
      have hw : w < genes.length := (targets_in_range_iff genes).mp hwf cur c w hc hnx
      obtain ⟨n, hn⟩ : ∃ n, genes[w]? = some n := ⟨genes[w], List.getElem?_eq_getElem hw⟩
      have h1 : name_after genes 1 cur = some n.sq := by
        rw [name_after_step genes 0 cur w c hc hnx]
        simp [name_after, successor, sq_at, hn]
      by_cases hsq : n.sq = t.sq
      · refine ⟨true, genes, by simp [can_evolve_fuel, hc, hnx, hn, ht, hsq], ?_⟩
        constructor
        · intro _; exact ⟨1, Nat.le_refl 1, by rw [h1, hsq, hts]⟩
        · intro _; rfl
      · by_cases hseen : c.seen = true
        · refine ⟨false, genes, by simp [can_evolve_fuel, hc, hnx, hn, ht, hsq, hseen], ?_⟩
          constructor
          · intro h; cases h
          · rintro ⟨k, hk, hr⟩
            obtain ⟨j, rfl⟩ : ∃ j, k = j + 1 := ⟨k - 1, by omega⟩
            exact absurd hr (no_arrival_by_edge genes cur c name htr hc hseen j)
        · have hseen' : c.seen = false := by simpa using hseen
          have hq : n.sq ≠ name := by rw [← hts]; exact hsq
          have hun := unseen_mark_seen genes cur c hc hseen'
          obtain ⟨b, genes', hrun, hiff⟩ := ih (mark_seen genes cur) w tgt
            (targets_in_range_mark_seen genes cur hwf)
            (by rw [length_mark_seen]; exact hw)
            (by rw [sq_at_mark_seen]; exact htgt)
            (trail_step _ genes cur w c n htr hc hnx hn hq)
            (by omega)
          refine ⟨b, genes', by simp [can_evolve_fuel, hc, hnx, hn, ht, hsq, hseen', hrun], ?_⟩
          rw [hiff]
          constructor
          · rintro ⟨k, hk, hr⟩
            rw [name_after_mark_seen] at hr
            exact ⟨k + 1, by omega, by rw [name_after_step genes k cur w c hc hnx]; exact hr⟩
          · rintro ⟨k, hk, hr⟩
            obtain ⟨j, rfl⟩ : ∃ j, k = j + 1 := ⟨k - 1, by omega⟩
            rw [name_after_step genes j cur w c hc hnx] at hr
            refine ⟨j, ?_, by rw [name_after_mark_seen]; exact hr⟩
            rcases Nat.eq_zero_or_pos j with h0 | hpos
            · subst h0
              rw [name_after_zero, sq_at, hn] at hr
              exact absurd (Option.some.inj hr) hq
            · exact hpos

/-! ## First arrivals along a walk -/

theorem first_arrival_step (genes : List Gene) (lo j cur w : Nat) (c : Gene) (name : String)
    (hc : genes[cur]? = some c) (hnx : c.mutation.target = some w) (hlo : lo ≤ j)
    (h : first_arrival genes lo (j + 1) cur name) :
    first_arrival (mark_seen genes cur) lo j w name := by
  obtain ⟨_, hr, hmin⟩ := h
  refine ⟨hlo, ?_, ?_⟩
  · rw [name_after_mark_seen, ← name_after_step genes j cur w c hc hnx]; exact hr
  · intro i hi hloi
    rw [name_after_mark_seen, ← name_after_step genes i cur w c hc hnx]
    exact hmin (i + 1) (by omega) (by omega)

theorem first_arrival_by_edge (genes : List Gene) (k cur w : Nat) (c n : Gene) (name : String)
    (hc : genes[cur]? = some c) (hnx : c.mutation.target = some w) (hn : genes[w]? = some n)
    (hq : n.sq ≠ name) (h : first_arrival genes 1 k cur name) :
    ∃ j, k = j + 1 ∧ 1 ≤ j := by
  obtain ⟨hk, hr, _⟩ := h
  obtain ⟨j, rfl⟩ : ∃ j, k = j + 1 := ⟨k - 1, by omega⟩
  refine ⟨j, rfl, ?_⟩
  rcases Nat.eq_zero_or_pos j with h0 | hpos
  · subst h0
    rw [name_after_step genes 0 cur w c hc hnx, name_after_zero, sq_at, hn] at hr
    exact absurd (Option.some.inj hr) hq
  · exact hpos

/-! ## Step count: `evolution_steps` -/

theorem evolution_steps_fuel_spec (name : String) :
    ∀ (fuel : Nat) (genes : List Gene) (cur tgt : Nat),
      targets_in_range genes → cur < genes.length → sq_at genes tgt = some name →
      trail (fun _ b => b ≠ name) genes cur → unseen genes < fuel →
      ∃ (r : Int) (genes' : List Gene),
        evolution_steps_fuel fuel genes cur tgt = some (r, genes') ∧
        (∀ k, first_arrival genes 1 k cur name → r = (k : Int)) ∧
        ((∀ k, 1 ≤ k → name_after genes k cur ≠ some name) →
          -10000000 ≤ r ∧ r + 10000000 ≤ (unseen genes : Int)) := by
  intro fuel
  induction fuel with
  | zero => intro genes cur tgt _ _ _ _ hf; omega
  | succ fuel ih =>
    intro genes cur tgt hwf hcur htgt htr hf
    obtain ⟨c, hc⟩ : ∃ c, genes[cur]? = some c := ⟨genes[cur], List.getElem?_eq_getElem hcur⟩
    obtain ⟨t, ht, hts⟩ : ∃ t, genes[tgt]? = some t ∧ t.sq = name := by
      unfold sq_at at htgt
      cases hg : genes[tgt]? with
      | none => rw [hg] at htgt; cases htgt
      | some t => rw [hg] at htgt; exact ⟨t, rfl, Option.some.inj htgt⟩
    cases hnx : c.mutation.target with
    | none =>
      refine ⟨-10000000, genes, by simp [evolution_steps_fuel, hc, hnx], ?_, ?_⟩
      · rintro k ⟨hk, hr, _⟩
        obtain ⟨j, rfl⟩ : ∃ j, k = j + 1 := ⟨k - 1, by omega⟩
        rw [name_after_dead_end genes j cur c hc hnx] at hr
        cases hr
      · intro _; omega
    | some w =>
      have hw : w < genes.length := (targets_in_range_iff genes).mp hwf cur c w hc hnx
      obtain ⟨n, hn⟩ : ∃ n, genes[w]? = some n := ⟨genes[w], List.getElem?_eq_getElem hw⟩
      have h1 : name_after genes 1 cur = some n.sq := by
        rw [name_after_step genes 0 cur w c hc hnx]
        simp [name_after, successor, sq_at, hn]
      by_cases hsq : n.sq = t.sq
      · have h1' : name_after genes 1 cur = some name := by rw [h1, hsq, hts]
        refine ⟨1, genes, by simp [evolution_steps_fuel, hc, hnx, hn, ht, hsq], ?_, ?_⟩
        · rintro k ⟨hk, _, hmin⟩
          rcases Nat.lt_or_ge 1 k with hlt | hge
          · exact absurd h1' (hmin 1 hlt (Nat.le_refl 1))
          · have : k = 1 := by omega
            subst this; rfl
        · intro hno; exact absurd h1' (hno 1 (Nat.le_refl 1))
      · by_cases hseen : c.seen = true
        · refine ⟨-10000000, genes,
            by simp [evolution_steps_fuel, hc, hnx, hn, ht, hsq, hseen], ?_, ?_⟩
          · rintro k ⟨hk, hr, _⟩
            obtain ⟨j, rfl⟩ : ∃ j, k = j + 1 := ⟨k - 1, by omega⟩
            exact absurd hr (no_arrival_by_edge genes cur c name htr hc hseen j)
          · intro _; omega
        · have hseen' : c.seen = false := by simpa using hseen
          have hq : n.sq ≠ name := by rw [← hts]; exact hsq
          have hun := unseen_mark_seen genes cur c hc hseen'
          obtain ⟨r, genes', hrun, hpos, hneg⟩ := ih (mark_seen genes cur) w tgt
            (targets_in_range_mark_seen genes cur hwf)
            (by rw [length_mark_seen]; exact hw)
            (by rw [sq_at_mark_seen]; exact htgt)
            (trail_step _ genes cur w c n htr hc hnx hn hq)
            (by omega)
          refine ⟨1 + r, genes',
            by simp [evolution_steps_fuel, hc, hnx, hn, ht, hsq, hseen', hrun], ?_, ?_⟩
          · intro k hk
            obtain ⟨j, rfl, hj⟩ := first_arrival_by_edge genes k cur w c n name hc hnx hn hq hk
            have := hpos j (first_arrival_step genes 1 j cur w c name hc hnx hj hk)
            rw [this]; push_cast; omega
          · intro hno
            have := hneg (by
              intro k hk
              rw [name_after_mark_seen, ← name_after_step genes k cur w c hc hnx]
              exact hno (k + 1) (by omega))
            omega

/-! ## Accumulated cost: `evolution_cost` -/

theorem wrap_int_of_fits (x : Int) (h : fits_int x) : wrap_int x = x := by
  unfold fits_int at h
  unfold wrap_int
  omega

theorem fits_wrap_int (x : Int) : fits_int (wrap_int x) := by
  unfold fits_int wrap_int
  omega

theorem wrap_int_add_congr (a x y : Int) (h : wrap_int x = wrap_int y) :
    wrap_int (a + x) = wrap_int (a + y) := by
  unfold wrap_int at h ⊢
  omega

theorem wrap_int_idem (x : Int) : wrap_int (wrap_int x) = wrap_int x :=
  wrap_int_of_fits _ (fits_wrap_int x)

theorem evolution_cost_fuel_spec (name : String) :
    ∀ (fuel : Nat) (genes : List Gene) (cur tgt : Nat),
      targets_in_range genes → cur < genes.length → sq_at genes tgt = some name →
      trail (fun _ b => b ≠ name) genes cur → unseen genes < fuel →
      ∃ (r : Int) (genes' : List Gene),
        evolution_cost_fuel fuel genes cur tgt = some (r, genes') ∧
        (∀ k, first_arrival genes 1 k cur name →
          wrap_int r = wrap_int (walk_cost genes k cur) ∧
          (k = 1 → r = walk_cost genes k cur) ∧ (2 ≤ k → fits_int r)) ∧
        ((∀ k, 1 ≤ k → name_after genes k cur ≠ some name) →
          ∃ m, m ≤ unseen genes ∧ r = wrap_int (10000000 + walk_cost genes m cur)) := by
  intro fuel
  induction fuel with
  | zero => intro genes cur tgt _ _ _ _ hf; omega
  | succ fuel ih =>
    intro genes cur tgt hwf hcur htgt htr hf
    obtain ⟨c, hc⟩ : ∃ c, genes[cur]? = some c := ⟨genes[cur], List.getElem?_eq_getElem hcur⟩
    obtain ⟨t, ht, hts⟩ : ∃ t, genes[tgt]? = some t ∧ t.sq = name := by
      unfold sq_at at htgt
      cases hg : genes[tgt]? with
      | none => rw [hg] at htgt; cases htgt
      | some t => rw [hg] at htgt; exact ⟨t, rfl, Option.some.inj htgt⟩
    have hsentinel : (10000000 : Int) = wrap_int (10000000 + walk_cost genes 0 cur) := by
      simp [walk_cost, wrap_int]
    cases hnx : c.mutation.target with
    | none =>
      refine ⟨10000000, genes, by simp [evolution_cost_fuel, hc, hnx], ?_, ?_⟩
      · rintro k ⟨hk, hr, _⟩
        obtain ⟨j, rfl⟩ : ∃ j, k = j + 1 := ⟨k - 1, by omega⟩
        rw [name_after_dead_end genes j cur c hc hnx] at hr
        cases hr
      · intro _; exact ⟨0, Nat.zero_le _, hsentinel⟩
    | some w =>
      have hw : w < genes.length := (targets_in_range_iff genes).mp hwf cur c w hc hnx
      obtain ⟨n, hn⟩ : ∃ n, genes[w]? = some n := ⟨genes[w], List.getElem?_eq_getElem hw⟩
      have h1 : name_after genes 1 cur = some n.sq := by
        rw [name_after_step genes 0 cur w c hc hnx]
        simp [name_after, successor, sq_at, hn]
      by_cases hsq : n.sq = t.sq
      · have h1' : name_after genes 1 cur = some name := by rw [h1, hsq, hts]
        refine ⟨c.mutation.cost, genes,
          by simp [evolution_cost_fuel, hc, hnx, hn, ht, hsq], ?_, ?_⟩
        · rintro k ⟨hk, _, hmin⟩
          rcases Nat.lt_or_ge 1 k with hlt | hge
          · exact absurd h1' (hmin 1 hlt (Nat.le_refl 1))
          · have : k = 1 := by omega
            subst this
            have hw1 : walk_cost genes 1 cur = c.mutation.cost := by simp [walk_cost, hc, hnx]
            exact ⟨by rw [hw1], fun _ => hw1.symm, fun h2 => absurd h2 (by omega)⟩
        · intro hno; exact absurd h1' (hno 1 (Nat.le_refl 1))
      · by_cases hseen : c.seen = true
        · refine ⟨10000000, genes,
            by simp [evolution_cost_fuel, hc, hnx, hn, ht, hsq, hseen], ?_, ?_⟩
          · rintro k ⟨hk, hr, _⟩
            obtain ⟨j, rfl⟩ : ∃ j, k = j + 1 := ⟨k - 1, by omega⟩
            exact absurd hr (no_arrival_by_edge genes cur c name htr hc hseen j)
          · intro _; exact ⟨0, Nat.zero_le _, hsentinel⟩
        · have hseen' : c.seen = false := by simpa using hseen
          have hq : n.sq ≠ name := by rw [← hts]; exact hsq
          have hun := unseen_mark_seen genes cur c hc hseen'
          obtain ⟨r, genes', hrun, hpos, hneg⟩ := ih (mark_seen genes cur) w tgt
            (targets_in_range_mark_seen genes cur hwf)
            (by rw [length_mark_seen]; exact hw)
            (by rw [sq_at_mark_seen]; exact htgt)
            (trail_step _ genes cur w c n htr hc hnx hn hq)
            (by omega)
          refine ⟨wrap_int (c.mutation.cost + r), genes',
            by simp [evolution_cost_fuel, hc, hnx, hn, ht, hsq, hseen', hrun], ?_, ?_⟩
          · intro k hk
            obtain ⟨j, rfl, hj⟩ := first_arrival_by_edge genes k cur w c n name hc hnx hn hq hk
            have := (hpos j (first_arrival_step genes 1 j cur w c name hc hnx hj hk)).1
            rw [walk_cost_mark_seen] at this
            have hw1 : walk_cost genes (j + 1) cur = c.mutation.cost + walk_cost genes j w := by
              simp [walk_cost, hc, hnx]
            refine ⟨?_, fun h => by omega, fun _ => fits_wrap_int _⟩
            rw [wrap_int_idem, hw1]
            exact wrap_int_add_congr _ _ _ this
          · intro hno
            obtain ⟨m, hmle, hm⟩ := hneg (by
              intro k hk
              rw [name_after_mark_seen, ← name_after_step genes k cur w c hc hnx]
              exact hno (k + 1) (by omega))
            refine ⟨m + 1, by omega, ?_⟩
            rw [hm, walk_cost_mark_seen]
            have hw1 : walk_cost genes (m + 1) cur = c.mutation.cost + walk_cost genes m w := by
              simp [walk_cost, hc, hnx]
            rw [hw1]
            unfold wrap_int
            omega

theorem evolution_cost_fuel_sum (name : String) (fuel : Nat) (genes : List Gene)
    (cur tgt k : Nat) (hwf : targets_in_range genes) (hcur : cur < genes.length)
    (htgt : sq_at genes tgt = some name) (htr : trail (fun _ b => b ≠ name) genes cur)
    (hf : unseen genes < fuel) (hk : first_arrival genes 1 k cur name)
    (hfit : fits_int (walk_cost genes k cur)) :
    ∃ genes', evolution_cost_fuel fuel genes cur tgt = some (walk_cost genes k cur, genes') := by
  obtain ⟨r, genes', hrun, hpos, _⟩ :=
    evolution_cost_fuel_spec name fuel genes cur tgt hwf hcur htgt htr hf
  obtain ⟨hcongr, hone, htwo⟩ := hpos k hk
  have hr : r = walk_cost genes k cur := by
    rcases Nat.lt_or_ge k 2 with hlt | hge
    · exact hone (by have := hk.1; omega)
    · rw [← wrap_int_of_fits r (htwo hge), hcongr, wrap_int_of_fits _ hfit]
  subst hr
  exact ⟨genes', hrun⟩

/-! ## Joining names with arrows -/

theorem intercalate_go_append (sep : String) :
    ∀ (l : List String) (x acc : String),
      String.intercalate.go (x ++ acc) sep l = x ++ String.intercalate.go acc sep l := by
  intro l
  induction l with
  | nil => intro x acc; rfl
  | cons b l ih =>
    intro x acc
    simp only [String.intercalate.go]
    rw [String.append_assoc x acc sep, String.append_assoc x (acc ++ sep) b]
    exact ih x (acc ++ sep ++ b)

theorem intercalate_cons_cons (sep a b : String) (l : List String) :
    String.intercalate sep (a :: b :: l) = a ++ sep ++ String.intercalate sep (b :: l) := by
  simp only [String.intercalate, String.intercalate.go]
  exact intercalate_go_append sep l (a ++ sep) b

theorem intercalate_singleton (sep a : String) : String.intercalate sep [a] = a := rfl

theorem walk_names_ne_nil (genes : List Gene) (k v : Nat) (h : v < genes.length) :
    walk_names genes k v ≠ [] := by
  have hv : genes[v]? = some genes[v] := List.getElem?_eq_getElem h
  cases k with
  | zero => simp [walk_names, sq_at, hv]
  | succ k =>
    cases ht : (genes[v]).mutation.target with
    | none => simp [walk_names, hv, ht]
    | some nx => simp [walk_names, hv, ht]

theorem intercalate_cons_of_ne_nil (sep a : String) (l : List String) (h : l ≠ []) :
    String.intercalate sep (a :: l) = a ++ sep ++ String.intercalate sep l := by
  cases l with
  | nil => exact absurd rfl h
  | cons b l => exact intercalate_cons_cons sep a b l

/-! ## Path text: `evolution_path` -/

theorem evolution_path_fuel_spec (name : String) :
    ∀ (fuel : Nat) (genes : List Gene) (cur tgt : Nat),
      targets_in_range genes → cur < genes.length → sq_at genes tgt = some name →
      trail (fun a _ => a ≠ name) genes cur → unseen genes < fuel →
      ∃ (r : String) (genes' : List Gene),
        evolution_path_fuel fuel genes cur tgt = some (r, genes') ∧
        (∀ k, first_arrival genes 0 k cur name →
          r = String.intercalate " -> " (walk_names genes k cur)) ∧
        ((∀ k, name_after genes k cur ≠ some name) →
          r.data = ['X'] ∨ ∃ pre, r.data = pre ++ [' ', 'X']) := by
  intro fuel
  induction fuel with
  | zero => intro genes cur tgt _ _ _ _ hf; omega
  | succ fuel ih =>
    intro genes cur tgt hwf hcur htgt htr hf
    obtain ⟨c, hc⟩ : ∃ c, genes[cur]? = some c := ⟨genes[cur], List.getElem?_eq_getElem hcur⟩
    obtain ⟨t, ht, hts⟩ : ∃ t, genes[tgt]? = some t ∧ t.sq = name := by
      unfold sq_at at htgt
      cases hg : genes[tgt]? with
      | none => rw [hg] at htgt; cases htgt
      | some t => rw [hg] at htgt; exact ⟨t, rfl, Option.some.inj htgt⟩
    have h0 : name_after genes 0 cur = some c.sq := by
      rw [name_after_zero, sq_at, hc]; rfl
    by_cases hsq : c.sq = t.sq
    · have h0' : name_after genes 0 cur = some name := by rw [h0, hsq, hts]
      refine ⟨t.sq, genes, by simp [evolution_path_fuel, hc, ht, hsq], ?_, ?_⟩
      · rintro k ⟨_, _, hmin⟩
        rcases Nat.eq_zero_or_pos k with hk | hk
        · subst hk
          simp [walk_names, sq_at, hc, intercalate_singleton, hsq]
        · exact absurd h0' (hmin 0 hk (Nat.le_refl 0))
      · intro hno; exact absurd h0' (hno 0)
    · have hq : c.sq ≠ name := by rw [← hts]; exact hsq
      have hk0 : ∀ k, first_arrival genes 0 k cur name → ∃ j, k = j + 1 := by
        rintro k ⟨_, hr, _⟩
        rcases Nat.eq_zero_or_pos k with hk | hk
        · subst hk; rw [h0] at hr; exact absurd (Option.some.inj hr) hq
        · exact ⟨k - 1, by omega⟩
      cases hnx : c.mutation.target with
      | none =>
        refine ⟨"X", genes, by simp [evolution_path_fuel, hc, ht, hsq, hnx], ?_, ?_⟩
        · intro k hk
          obtain ⟨j, rfl⟩ := hk0 k hk
          have := hk.2.1
          rw [name_after_dead_end genes j cur c hc hnx] at this
          cases this
        · intro _; exact Or.inl rfl
      | some w =>
        have hw : w < genes.length := (targets_in_range_iff genes).mp hwf cur c w hc hnx
        obtain ⟨n, hn⟩ : ∃ n, genes[w]? = some n := ⟨genes[w], List.getElem?_eq_getElem hw⟩
        by_cases hseen : c.seen = true
        · refine ⟨"X", genes, by simp [evolution_path_fuel, hc, ht, hsq, hnx, hseen], ?_, ?_⟩
          · intro k hk
            exact absurd hk.2.1 (no_arrival_in_place genes cur c name htr hc hseen k)
          · intro _; exact Or.inl rfl
        · have hseen' : c.seen = false := by simpa using hseen
          have hun := unseen_mark_seen genes cur c hc hseen'
          obtain ⟨r, genes', hrun, hpos, hneg⟩ := ih (mark_seen genes cur) w tgt
            (targets_in_range_mark_seen genes cur hwf)
            (by rw [length_mark_seen]; exact hw)
            (by rw [sq_at_mark_seen]; exact htgt)
            (trail_step _ genes cur w c n htr hc hnx hn hq)
            (by omega)
          refine ⟨c.sq ++ " -> " ++ r, genes',
            by simp [evolution_path_fuel, hc, ht, hsq, hnx, hseen', hrun], ?_, ?_⟩
          · intro k hk
            obtain ⟨j, rfl⟩ := hk0 k hk
            have := hpos j (first_arrival_step genes 0 j cur w c name hc hnx (Nat.zero_le j) hk)
            rw [this, walk_names_mark_seen]
            have hwn : walk_names genes (j + 1) cur = c.sq :: walk_names genes j w := by
              simp [walk_names, hc, hnx]
            rw [hwn, intercalate_cons_of_ne_nil _ _ _ (walk_names_ne_nil genes j w hw)]
          · intro hno
            have := hneg (by
              intro k
              rw [name_after_mark_seen, ← name_after_step genes k cur w c hc hnx]
              exact hno (k + 1))
            have hsep : (" -> " : String).data = [' ', '-', '>', ' '] := rfl
            rcases this with h | ⟨pre, h⟩
            · refine Or.inr ⟨c.sq.data ++ [' ', '-', '>'], ?_⟩
              simp only [String.data_append, h, hsep]
              simp
            · refine Or.inr ⟨c.sq.data ++ [' ', '-', '>', ' '] ++ pre, ?_⟩
              simp only [String.data_append, h, hsep]
              simp

/-! ## The queries leave every name in place -/

theorem can_evolve_fuel_sq :
    ∀ (fuel : Nat) (genes : List Gene) (src tgt : Nat) (b : Bool) (genes' : List Gene),
      can_evolve_fuel fuel genes src tgt = some (b, genes') →
      ∀ p, sq_at genes' p = sq_at genes p := by
  intro fuel
  induction fuel with
  | zero => intro genes src tgt b genes' h; simp [can_evolve_fuel] at h
  | succ fuel ih =>
    intro genes src tgt b genes' h p
    simp only [can_evolve_fuel] at h
    split at h
    · cases h
    · split at h
      · cases h; rfl
      · split at h
        · split at h
          · cases h; rfl
          · split at h
            · cases h; rfl
            · rw [ih _ _ _ _ _ h p, sq_at_mark_seen]
        · cases h

theorem evolution_steps_fuel_sq :
    ∀ (fuel : Nat) (genes : List Gene) (src tgt : Nat) (r : Int) (genes' : List Gene),
      evolution_steps_fuel fuel genes src tgt = some (r, genes') →
      ∀ p, sq_at genes' p = sq_at genes p := by
  intro fuel
  induction fuel with
  | zero => intro genes src tgt r genes' h; simp [evolution_steps_fuel] at h
  | succ fuel ih =>
    intro genes src tgt r genes' h p
    simp only [evolution_steps_fuel] at h
    split at h
    · cases h
    · split at h
      · cases h; rfl
      · split at h
        · split at h
          · cases h; rfl
          · split at h
            · cases h; rfl
            · split at h
              · cases h
              · rename_i hrec
                cases h
                rw [ih _ _ _ _ _ hrec p, sq_at_mark_seen]
        · cases h

theorem evolution_cost_fuel_sq :
    ∀ (fuel : Nat) (genes : List Gene) (src tgt : Nat) (r : Int) (genes' : List Gene),
      evolution_cost_fuel fuel genes src tgt = some (r, genes') →
      ∀ p, sq_at genes' p = sq_at genes p := by
  intro fuel
  induction fuel with
  | zero => intro genes src tgt r genes' h; simp [evolution_cost_fuel] at h
  | succ fuel ih =>
    intro genes src tgt r genes' h p
    simp only [evolution_cost_fuel] at h
    split at h
    · cases h
    · split at h
      · cases h; rfl
      · split at h
        · split at h
          · cases h; rfl
          · split at h
            · cases h; rfl
            · split at h
              · cases h
              · rename_i hrec
                cases h
                rw [ih _ _ _ _ _ hrec p, sq_at_mark_seen]
        · cases h

theorem evolution_path_fuel_sq :
    ∀ (fuel : Nat) (genes : List Gene) (src tgt : Nat) (r : String) (genes' : List Gene),
      evolution_path_fuel fuel genes src tgt = some (r, genes') →
      ∀ p, sq_at genes' p = sq_at genes p := by
  intro fuel
  induction fuel with
  | zero => intro genes src tgt r genes' h; simp [evolution_path_fuel] at h
  | succ fuel ih =>
    intro genes src tgt r genes' h p
    simp only [evolution_path_fuel] at h
    split at h
    · split at h
      · cases h; rfl
      · split at h
        · cases h; rfl
        · split at h
          · cases h; rfl
          · split at h
            · cases h
            · rename_i hrec
              cases h
              rw [ih _ _ _ _ _ hrec p, sq_at_mark_seen]
    · cases h

/-! ## Looking up the query arguments -/

theorem index_of_from_spec (seq : String) :
    ∀ (l : List Gene) (i : Nat), index_of_from seq l i = -1 ∨
      ∃ j, index_of_from seq l i = ((i + j : Nat) : Int) ∧ sq_at l j = some seq := by
  intro l
  induction l with
  | nil => intro i; exact Or.inl rfl
  | cons d rest ih =>
    intro i
    by_cases hd : d.sq = seq
    · refine Or.inr ⟨0, by simp [index_of_from, hd], by simp [sq_at, hd]⟩
    · rcases ih (i + 1) with h | ⟨j, h1, h2⟩
      · exact Or.inl (by simp [index_of_from, hd, h])
      · refine Or.inr ⟨j + 1, ?_, ?_⟩
        · simp only [index_of_from, hd, if_false, h1]
          congr 1; omega
        · simpa [sq_at] using h2

theorem gene_ptr_index_of (genes : List Gene) (a : String) (p : Nat)
    (h : gene_ptr genes (index_of genes a) = some p) :
    p < genes.length ∧ sq_at genes p = some a := by
  unfold gene_ptr at h
  split at h
  · rename_i hcond
    cases h
    rcases index_of_from_spec a genes 0 with h1 | ⟨j, h1, h2⟩
    · unfold index_of at hcond
      rw [h1] at hcond
      omega
    · unfold index_of at hcond ⊢
      rw [h1] at hcond ⊢
      simp only [Nat.zero_add, Int.toNat_ofNat] at hcond ⊢
      exact ⟨hcond.2, h2⟩
  · cases h

theorem handle_e_eq (genes genes' : List Gene) (a b : String) (src tgt : Nat) (r : Bool)
    (hsrc : gene_ptr genes (index_of genes a) = some src)
    (htgt : gene_ptr genes (index_of genes b) = some tgt)
    (hrun : can_evolve genes src tgt = some (r, genes')) :
    handle_e genes a b =
      some (if r then a ++ " can evolve into " ++ b ++ "\n\n"
            else a ++ " cannot evolve into " ++ b ++ "\n\n", genes') := by
  have hs : sq_at genes' src = some a := by
    rw [can_evolve_fuel_sq _ _ _ _ _ _ hrun]; exact (gene_ptr_index_of genes a src hsrc).2
  have ht : sq_at genes' tgt = some b := by
    rw [can_evolve_fuel_sq _ _ _ _ _ _ hrun]; exact (gene_ptr_index_of genes b tgt htgt).2
  simp only [handle_e, hsrc, htgt, hrun, hs, ht]
  cases r <;> rfl

theorem handle_es_eq (genes genes' : List Gene) (a b : String) (src tgt : Nat) (r : Int)
    (hsrc : gene_ptr genes (index_of genes a) = some src)
    (htgt : gene_ptr genes (index_of genes b) = some tgt)
    (hrun : evolution_steps genes src tgt = some (r, genes')) :
    handle_es genes a b =
      some (if r > 0 then
              "It will take " ++ toString r ++ " evolutionary steps to get from "
                ++ a ++ " to " ++ b ++ "\n\n"
            else "It will take -1 evolutionary steps to get from " ++ a ++ " to " ++ b
                ++ "\n\n", genes') := by
  have hs : sq_at genes' src = some a := by
    rw [evolution_steps_fuel_sq _ _ _ _ _ _ hrun]; exact (gene_ptr_index_of genes a src hsrc).2
  have ht : sq_at genes' tgt = some b := by
    rw [evolution_steps_fuel_sq _ _ _ _ _ _ hrun]; exact (gene_ptr_index_of genes b tgt htgt).2
  simp only [handle_es, hsrc, htgt, hrun, hs, ht]
  split <;> rfl

theorem handle_ene_eq (genes genes' : List Gene) (a b : String) (src tgt : Nat) (r cost : Int)
    (hsrc : gene_ptr genes (index_of genes a) = some src)
    (htgt : gene_ptr genes (index_of genes b) = some tgt)
    (hrun : evolution_cost genes src tgt = some (r, genes')) :
    handle_ene genes a b cost =
      some (if r ≤ cost then
              a ++ " can evolve into " ++ b ++ " with at most " ++ toString cost
                ++ " evolutionary cost\n" ++ "\n"
            else a ++ " cannot evolve into " ++ b ++ " with at most " ++ toString cost
                ++ " evolutionary cost\n" ++ "\n", genes') := by
  have hs : sq_at genes' src = some a := by
    rw [evolution_cost_fuel_sq _ _ _ _ _ _ hrun]; exact (gene_ptr_index_of genes a src hsrc).2
  have ht : sq_at genes' tgt = some b := by
    rw [evolution_cost_fuel_sq _ _ _ _ _ _ hrun]; exact (gene_ptr_index_of genes b tgt htgt).2
  simp only [handle_ene, hsrc, htgt, hrun, hs, ht]
  split <;> rfl

theorem exists_first_arrival (genes : List Gene) (lo k src : Nat) (name : String)
    (hlo : lo ≤ k) (h : name_after genes k src = some name) :
    ∃ k0, k0 ≤ k ∧ first_arrival genes lo k0 src name := by
  induction k using Nat.strong_induction_on with
  | _ k ih =>
    by_cases hmin : ∀ j < k, lo ≤ j → name_after genes j src ≠ some name
    · exact ⟨k, Nat.le_refl k, hlo, h, hmin⟩
    · push_neg at hmin
      obtain ⟨j, hj, hloj, hr⟩ := hmin
      obtain ⟨k0, hk0, hfa⟩ := ih j hj hloj hr
      exact ⟨k0, by omega, hfa⟩

theorem sq_at_of_getElem? (genes : List Gene) (p : Nat) (g : Gene) (h : genes[p]? = some g) :
    sq_at genes p = some g.sq := by
  simp [sq_at, h]

/-! ## Claims about the four queries -/

/-- C1: on a graph whose targets lie in the array and whose seen flags are all
false, `can_evolve src tgt` returns, and it returns true exactly when following
some `k ≥ 1` mutation edges from `src` arrives at a gene named like `tgt`. -/
theorem can_evolve_iff_reachable (genes : List Gene) (src tgt : Nat) (t : Gene)
    (hwf : targets_in_range genes) (hfresh : all_unseen genes)
    (hsrc : src < genes.length) (ht : genes[tgt]? = some t) :
    ∃ (b : Bool) (genes' : List Gene), can_evolve genes src tgt = some (b, genes') ∧
      (b = true ↔ ∃ k, 1 ≤ k ∧ name_after genes k src = some t.sq) :=
  can_evolve_fuel_spec t.sq (genes.length + 1) genes src tgt hwf hsrc
    (sq_at_of_getElem? genes tgt t ht) (trail_of_all_unseen _ genes src hfresh)
    (Nat.lt_succ_of_le (unseen_le_length genes))

theorem can_evolve_iff_reachable_witness :
    targets_in_range fileS3 ∧ all_unseen fileS3 ∧
    (can_evolve fileS3 1 0).map Prod.fst = some true ∧
    (can_evolve fileS3 0 1).map Prod.fst = some false ∧
    (handle_e fileS3 "B" "A").map Prod.fst = some "B can evolve into A\n\n" ∧
    (handle_e fileS3 "A" "B").map Prod.fst = some "A cannot evolve into B\n\n" ∧
    (handle_e fileS1 "AAA" "DDD").map Prod.fst = some "AAA can evolve into DDD\n\n" ∧
    ∃ (b : Bool) (genes' : List Gene), can_evolve fileS3 1 0 = some (b, genes') ∧
      (b = true ↔ ∃ k, 1 ≤ k ∧ name_after fileS3 k 1 = some "A") :=
  ⟨by decide, by decide, by decide, by decide, by decide, by decide, by decide,
    can_evolve_iff_reachable fileS3 1 0 ⟨"A", false, ⟨-1, none⟩⟩
      (by decide) (by decide) (by decide) rfl⟩

/-- C2: when `tgt` is first reached from `src` after `k ≥ 1` edges (seen flags
all false), `evolution_steps src tgt` returns `k` and the `es` query prints `k`
as the number of evolutionary steps. -/
theorem evolution_steps_counts_edges (genes : List Gene) (src tgt k : Nat) (t : Gene)
    (hwf : targets_in_range genes) (hfresh : all_unseen genes)
    (hsrc : src < genes.length) (ht : genes[tgt]? = some t)
    (hk : first_arrival genes 1 k src t.sq) :
    (∃ genes', evolution_steps genes src tgt = some ((k : Int), genes')) ∧
    ∀ (input2 input3 : String),
      gene_ptr genes (index_of genes input2) = some src →
      gene_ptr genes (index_of genes input3) = some tgt →
      ∃ genes', handle_es genes input2 input3 =
        some ("It will take " ++ toString (k : Int) ++ " evolutionary steps to get from "
          ++ input2 ++ " to " ++ input3 ++ "\n\n", genes') := by
  obtain ⟨r, genes', hrun, hpos, _⟩ :=
    evolution_steps_fuel_spec t.sq (genes.length + 1) genes src tgt hwf hsrc
      (sq_at_of_getElem? genes tgt t ht) (trail_of_all_unseen _ genes src hfresh)
      (Nat.lt_succ_of_le (unseen_le_length genes))
  have hr := hpos k hk
  subst hr
  refine ⟨⟨genes', hrun⟩, ?_⟩
  intro input2 input3 h2 h3
  refine ⟨genes', ?_⟩
  rw [handle_es_eq genes genes' input2 input3 src tgt (k : Int) h2 h3 hrun]
  have : (k : Int) > 0 := by have := hk.1; omega
  rw [if_pos this]

theorem evolution_steps_counts_edges_witness :
    first_arrival fileS1 1 3 0 "DDD" ∧
    (handle_es fileS1 "AAA" "DDD").map Prod.fst =
      some "It will take 3 evolutionary steps to get from AAA to DDD\n\n" ∧
    ((∃ genes', evolution_steps fileS1 0 3 = some (((3 : Nat) : Int), genes')) ∧
    ∀ (input2 input3 : String),
      gene_ptr fileS1 (index_of fileS1 input2) = some 0 →
      gene_ptr fileS1 (index_of fileS1 input3) = some 3 →
      ∃ genes', handle_es fileS1 input2 input3 =
        some ("It will take " ++ toString ((3 : Nat) : Int)
          ++ " evolutionary steps to get from " ++ input2 ++ " to " ++ input3 ++ "\n\n",
          genes')) :=
  ⟨by decide, by decide,
    evolution_steps_counts_edges fileS1 0 3 3 ⟨"DDD", false, ⟨-1, none⟩⟩
      (by decide) (by decide) (by decide) rfl (by decide)⟩

/-- C3, as the code has it: when `tgt` is first reached from `src` after
`k ≥ 1` edges (seen flags all false) and the sum of the costs of those `k` edges
is a value of the 32-bit `int`, `evolution_cost src tgt` returns that sum, and
for every budget `b` the `ene` query answers "can evolve" when the sum is at
most `b` and "cannot evolve" when `b` is below the sum. -/
theorem evolution_cost_sums_edges (genes : List Gene) (src tgt k : Nat) (t : Gene)
    (hwf : targets_in_range genes) (hfresh : all_unseen genes)
    (hsrc : src < genes.length) (ht : genes[tgt]? = some t)
    (hk : first_arrival genes 1 k src t.sq)
    (hfit : fits_int (walk_cost genes k src)) :
    (∃ genes', evolution_cost genes src tgt = some (walk_cost genes k src, genes')) ∧
    ∀ (input2 input3 : String) (b : Int),
      gene_ptr genes (index_of genes input2) = some src →
      gene_ptr genes (index_of genes input3) = some tgt →
      (walk_cost genes k src ≤ b →
        ∃ genes', handle_ene genes input2 input3 b =
          some (input2 ++ " can evolve into " ++ input3 ++ " with at most " ++ toString b
            ++ " evolutionary cost\n" ++ "\n", genes')) ∧
      (b < walk_cost genes k src →
        ∃ genes', handle_ene genes input2 input3 b =
          some (input2 ++ " cannot evolve into " ++ input3 ++ " with at most " ++ toString b
            ++ " evolutionary cost\n" ++ "\n", genes')) := by
  obtain ⟨genes', hrun⟩ :=
    evolution_cost_fuel_sum t.sq (genes.length + 1) genes src tgt k hwf hsrc
      (sq_at_of_getElem? genes tgt t ht) (trail_of_all_unseen _ genes src hfresh)
      (Nat.lt_succ_of_le (unseen_le_length genes)) hk hfit
  refine ⟨⟨genes', hrun⟩, ?_⟩
  intro input2 input3 b h2 h3
  have heq := handle_ene_eq genes genes' input2 input3 src tgt _ b h2 h3 hrun
  constructor
  · intro hle
    exact ⟨genes', by rw [heq, if_pos hle]⟩
  · intro hlt
    exact ⟨genes', by rw [heq, if_neg (by omega)]⟩

theorem evolution_cost_sums_edges_witness :
    first_arrival fileS1 1 3 0 "DDD" ∧ walk_cost fileS1 3 0 = 9 ∧
    (handle_ene fileS1 "AAA" "DDD" 9).map Prod.fst =
      some "AAA can evolve into DDD with at most 9 evolutionary cost\n\n" ∧
    (handle_ene fileS1 "AAA" "DDD" 8).map Prod.fst =
      some "AAA cannot evolve into DDD with at most 8 evolutionary cost\n\n" ∧
    ((∃ genes', evolution_cost fileS1 0 3 = some (walk_cost fileS1 3 0, genes')) ∧
    ∀ (input2 input3 : String) (b : Int),
      gene_ptr fileS1 (index_of fileS1 input2) = some 0 →
      gene_ptr fileS1 (index_of fileS1 input3) = some 3 →
      (walk_cost fileS1 3 0 ≤ b →
        ∃ genes', handle_ene fileS1 input2 input3 b =
          some (input2 ++ " can evolve into " ++ input3 ++ " with at most " ++ toString b
            ++ " evolutionary cost\n" ++ "\n", genes')) ∧
      (b < walk_cost fileS1 3 0 →
        ∃ genes', handle_ene fileS1 input2 input3 b =
          some (input2 ++ " cannot evolve into " ++ input3 ++ " with at most " ++ toString b
            ++ " evolutionary cost\n" ++ "\n", genes'))) :=
  ⟨by decide, by decide, by decide, by decide,
    evolution_cost_sums_edges fileS1 0 3 3 ⟨"DDD", false, ⟨-1, none⟩⟩
      (by decide) (by decide) (by decide) rfl (by decide) (by decide)⟩

/-- C3 fails as stated: in the file `3 / A 1 B 2147483647 / B 1 C 1 / C 0` the
walk from `A` first arrives at `C` after 2 edges whose costs add up to
2147483648; the `int` sum is -2147483648, and the query `ene A C 0`, whose
budget is below the total, answers "can evolve". -/
theorem cost_sum_overflows :
    read_genes ["3", "A", "1", "B", "2147483647", "B", "1", "C", "1", "C", "0"] =
      some file_large_cost ∧
    first_arrival file_large_cost 1 2 0 "C" ∧ walk_cost file_large_cost 2 0 = 2147483648 ∧
    (evolution_cost file_large_cost 0 2).map Prod.fst = some (-2147483648) ∧
    (handle_ene file_large_cost "A" "C" 0).map Prod.fst =
      some "A can evolve into C with at most 0 evolutionary cost\n\n" := by
  refine ⟨by decide, by decide, by decide, by decide, by decide⟩

theorem walk_names_spec (genes : List Gene) :
    ∀ (k v : Nat) (name : String), name_after genes k v = some name →
      (walk_names genes k v).length = k + 1 ∧
      ∀ j ≤ k, (walk_names genes k v)[j]? = name_after genes j v := by
  intro k
  induction k with
  | zero =>
    intro v name h
    rw [name_after_zero] at h
    refine ⟨by simp [walk_names, h], ?_⟩
    intro j hj
    have : j = 0 := by omega
    subst this
    simp [walk_names, h, name_after_zero]
  | succ k ih =>
    intro v name h
    cases hv : genes[v]? with
    | none => simp [name_after, successor, hv] at h
    | some s =>
      cases hnx : s.mutation.target with
      | none => rw [name_after_dead_end genes k v s hv hnx] at h; cases h
      | some nx =>
        rw [name_after_step genes k v nx s hv hnx] at h
        obtain ⟨hlen, hget⟩ := ih nx name h
        have hwn : walk_names genes (k + 1) v = s.sq :: walk_names genes k nx := by
          simp [walk_names, hv, hnx]
        rw [hwn]
        refine ⟨by simp [hlen], ?_⟩
        intro j hj
        cases j with
        | zero => simp [name_after_zero, sq_at, hv]
        | succ i =>
          rw [name_after_step genes i v nx s hv hnx, List.getElem?_cons_succ]
          exact hget i (by omega)

/-- C4: when a gene named like `tgt` is first reached from `src` after `k ≥ 0`
edges (seen flags all false), `evolution_path src tgt` returns the names of the
`k + 1` genes of that walk, in walk order, joined by `" -> "`. -/
theorem evolution_path_joins_names (genes : List Gene) (src tgt k : Nat) (t : Gene)
    (hwf : targets_in_range genes) (hfresh : all_unseen genes)
    (hsrc : src < genes.length) (ht : genes[tgt]? = some t)
    (hk : first_arrival genes 0 k src t.sq) :
    (∃ genes', evolution_path genes src tgt =
      some (String.intercalate " -> " (walk_names genes k src), genes')) ∧
    (walk_names genes k src).length = k + 1 ∧
    ∀ j ≤ k, (walk_names genes k src)[j]? = name_after genes j src := by
  obtain ⟨r, genes', hrun, hpos, _⟩ :=
    evolution_path_fuel_spec t.sq (genes.length + 1) genes src tgt hwf hsrc
      (sq_at_of_getElem? genes tgt t ht) (trail_of_all_unseen _ genes src hfresh)
      (Nat.lt_succ_of_le (unseen_le_length genes))
  have hr := hpos k hk
  subst hr
  exact ⟨⟨genes', hrun⟩, walk_names_spec genes k src t.sq hk.2.1⟩

theorem evolution_path_joins_names_witness :
    first_arrival fileS1 0 3 0 "DDD" ∧
    String.intercalate " -> " (walk_names fileS1 3 0) = "AAA -> BBB -> CCC -> DDD" ∧
    (evolution_path fileS2 0 0).map Prod.fst = some "X" ∧
    ((∃ genes', evolution_path fileS1 0 3 =
      some (String.intercalate " -> " (walk_names fileS1 3 0), genes')) ∧
    (walk_names fileS1 3 0).length = 3 + 1 ∧
    ∀ j ≤ 3, (walk_names fileS1 3 0)[j]? = name_after fileS1 j 0) :=
  ⟨by decide, by decide, by decide,
    evolution_path_joins_names fileS1 0 3 3 ⟨"DDD", false, ⟨-1, none⟩⟩
      (by decide) (by decide) (by decide) rfl (by decide)⟩

theorem walk_cost_nonneg (genes : List Gene) (h : costs_nonneg genes) :
    ∀ (k v : Nat), 0 ≤ walk_cost genes k v := by
  intro k
  induction k with
  | zero => intro v; simp [walk_cost]
  | succ k ih =>
    intro v
    cases hv : genes[v]? with
    | none => simp [walk_cost, hv]
    | some s =>
      cases hnx : s.mutation.target with
      | none => simp [walk_cost, hv, hnx]
      | some nx =>
        have h1 : 0 ≤ s.mutation.cost := h s (List.getElem?_mem hv) (by simp [hnx])
        have h2 := ih nx
        simp only [walk_cost, hv, hnx]
        omega

/-- C5, as the code has it: the queries with `src = tgt = s` report "not
reached" when no walk of `k ≥ 1` edges from `s` comes back to a gene named like
`s`: `can_evolve s s` is false, the `es` query prints `-1` (fewer than
10,000,000 genes), `evolution_cost s s` returns the `int` sum of 10,000,000 and
the costs of the `m` edges walked, and when that sum does not overflow (costs
non-negative) the `ene` query answers "cannot evolve" for every budget below
10,000,000.  On the cycle of file S2 the walk from `X` does come back, and
`es X X` prints 3 steps; in the file `2 / A 1 B 2147483647 / B 0` the sum
overflows and `ene A A 5` answers "can evolve". -/
theorem self_query_without_cycle (genes : List Gene) (p : Nat) (s : Gene)
    (hsize : genes.length < 10000000)
    (hwf : targets_in_range genes) (hfresh : all_unseen genes) (hcost : costs_nonneg genes)
    (hs : genes[p]? = some s)
    (hno : ∀ k, 1 ≤ k → name_after genes k p ≠ some s.sq) :
    ((∃ genes', can_evolve genes p p = some (false, genes')) ∧
    (∀ (input : String), gene_ptr genes (index_of genes input) = some p →
      ∃ genes', handle_es genes input input =
        some ("It will take -1 evolutionary steps to get from " ++ input ++ " to " ++ input
          ++ "\n\n", genes')) ∧
    ∃ m, m ≤ genes.length ∧
      (∃ genes', evolution_cost genes p p =
        some (wrap_int (10000000 + walk_cost genes m p), genes')) ∧
      (10000000 + walk_cost genes m p ≤ 2147483647 →
        ∀ (input : String) (b : Int), gene_ptr genes (index_of genes input) = some p →
          b < 10000000 →
          ∃ genes', handle_ene genes input input b =
            some (input ++ " cannot evolve into " ++ input ++ " with at most " ++ toString b
              ++ " evolutionary cost\n" ++ "\n", genes'))) ∧
    (handle_es fileS2 "X" "X").map Prod.fst =
      some "It will take 3 evolutionary steps to get from X to X\n\n" ∧
    (handle_ene file_large_edge "A" "A" 5).map Prod.fst =
      some "A can evolve into A with at most 5 evolutionary cost\n\n" := by
  have hp : p < genes.length := (List.getElem?_eq_some_iff.mp hs).1
  have hsq := sq_at_of_getElem? genes p s hs
  have htr := fun (q : String → String → Prop) => trail_of_all_unseen q genes p hfresh
  have hfuel : unseen genes < genes.length + 1 := Nat.lt_succ_of_le (unseen_le_length genes)
  refine ⟨⟨?_, ?_, ?_⟩, by decide, by decide⟩
  · obtain ⟨b, genes', hrun, hiff⟩ :=
      can_evolve_fuel_spec s.sq (genes.length + 1) genes p p hwf hp hsq (htr _) hfuel
    cases b with
    | false => exact ⟨genes', hrun⟩
    | true =>
      obtain ⟨k, hk, hr⟩ := hiff.mp rfl
      exact absurd hr (hno k hk)
  · intro input hin
    obtain ⟨r, genes', hrun, _, hneg⟩ :=
      evolution_steps_fuel_spec s.sq (genes.length + 1) genes p p hwf hp hsq (htr _) hfuel
    have hb := hneg hno
    have hle := unseen_le_length genes
    refine ⟨genes', ?_⟩
    rw [handle_es_eq genes genes' input input p p r hin hin hrun, if_neg (by omega)]
  · obtain ⟨r, genes', hrun, _, hneg⟩ :=
      evolution_cost_fuel_spec s.sq (genes.length + 1) genes p p hwf hp hsq (htr _) hfuel
    obtain ⟨m, hmle, hm⟩ := hneg hno
    have hnn := walk_cost_nonneg genes hcost m p
    have hle := unseen_le_length genes
    subst hm
    refine ⟨m, by omega, ⟨genes', hrun⟩, ?_⟩
    intro hfit input b hin hb
    have hw := wrap_int_of_fits (10000000 + walk_cost genes m p) ⟨by omega, hfit⟩
    refine ⟨genes', ?_⟩
    rw [handle_ene_eq genes genes' input input p p _ b hin hin hrun, if_neg (by omega)]

theorem no_return_fileS3 : ∀ k, 1 ≤ k → name_after fileS3 k 0 ≠ some "A" := by
  intro k hk
  obtain ⟨j, rfl⟩ : ∃ j, k = j + 1 := ⟨k - 1, by omega⟩
  rw [name_after_dead_end fileS3 j 0 ⟨"A", false, ⟨-1, none⟩⟩ rfl rfl]
  simp

theorem self_query_without_cycle_witness :
    fileS3.length < 10000000 ∧ costs_nonneg fileS3 ∧
    (handle_es fileS3 "A" "A").map Prod.fst =
      some "It will take -1 evolutionary steps to get from A to A\n\n" ∧
    (evolution_cost fileS3 0 0).map Prod.fst = some 10000000 ∧
    (handle_ene fileS3 "A" "A" 100).map Prod.fst =
      some "A cannot evolve into A with at most 100 evolutionary cost\n\n" ∧
    (((∃ genes', can_evolve fileS3 0 0 = some (false, genes')) ∧
    (∀ (input : String), gene_ptr fileS3 (index_of fileS3 input) = some 0 →
      ∃ genes', handle_es fileS3 input input =
        some ("It will take -1 evolutionary steps to get from " ++ input ++ " to " ++ input
          ++ "\n\n", genes')) ∧
    ∃ m, m ≤ fileS3.length ∧
      (∃ genes', evolution_cost fileS3 0 0 =
        some (wrap_int (10000000 + walk_cost fileS3 m 0), genes')) ∧
      (10000000 + walk_cost fileS3 m 0 ≤ 2147483647 →
        ∀ (input : String) (b : Int), gene_ptr fileS3 (index_of fileS3 input) = some 0 →
          b < 10000000 →
          ∃ genes', handle_ene fileS3 input input b =
            some (input ++ " cannot evolve into " ++ input ++ " with at most " ++ toString b
              ++ " evolutionary cost\n" ++ "\n", genes'))) ∧
    (handle_es fileS2 "X" "X").map Prod.fst =
      some "It will take 3 evolutionary steps to get from X to X\n\n" ∧
    (handle_ene file_large_edge "A" "A" 5).map Prod.fst =
      some "A can evolve into A with at most 5 evolutionary cost\n\n") :=
  ⟨by decide, by decide, by decide, by decide, by decide,
    self_query_without_cycle fileS3 0 ⟨"A", false, ⟨-1, none⟩⟩ (by decide) (by decide)
      (by decide) (by decide) rfl no_return_fileS3⟩

/-- C5 fails as stated: on the cycle of file S2 the gene `X` is reached from
itself, `can_evolve X X` is true and `es X X` prints 3 steps, not -1. -/
theorem self_query_on_cycle_reaches :
    (can_evolve fileS2 0 0).map Prod.fst = some true ∧
    (handle_es fileS2 "X" "X").map Prod.fst =
      some "It will take 3 evolutionary steps to get from X to X\n\n" ∧
    (handle_es fileS2 "X" "X").map Prod.fst ≠
      some "It will take -1 evolutionary steps to get from X to X\n\n" ∧
    (handle_ene fileS2 "X" "X" 3).map Prod.fst =
      some "X can evolve into X with at most 3 evolutionary cost\n\n" := by
  decide

/-- C6: on file S2 the query `path X X` has the one-gene path `X`, yet
`handle_path` prints the no-path message, because the path text `X` ends in the
failure marker. -/
theorem handle_path_marker_collision :
    first_arrival fileS2 0 0 0 "X" ∧
    (evolution_path fileS2 0 0).map Prod.fst = some "X" ∧
    (handle_path fileS2 "X" "X").map Prod.fst = some "There is no path from X to X\n\n" ∧
    (handle_path fileS2 "Y" "X").map Prod.fst = some "There is no path from Y to X\n\n" ∧
    (evolution_path fileS2 1 0).map Prod.fst = some "Y -> Z -> X" := by
  decide

/-- C7: on file S3 there is no path from `A` to `B`, yet with budget 10000000
the `ene` query answers that `A` can evolve into `B`. -/
theorem handle_ene_sentinel_within_budget :
    (∀ k, name_after fileS3 k 0 ≠ some "B") ∧
    (evolution_cost fileS3 0 1).map Prod.fst = some 10000000 ∧
    (handle_ene fileS3 "A" "B" 10000000).map Prod.fst =
      some "A can evolve into B with at most 10000000 evolutionary cost\n\n" := by
  refine ⟨?_, by decide, by decide⟩
  intro k
  cases k with
  | zero => decide
  | succ j =>
    rw [name_after_dead_end fileS3 j 0 ⟨"A", false, ⟨-1, none⟩⟩ rfl rfl]
    simp

/-- C8: on a graph with fewer than 10,000,000 genes and all seen flags false,
when no walk of `k ≥ 1` edges from `src` arrives at a gene named like `tgt`,
`evolution_steps src tgt` returns a value that is not positive and the `es`
query prints `-1` as the step count. -/
theorem evolution_steps_no_path (genes : List Gene) (src tgt : Nat) (t : Gene)
    (hsize : genes.length < 10000000)
    (hwf : targets_in_range genes) (hfresh : all_unseen genes)
    (hsrc : src < genes.length) (ht : genes[tgt]? = some t)
    (hno : ∀ k, 1 ≤ k → name_after genes k src ≠ some t.sq) :
    (∃ (r : Int) (genes' : List Gene),
      evolution_steps genes src tgt = some (r, genes') ∧ r ≤ 0) ∧
    ∀ (input2 input3 : String),
      gene_ptr genes (index_of genes input2) = some src →
      gene_ptr genes (index_of genes input3) = some tgt →
      ∃ genes', handle_es genes input2 input3 =
        some ("It will take -1 evolutionary steps to get from " ++ input2 ++ " to " ++ input3
          ++ "\n\n", genes') := by
  obtain ⟨r, genes', hrun, _, hneg⟩ :=
    evolution_steps_fuel_spec t.sq (genes.length + 1) genes src tgt hwf hsrc
      (sq_at_of_getElem? genes tgt t ht) (trail_of_all_unseen _ genes src hfresh)
      (Nat.lt_succ_of_le (unseen_le_length genes))
  have hb := hneg hno
  have hle := unseen_le_length genes
  have hr : r ≤ 0 := by omega
  refine ⟨⟨r, genes', hrun, hr⟩, ?_⟩
  intro input2 input3 h2 h3
  refine ⟨genes', ?_⟩
  rw [handle_es_eq genes genes' input2 input3 src tgt r h2 h3 hrun, if_neg (by omega)]

theorem no_path_fileS3 : ∀ k, 1 ≤ k → name_after fileS3 k 0 ≠ some "B" := by
  intro k hk
  obtain ⟨j, rfl⟩ : ∃ j, k = j + 1 := ⟨k - 1, by omega⟩
  rw [name_after_dead_end fileS3 j 0 ⟨"A", false, ⟨-1, none⟩⟩ rfl rfl]
  simp

theorem evolution_steps_no_path_witness :
    fileS3.length < 10000000 ∧
    (evolution_steps fileS3 0 1).map Prod.fst = some (-10000000) ∧
    (handle_es fileS3 "A" "B").map Prod.fst =
      some "It will take -1 evolutionary steps to get from A to B\n\n" ∧
    ((∃ (r : Int) (genes' : List Gene),
      evolution_steps fileS3 0 1 = some (r, genes') ∧ r ≤ 0) ∧
    ∀ (input2 input3 : String),
      gene_ptr fileS3 (index_of fileS3 input2) = some 0 →
      gene_ptr fileS3 (index_of fileS3 input3) = some 1 →
      ∃ genes', handle_es fileS3 input2 input3 =
        some ("It will take -1 evolutionary steps to get from " ++ input2 ++ " to " ++ input3
          ++ "\n\n", genes')) :=
  ⟨by decide, by decide, by decide,
    evolution_steps_no_path fileS3 0 1 ⟨"B", false, ⟨5, some 0⟩⟩ (by decide) (by decide)
      (by decide) (by decide) rfl no_path_fileS3⟩

/-! ## Reading a path text -/

theorem suffix_of_failure_text (name r : List Char) (hne : name ≠ []) (hb : ' ' ∉ name)
    (hr : r = ['X'] ∨ ∃ pre, r = pre ++ [' ', 'X']) (hs : name <:+ r) : name = ['X'] := by
  have key : ∀ pre : List Char, name <:+ pre ++ ['X'] →
      (∀ t, t <:+ pre → t ≠ [] → ' ' ∈ t) → name = ['X'] := by
    intro pre h hpre
    rcases List.suffix_concat_iff.mp h with h0 | ⟨t, ht, hsuf⟩
    · exact absurd h0 hne
    · by_cases ht0 : t = []
      · subst ht0; simpa using ht
      · have := hpre t hsuf ht0
        exact absurd (by rw [ht]; exact List.mem_append_left _ this) hb
  rcases hr with h | ⟨pre, h⟩
  · subst h
    refine key [] (by simpa using hs) ?_
    intro t ht ht0
    exact absurd (List.suffix_nil.mp ht) ht0
  · subst h
    have hs' : name <:+ (pre ++ [' ']) ++ ['X'] := by simpa using hs
    refine key (pre ++ [' ']) hs' ?_
    intro t ht ht0
    rcases List.suffix_concat_iff.mp ht with h0 | ⟨t2, ht2, _⟩
    · exact absurd h0 ht0
    · rw [ht2]; simp

theorem intercalate_ends_in_last (sep : String) :
    ∀ (l : List String) (x : String), l.getLast? = some x →
      ends_in (String.intercalate sep l) x := by
  intro l
  induction l with
  | nil => intro x h; simp at h
  | cons a l ih =>
    intro x h
    cases l with
    | nil =>
      simp only [List.getLast?_singleton, Option.some.injEq] at h
      subst h
      exact List.suffix_refl _
    | cons b l =>
      rw [List.getLast?_cons_cons] at h
      have := ih x h
      unfold ends_in at this ⊢
      rw [intercalate_cons_cons, String.data_append]
      exact this.trans (List.suffix_append _ _)

theorem walk_names_getLast? (genes : List Gene) (k v : Nat) (name : String)
    (h : name_after genes k v = some name) :
    (walk_names genes k v).getLast? = some name := by
  obtain ⟨hlen, hget⟩ := walk_names_spec genes k v name h
  rw [List.getLast?_eq_getElem?, hlen, Nat.add_sub_cancel, hget k (Nat.le_refl k), h]

theorem walk_names_mem (genes : List Gene) :
    ∀ (k v : Nat) (x : String), x ∈ walk_names genes k v → ∃ g ∈ genes, g.sq = x := by
  intro k
  induction k with
  | zero =>
    intro v x hx
    cases hv : genes[v]? with
    | none => simp [walk_names, sq_at, hv] at hx
    | some s =>
      simp only [walk_names, sq_at, hv, Option.map_some', Option.toList_some,
        List.mem_singleton] at hx
      exact ⟨s, List.getElem?_mem hv, hx.symm⟩
  | succ k ih =>
    intro v x hx
    cases hv : genes[v]? with
    | none => simp [walk_names, hv] at hx
    | some s =>
      cases hnx : s.mutation.target with
      | none =>
        simp only [walk_names, hv, hnx, List.mem_singleton] at hx
        exact ⟨s, List.getElem?_mem hv, hx.symm⟩
      | some nx =>
        simp only [walk_names, hv, hnx, List.mem_cons] at hx
        rcases hx with hx | hx
        · exact ⟨s, List.getElem?_mem hv, hx.symm⟩
        · exact ih nx x hx

theorem count_arrows_sep (rest : List Char) :
    count_arrows (' ' :: '-' :: '>' :: ' ' :: rest) = 1 + count_arrows rest := by
  simp [count_arrows]

theorem count_arrows_skip (c : Char) (l : List Char) (h : c ≠ ' ') :
    count_arrows (c :: l) = count_arrows l := by
  rw [count_arrows.eq_def]
  split
  · rename_i heq
    simp at heq
    exact absurd heq.1 h
  · rename_i heq
    simp at heq
    rw [heq.2]
  · rename_i heq; simp at heq

theorem count_arrows_blank_free : ∀ (l : List Char), ' ' ∉ l → count_arrows l = 0 := by
  intro l
  induction l with
  | nil => intro _; rfl
  | cons c l ih =>
    intro h
    simp only [List.mem_cons, not_or] at h
    rw [count_arrows_skip c l (fun e => h.1 e.symm)]
    exact ih h.2

theorem count_arrows_name_sep (rest : List Char) :
    ∀ (a : List Char), ' ' ∉ a →
      count_arrows (a ++ [' ', '-', '>', ' '] ++ rest) = 1 + count_arrows rest := by
  intro a
  induction a with
  | nil => intro _; exact count_arrows_sep rest
  | cons c a ih =>
    intro h
    simp only [List.mem_cons, not_or] at h
    simp only [List.cons_append]
    rw [count_arrows_skip c _ (fun e => h.1 e.symm)]
    exact ih h.2

theorem count_arrows_intercalate :
    ∀ (l : List String), (∀ x ∈ l, ' ' ∉ x.data) →
      count_arrows (String.intercalate " -> " l).data = l.length - 1 := by
  intro l
  induction l with
  | nil => intro _; rfl
  | cons a l ih =>
    intro h
    cases l with
    | nil =>
      rw [intercalate_singleton]
      exact count_arrows_blank_free a.data (h a (List.mem_cons_self a []))
    | cons b l =>
      have hsep : (" -> " : String).data = [' ', '-', '>', ' '] := rfl
      rw [intercalate_cons_cons, String.data_append, String.data_append, hsep,
        count_arrows_name_sep _ a.data (h a (List.mem_cons_self a _)),
        ih (fun x hx => h x (List.mem_cons_of_mem a hx))]
      simp only [List.length_cons]
      omega

theorem first_arrival_lift (genes : List Gene) (k src : Nat) (name : String)
    (h0 : name_after genes 0 src ≠ some name) (h : first_arrival genes 0 k src name) :
    first_arrival genes 1 k src name := by
  obtain ⟨_, hr, hmin⟩ := h
  refine ⟨?_, hr, fun j hj _ => hmin j hj (Nat.zero_le j)⟩
  rcases Nat.eq_zero_or_pos k with hk | hk
  · subst hk; exact absurd hr h0
  · exact hk

/-! ## Claims relating the queries -/

/-- C9, as the code has it: on a graph with fewer than 10,000,000 genes, each
query run from all-false seen flags, for every pair of genes `s`, `t`:
`can_evolve s t` is true iff `evolution_steps s t ≥ 1`, and then the text of
`evolution_path s t` ends in the name of `t`.  The three agree, so
`evolution_steps s t ≥ 1` iff the path text ends in the name of `t`, for every
pair whose names differ or where a walk of `k ≥ 1` edges from `s` comes back to
a gene named like `s`, provided `t` is not an unreachable gene named `X` (names
non-empty and blank-free). -/
theorem queries_agree (genes : List Gene) (src tgt : Nat) (s t : Gene)
    (hsize : genes.length < 10000000)
    (hwf : targets_in_range genes) (hfresh : all_unseen genes)
    (hs : genes[src]? = some s) (ht : genes[tgt]? = some t) :
    ∃ (b : Bool) (r : Int) (path : String) (g1 g2 g3 : List Gene),
      can_evolve genes src tgt = some (b, g1) ∧
      evolution_steps genes src tgt = some (r, g2) ∧
      evolution_path genes src tgt = some (path, g3) ∧
      (b = true ↔ 1 ≤ r) ∧ (1 ≤ r → ends_in path t.sq) ∧
      ((s.sq ≠ t.sq ∨ ∃ k, 1 ≤ k ∧ name_after genes k src = some t.sq) →
        (t.sq ≠ "X" ∨ ∃ k, name_after genes k src = some t.sq) →
        t.sq ≠ "" → ' ' ∉ t.sq.data →
        (1 ≤ r ↔ ends_in path t.sq)) := by
  have hsrc : src < genes.length := (List.getElem?_eq_some_iff.mp hs).1
  have hsq := sq_at_of_getElem? genes tgt t ht
  have htr := fun (q : String → String → Prop) => trail_of_all_unseen q genes src hfresh
  have hfuel : unseen genes < genes.length + 1 := Nat.lt_succ_of_le (unseen_le_length genes)
  have hle := unseen_le_length genes
  obtain ⟨b, g1, hrun1, hiff⟩ :=
    can_evolve_fuel_spec t.sq (genes.length + 1) genes src tgt hwf hsrc hsq (htr _) hfuel
  obtain ⟨r, g2, hrun2, hpos2, hneg2⟩ :=
    evolution_steps_fuel_spec t.sq (genes.length + 1) genes src tgt hwf hsrc hsq (htr _) hfuel
  obtain ⟨path, g3, hrun3, hpos3, hneg3⟩ :=
    evolution_path_fuel_spec t.sq (genes.length + 1) genes src tgt hwf hsrc hsq (htr _) hfuel
  refine ⟨b, r, path, g1, g2, g3, hrun1, hrun2, hrun3, ?_⟩
  by_cases hex : ∃ k, 1 ≤ k ∧ name_after genes k src = some t.sq
  · obtain ⟨k, hk, hr⟩ := hex
    obtain ⟨k1, _, hfa1⟩ := exists_first_arrival genes 1 k src t.sq hk hr
    obtain ⟨k0, _, hfa0⟩ := exists_first_arrival genes 0 k src t.sq (Nat.zero_le k) hr
    have hb : b = true := hiff.mpr ⟨k, hk, hr⟩
    have hr1 : 1 ≤ r := by rw [hpos2 k1 hfa1]; have := hfa1.1; omega
    have hend : ends_in path t.sq := by
      rw [hpos3 k0 hfa0]
      exact intercalate_ends_in_last _ _ _ (walk_names_getLast? genes k0 src t.sq hfa0.2.1)
    exact ⟨⟨fun _ => hr1, fun _ => hb⟩, fun _ => hend,
      fun _ _ _ _ => ⟨fun _ => hend, fun _ => hr1⟩⟩
  · have hno1 : ∀ k, 1 ≤ k → name_after genes k src ≠ some t.sq :=
      fun k hk hr => hex ⟨k, hk, hr⟩
    have hb : ¬ b = true := fun h => hex (hiff.mp h)
    have hr0 : ¬ 1 ≤ r := by have := hneg2 hno1; omega
    refine ⟨⟨fun h => absurd h hb, fun h => absurd h hr0⟩, fun h => absurd h hr0, ?_⟩
    intro hpair hmark htne htb
    have hne : s.sq ≠ t.sq := by
      rcases hpair with h | h
      · exact h
      · exact absurd h hex
    have h0 : name_after genes 0 src ≠ some t.sq := by
      rw [name_after_zero, sq_at_of_getElem? genes src s hs]
      exact fun h => hne (Option.some.inj h)
    have hno0 : ∀ k, name_after genes k src ≠ some t.sq := by
      intro k
      rcases Nat.eq_zero_or_pos k with hk | hk
      · subst hk; exact h0
      · exact hno1 k hk
    have htX : t.sq ≠ "X" := by
      rcases hmark with h | ⟨k, h⟩
      · exact h
      · exact absurd h (hno0 k)
    have hend : ¬ ends_in path t.sq := by
      intro h
      have hne' : t.sq.data ≠ [] := fun e => htne (String.ext e)
      have := suffix_of_failure_text t.sq.data path.data hne' htb (hneg3 hno0) h
      exact htX (String.ext this)
    exact ⟨fun h => absurd h hr0, fun h => absurd h hend⟩

theorem queries_agree_witness :
    fileS1.length < 10000000 ∧
    (can_evolve fileS1 0 3).map Prod.fst = some true ∧
    (evolution_steps fileS1 0 3).map Prod.fst = some 3 ∧
    (evolution_path fileS1 0 3).map Prod.fst = some "AAA -> BBB -> CCC -> DDD" ∧
    ends_in "AAA -> BBB -> CCC -> DDD" "DDD" ∧
    (can_evolve fileS1 3 0).map Prod.fst = some false ∧
    (evolution_steps fileS1 3 0).map Prod.fst = some (-10000000) ∧
    (evolution_path fileS1 3 0).map Prod.fst = some "X" ∧
    ¬ ends_in "X" "AAA" ∧
    (can_evolve fileS2 1 1).map Prod.fst = some true ∧
    (evolution_steps fileS2 1 1).map Prod.fst = some 3 ∧
    (evolution_path fileS2 1 1).map Prod.fst = some "Y" ∧
    ∃ (b : Bool) (r : Int) (path : String) (g1 g2 g3 : List Gene),
      can_evolve fileS1 0 3 = some (b, g1) ∧
      evolution_steps fileS1 0 3 = some (r, g2) ∧
      evolution_path fileS1 0 3 = some (path, g3) ∧
      (b = true ↔ 1 ≤ r) ∧ (1 ≤ r → ends_in path "DDD") ∧
      (("AAA" ≠ "DDD" ∨ ∃ k, 1 ≤ k ∧ name_after fileS1 k 0 = some "DDD") →
        ("DDD" ≠ "X" ∨ ∃ k, name_after fileS1 k 0 = some "DDD") →
        "DDD" ≠ "" → ' ' ∉ "DDD".data →
        (1 ≤ r ↔ ends_in path "DDD")) :=
  ⟨by decide, by decide, by decide, by decide, by decide, by decide, by decide, by decide,
    by decide, by decide, by decide, by decide,
    queries_agree fileS1 0 3 ⟨"AAA", false, ⟨2, some 1⟩⟩ ⟨"DDD", false, ⟨-1, none⟩⟩
      (by decide) (by decide) (by decide) rfl rfl⟩

/-- C9 fails as stated: in file S3 with `s = t = A` the path text `A` ends in
the name of `t` although `can_evolve` is false and `evolution_steps` is below 1;
and with a gene named `X` that cannot be reached, the failure text `X` ends in
its name as well. -/
theorem queries_disagree_in_place :
    (can_evolve fileS3 0 0).map Prod.fst = some false ∧
    (evolution_steps fileS3 0 0).map Prod.fst = some (-10000000) ∧
    (evolution_path fileS3 0 0).map Prod.fst = some "A" ∧
    ends_in "A" "A" ∧
    (can_evolve fileDeadX 0 1).map Prod.fst = some false ∧
    (evolution_path fileDeadX 0 1).map Prod.fst = some "X" ∧
    ends_in "X" "X" := by
  decide

/-- C10, as the code has it: for genes `s` and `t` with different names such
that a gene named like `t` is reached from `s` (names blank-free, each query run
from all-false seen flags), `evolution_steps s t` equals the number of `" -> "`
separators in the text of `evolution_path s t`. -/
theorem steps_equal_arrows (genes : List Gene) (src tgt k : Nat) (s t : Gene)
    (hwf : targets_in_range genes) (hfresh : all_unseen genes) (hblank : blank_free genes)
    (hs : genes[src]? = some s) (ht : genes[tgt]? = some t)
    (hne : s.sq ≠ t.sq) (hpath : name_after genes k src = some t.sq) :
    ∃ (r : Int) (path : String) (g1 g2 : List Gene),
      evolution_steps genes src tgt = some (r, g1) ∧
      evolution_path genes src tgt = some (path, g2) ∧
      r = (count_arrows path.data : Int) := by
  have hsrc : src < genes.length := (List.getElem?_eq_some_iff.mp hs).1
  have hsq := sq_at_of_getElem? genes tgt t ht
  have htr := fun (q : String → String → Prop) => trail_of_all_unseen q genes src hfresh
  have hfuel : unseen genes < genes.length + 1 := Nat.lt_succ_of_le (unseen_le_length genes)
  have h0 : name_after genes 0 src ≠ some t.sq := by
    rw [name_after_zero, sq_at_of_getElem? genes src s hs]
    exact fun h => hne (Option.some.inj h)
  obtain ⟨r, g1, hrun1, hpos1, _⟩ :=
    evolution_steps_fuel_spec t.sq (genes.length + 1) genes src tgt hwf hsrc hsq (htr _) hfuel
  obtain ⟨path, g2, hrun2, hpos2, _⟩ :=
    evolution_path_fuel_spec t.sq (genes.length + 1) genes src tgt hwf hsrc hsq (htr _) hfuel
  obtain ⟨k0, _, hfa0⟩ := exists_first_arrival genes 0 k src t.sq (Nat.zero_le k) hpath
  have hfa1 := first_arrival_lift genes k0 src t.sq h0 hfa0
  refine ⟨r, path, g1, g2, hrun1, hrun2, ?_⟩
  rw [hpos1 k0 hfa1, hpos2 k0 hfa0, count_arrows_intercalate, 
    (walk_names_spec genes k0 src t.sq hfa0.2.1).1, Nat.add_sub_cancel]
  intro x hx
  obtain ⟨g, hg, hgx⟩ := walk_names_mem genes k0 src x hx
  rw [← hgx]
  exact hblank g hg

theorem steps_equal_arrows_witness :
    blank_free fileS1 ∧ name_after fileS1 3 0 = some "DDD" ∧
    (evolution_steps fileS1 0 3).map Prod.fst = some 3 ∧
    (evolution_path fileS1 0 3).map Prod.fst = some "AAA -> BBB -> CCC -> DDD" ∧
    count_arrows "AAA -> BBB -> CCC -> DDD".data = 3 ∧
    ∃ (r : Int) (path : String) (g1 g2 : List Gene),
      evolution_steps fileS1 0 3 = some (r, g1) ∧
      evolution_path fileS1 0 3 = some (path, g2) ∧
      r = (count_arrows path.data : Int) :=
  ⟨by decide, by decide, by decide, by decide, by decide,
    steps_equal_arrows fileS1 0 3 3 ⟨"AAA", false, ⟨2, some 1⟩⟩ ⟨"DDD", false, ⟨-1, none⟩⟩
      (by decide) (by decide) (by decide) rfl rfl (by decide) (by decide)⟩

/-- C10 fails as stated: in file S3 the query `path A A` finds the one-gene
path `A`, which has no separator, while `evolution_steps A A` is -10000000. -/
theorem steps_differ_in_place :
    (handle_path fileS3 "A" "A").map Prod.fst = some "A\n\n" ∧
    (evolution_path fileS3 0 0).map Prod.fst = some "A" ∧
    count_arrows "A".data = 0 ∧
    (evolution_steps fileS3 0 0).map Prod.fst = some (-10000000) := by
  decide

/-! ## Name lookup: `index_of` -/

theorem index_of_from_none (seq : String) :
    ∀ (l : List Gene) (i : Nat),
      index_of_from seq l i = -1 ↔ ∀ g ∈ l, g.sq ≠ seq := by
  intro l
  induction l with
  | nil => intro i; simp [index_of_from]
  | cons d rest ih =>
    intro i
    by_cases hd : d.sq = seq
    · simp only [index_of_from, hd, if_true, List.mem_cons, forall_eq_or_imp]
      constructor
      · intro h; omega
      · intro h; exact absurd rfl h.1
    · simp only [index_of_from, hd, if_false, List.mem_cons, forall_eq_or_imp]
      rw [ih (i + 1)]
      exact ⟨fun h => ⟨fun e => hd e, h⟩, fun h => h.2⟩

theorem index_of_from_first (seq : String) :
    ∀ (l : List Gene) (i k : Nat),
      index_of_from seq l i = ((i + k : Nat) : Int) ↔
        (sq_at l k = some seq ∧ ∀ j < k, sq_at l j ≠ some seq) := by
  intro l
  induction l with
  | nil =>
    intro i k
    simp only [index_of_from, sq_at, List.getElem?_nil, Option.map_none']
    constructor
    · intro h; omega
    · intro h; cases h.1
  | cons d rest ih =>
    intro i k
    by_cases hd : d.sq = seq
    · simp only [index_of_from, hd, if_true]
      cases k with
      | zero => simp [sq_at, hd]
      | succ k =>
        constructor
        · intro h; omega
        · intro h
          exact absurd (by simp [sq_at, hd]) (h.2 0 (Nat.succ_pos k))
    · simp only [index_of_from, hd, if_false]
      cases k with
      | zero =>
        constructor
        · intro h
          rcases index_of_from_spec seq rest (i + 1) with h1 | ⟨j, h1, _⟩
          · rw [h1] at h; omega
          · rw [h1] at h; omega
        · intro h
          have : sq_at (d :: rest) 0 = some d.sq := by simp [sq_at]
          rw [this] at h
          exact absurd (Option.some.inj h.1) hd
      | succ k =>
        have hshift : ((i + (k + 1) : Nat) : Int) = ((i + 1 + k : Nat) : Int) := by
          congr 1; omega
        rw [hshift, ih (i + 1) k]
        have hs : ∀ m, sq_at (d :: rest) (m + 1) = sq_at rest m := by
          intro m; simp [sq_at]
        constructor
        · rintro ⟨h1, h2⟩
          refine ⟨by rw [hs]; exact h1, ?_⟩
          intro j hj
          cases j with
          | zero =>
            intro h
            have : sq_at (d :: rest) 0 = some d.sq := by simp [sq_at]
            rw [this] at h
            exact hd (Option.some.inj h)
          | succ j => rw [hs]; exact h2 j (by omega)
        · rintro ⟨h1, h2⟩
          refine ⟨by rw [← hs]; exact h1, ?_⟩
          intro j hj
          rw [← hs]
          exact h2 (j + 1) (by omega)

/-- C14: `index_of` returns the smallest index whose gene is named `seq` (an
index of the array), and returns `-1` exactly when no gene of the array has
that name. -/
theorem index_of_smallest_match (dna : List Gene) (seq : String) :
    (∀ i : Nat, index_of dna seq = (i : Int) ↔
      (sq_at dna i = some seq ∧ ∀ j < i, sq_at dna j ≠ some seq)) ∧
    (index_of dna seq = -1 ↔ ∀ g ∈ dna, g.sq ≠ seq) ∧
    (index_of dna seq = -1 ∨ ∃ i : Nat, i < dna.length ∧ index_of dna seq = (i : Int)) := by
  refine ⟨?_, index_of_from_none seq dna 0, ?_⟩
  · intro i
    have := index_of_from_first seq dna 0 i
    simpa [index_of] using this
  · rcases index_of_from_spec seq dna 0 with h | ⟨j, h1, h2⟩
    · exact Or.inl h
    · refine Or.inr ⟨j, ?_, by simpa [index_of] using h1⟩
      unfold sq_at at h2
      cases hj : dna[j]? with
      | none => rw [hj] at h2; cases h2
      | some g => exact (List.getElem?_eq_some_iff.mp hj).1

/-! ## Termination for arbitrary seen flags -/

theorem can_evolve_fuel_total :
    ∀ (fuel : Nat) (genes : List Gene) (cur tgt : Nat),
      targets_in_range genes → cur < genes.length → tgt < genes.length →
      unseen genes < fuel → ∃ r, can_evolve_fuel fuel genes cur tgt = some r := by
  intro fuel
  induction fuel with
  | zero => intro genes cur tgt _ _ _ hf; omega
  | succ fuel ih =>
    intro genes cur tgt hwf hcur htgt hf
    obtain ⟨c, hc⟩ : ∃ c, genes[cur]? = some c := ⟨genes[cur], List.getElem?_eq_getElem hcur⟩
    obtain ⟨t, ht⟩ : ∃ t, genes[tgt]? = some t := ⟨genes[tgt], List.getElem?_eq_getElem htgt⟩
    cases hnx : c.mutation.target with
    | none => simp [can_evolve_fuel, hc, hnx]
    | some w =>
      have hw : w < genes.length := (targets_in_range_iff genes).mp hwf cur c w hc hnx
      obtain ⟨n, hn⟩ : ∃ n, genes[w]? = some n := ⟨genes[w], List.getElem?_eq_getElem hw⟩
      by_cases hsq : n.sq = t.sq
      · simp [can_evolve_fuel, hc, hnx, hn, ht, hsq]
      · by_cases hseen : c.seen = true
        · simp [can_evolve_fuel, hc, hnx, hn, ht, hsq, hseen]
        · have hseen' : c.seen = false := by simpa using hseen
          have hun := unseen_mark_seen genes cur c hc hseen'
          obtain ⟨r, hrun⟩ := ih (mark_seen genes cur) w tgt
            (targets_in_range_mark_seen genes cur hwf)
            (by rw [length_mark_seen]; exact hw)
            (by rw [length_mark_seen]; exact htgt) (by omega)
          exact ⟨r, by simp [can_evolve_fuel, hc, hnx, hn, ht, hsq, hseen', hrun]⟩

theorem evolution_steps_fuel_total :
    ∀ (fuel : Nat) (genes : List Gene) (cur tgt : Nat),
      targets_in_range genes → cur < genes.length → tgt < genes.length →
      unseen genes < fuel → ∃ r, evolution_steps_fuel fuel genes cur tgt = some r := by
  intro fuel
  induction fuel with
  | zero => intro genes cur tgt _ _ _ hf; omega
  | succ fuel ih =>
    intro genes cur tgt hwf hcur htgt hf
    obtain ⟨c, hc⟩ : ∃ c, genes[cur]? = some c := ⟨genes[cur], List.getElem?_eq_getElem hcur⟩
    obtain ⟨t, ht⟩ : ∃ t, genes[tgt]? = some t := ⟨genes[tgt], List.getElem?_eq_getElem htgt⟩
    cases hnx : c.mutation.target with
    | none => simp [evolution_steps_fuel, hc, hnx]
    | some w =>
      have hw : w < genes.length := (targets_in_range_iff genes).mp hwf cur c w hc hnx
      obtain ⟨n, hn⟩ : ∃ n, genes[w]? = some n := ⟨genes[w], List.getElem?_eq_getElem hw⟩
      by_cases hsq : n.sq = t.sq
      · simp [evolution_steps_fuel, hc, hnx, hn, ht, hsq]
      · by_cases hseen : c.seen = true
        · simp [evolution_steps_fuel, hc, hnx, hn, ht, hsq, hseen]
        · have hseen' : c.seen = false := by simpa using hseen
          have hun := unseen_mark_seen genes cur c hc hseen'
          obtain ⟨⟨r, g⟩, hrun⟩ := ih (mark_seen genes cur) w tgt
            (targets_in_range_mark_seen genes cur hwf)
            (by rw [length_mark_seen]; exact hw)
            (by rw [length_mark_seen]; exact htgt) (by omega)
          exact ⟨(1 + r, g),
            by simp [evolution_steps_fuel, hc, hnx, hn, ht, hsq, hseen', hrun]⟩

theorem evolution_cost_fuel_total :
    ∀ (fuel : Nat) (genes : List Gene) (cur tgt : Nat),
      targets_in_range genes → cur < genes.length → tgt < genes.length →
      unseen genes < fuel → ∃ r, evolution_cost_fuel fuel genes cur tgt = some r := by
  intro fuel
  induction fuel with
  | zero => intro genes cur tgt _ _ _ hf; omega
  | succ fuel ih =>
    intro genes cur tgt hwf hcur htgt hf
    obtain ⟨c, hc⟩ : ∃ c, genes[cur]? = some c := ⟨genes[cur], List.getElem?_eq_getElem hcur⟩
    obtain ⟨t, ht⟩ : ∃ t, genes[tgt]? = some t := ⟨genes[tgt], List.getElem?_eq_getElem htgt⟩
    cases hnx : c.mutation.target with
    | none => simp [evolution_cost_fuel, hc, hnx]
    | some w =>
      have hw : w < genes.length := (targets_in_range_iff genes).mp hwf cur c w hc hnx
      obtain ⟨n, hn⟩ : ∃ n, genes[w]? = some n := ⟨genes[w], List.getElem?_eq_getElem hw⟩
      by_cases hsq : n.sq = t.sq
      · simp [evolution_cost_fuel, hc, hnx, hn, ht, hsq]
      · by_cases hseen : c.seen = true
        · simp [evolution_cost_fuel, hc, hnx, hn, ht, hsq, hseen]
        · have hseen' : c.seen = false := by simpa using hseen
          have hun := unseen_mark_seen genes cur c hc hseen'
          obtain ⟨⟨r, g⟩, hrun⟩ := ih (mark_seen genes cur) w tgt
            (targets_in_range_mark_seen genes cur hwf)
            (by rw [length_mark_seen]; exact hw)
            (by rw [length_mark_seen]; exact htgt) (by omega)
          exact ⟨(wrap_int (c.mutation.cost + r), g),
            by simp [evolution_cost_fuel, hc, hnx, hn, ht, hsq, hseen', hrun]⟩

theorem evolution_path_fuel_total :
    ∀ (fuel : Nat) (genes : List Gene) (cur tgt : Nat),
      targets_in_range genes → cur < genes.length → tgt < genes.length →
      unseen genes < fuel → ∃ r, evolution_path_fuel fuel genes cur tgt = some r := by
  intro fuel
  induction fuel with
  | zero => intro genes cur tgt _ _ _ hf; omega
  | succ fuel ih =>
    intro genes cur tgt hwf hcur htgt hf
    obtain ⟨c, hc⟩ : ∃ c, genes[cur]? = some c := ⟨genes[cur], List.getElem?_eq_getElem hcur⟩
    obtain ⟨t, ht⟩ : ∃ t, genes[tgt]? = some t := ⟨genes[tgt], List.getElem?_eq_getElem htgt⟩
    by_cases hsq : c.sq = t.sq
    · simp [evolution_path_fuel, hc, ht, hsq]
    · cases hnx : c.mutation.target with
      | none => simp [evolution_path_fuel, hc, ht, hsq, hnx]
      | some w =>
        have hw : w < genes.length := (targets_in_range_iff genes).mp hwf cur c w hc hnx
        by_cases hseen : c.seen = true
        · simp [evolution_path_fuel, hc, ht, hsq, hnx, hseen]
        · have hseen' : c.seen = false := by simpa using hseen
          have hun := unseen_mark_seen genes cur c hc hseen'
          obtain ⟨⟨r, g⟩, hrun⟩ := ih (mark_seen genes cur) w tgt
            (targets_in_range_mark_seen genes cur hwf)
            (by rw [length_mark_seen]; exact hw)
            (by rw [length_mark_seen]; exact htgt) (by omega)
          exact ⟨(c.sq ++ " -> " ++ r, g),
            by simp [evolution_path_fuel, hc, ht, hsq, hnx, hseen', hrun]⟩

/-- C11: on a graph with `N` genes, whatever the seen flags, each of
`can_evolve`, `evolution_steps`, `evolution_cost` and `evolution_path` returns
within `N + 1` nested calls: every call that recurses marks a gene that was
unmarked, so one call more than the number of unmarked genes is enough. -/
theorem queries_terminate (genes : List Gene) (src tgt : Nat)
    (hwf : targets_in_range genes) (hsrc : src < genes.length) (htgt : tgt < genes.length) :
    ((∃ r, can_evolve genes src tgt = some r) ∧
     (∃ r, evolution_steps genes src tgt = some r) ∧
     (∃ r, evolution_cost genes src tgt = some r) ∧
     (∃ r, evolution_path genes src tgt = some r)) ∧
    unseen genes + 1 ≤ genes.length + 1 ∧
    ∀ fuel, unseen genes + 1 ≤ fuel →
      (∃ r, can_evolve_fuel fuel genes src tgt = some r) ∧
      (∃ r, evolution_steps_fuel fuel genes src tgt = some r) ∧
      (∃ r, evolution_cost_fuel fuel genes src tgt = some r) ∧
      (∃ r, evolution_path_fuel fuel genes src tgt = some r) := by
  have hle := unseen_le_length genes
  have key : ∀ fuel, unseen genes + 1 ≤ fuel →
      (∃ r, can_evolve_fuel fuel genes src tgt = some r) ∧
      (∃ r, evolution_steps_fuel fuel genes src tgt = some r) ∧
      (∃ r, evolution_cost_fuel fuel genes src tgt = some r) ∧
      (∃ r, evolution_path_fuel fuel genes src tgt = some r) := fun fuel hf =>
    ⟨can_evolve_fuel_total fuel genes src tgt hwf hsrc htgt (by omega),
     evolution_steps_fuel_total fuel genes src tgt hwf hsrc htgt (by omega),
     evolution_cost_fuel_total fuel genes src tgt hwf hsrc htgt (by omega),
     evolution_path_fuel_total fuel genes src tgt hwf hsrc htgt (by omega)⟩
  exact ⟨key (genes.length + 1) (by omega), by omega, key⟩

theorem queries_terminate_witness :
    targets_in_range (mark_seen fileS2 1) ∧ unseen (mark_seen fileS2 1) = 2 ∧
    (can_evolve (mark_seen fileS2 1) 0 0).map Prod.fst = some false ∧
    (evolution_path (mark_seen fileS2 1) 0 2).map Prod.fst = some "X -> X" ∧
    (((∃ r, can_evolve (mark_seen fileS2 1) 0 0 = some r) ∧
     (∃ r, evolution_steps (mark_seen fileS2 1) 0 0 = some r) ∧
     (∃ r, evolution_cost (mark_seen fileS2 1) 0 0 = some r) ∧
     (∃ r, evolution_path (mark_seen fileS2 1) 0 0 = some r)) ∧
    unseen (mark_seen fileS2 1) + 1 ≤ (mark_seen fileS2 1).length + 1 ∧
    ∀ fuel, unseen (mark_seen fileS2 1) + 1 ≤ fuel →
      (∃ r, can_evolve_fuel fuel (mark_seen fileS2 1) 0 0 = some r) ∧
      (∃ r, evolution_steps_fuel fuel (mark_seen fileS2 1) 0 0 = some r) ∧
      (∃ r, evolution_cost_fuel fuel (mark_seen fileS2 1) 0 0 = some r) ∧
      (∃ r, evolution_path_fuel fuel (mark_seen fileS2 1) 0 0 = some r)) :=
  ⟨by decide, by decide, by decide, by decide,
    queries_terminate (mark_seen fileS2 1) 0 0 (by decide) (by decide) (by decide)⟩

/-! ## What the queries change -/

theorem only_marks_refl (genes : List Gene) (src : Nat) : only_marks genes genes src :=
  ⟨rfl, fun _ g hg => ⟨g, hg, rfl, rfl, Or.inl rfl⟩⟩

theorem only_marks_step (genes genes' : List Gene) (src nx : Nat) (c : Gene)
    (hc : genes[src]? = some c) (hseen : c.seen = false)
    (hnx : c.mutation.target = some nx)
    (h : only_marks (mark_seen genes src) genes' nx) : only_marks genes genes' src := by
  obtain ⟨hlen, hall⟩ := h
  refine ⟨by rw [hlen, length_mark_seen], ?_⟩
  intro p g hg
  by_cases hp : p = src
  · subst hp
    rw [hc] at hg
    cases hg
    obtain ⟨g', hg', hsq, hmut, hor⟩ := hall p { c with seen := true }
      (by rw [getElem?_mark_seen, hc]; simp)
    refine ⟨g', hg', hsq, hmut, Or.inr ⟨hseen, ?_, 0, rfl⟩⟩
    rcases hor with h1 | ⟨h1, _, _⟩
    · exact h1
    · cases h1
  · obtain ⟨g', hg', hsq, hmut, hor⟩ := hall p g
      (by rw [getElem?_mark_seen, hg]; simp [hp])
    refine ⟨g', hg', hsq, hmut, ?_⟩
    rcases hor with h1 | ⟨h1, h2, k, hk⟩
    · exact Or.inl h1
    · refine Or.inr ⟨h1, h2, k + 1, ?_⟩
      rw [successor_mark_seen] at hk
      simp only [successor, hc, hnx]
      exact hk

theorem can_evolve_fuel_only_marks :
    ∀ (fuel : Nat) (genes : List Gene) (src tgt : Nat) (r : Bool) (genes' : List Gene),
      can_evolve_fuel fuel genes src tgt = some (r, genes') → only_marks genes genes' src := by
  intro fuel
  induction fuel with
  | zero => intro genes src tgt r genes' h; simp [can_evolve_fuel] at h
  | succ fuel ih =>
    intro genes src tgt r genes' h
    cases hc : genes[src]? with
    | none => simp [can_evolve_fuel, hc] at h
    | some c =>
      cases hnx : c.mutation.target with
      | none =>
        simp only [can_evolve_fuel, hc, hnx, Option.some.injEq, Prod.mk.injEq] at h
        rw [← h.2]; exact only_marks_refl genes src
      | some nx =>
        cases hn : genes[nx]? with
        | none => simp [can_evolve_fuel, hc, hnx, hn] at h
        | some n =>
          cases ht : genes[tgt]? with
          | none => simp [can_evolve_fuel, hc, hnx, hn, ht] at h
          | some t =>
            by_cases hsq : n.sq = t.sq
            · simp only [can_evolve_fuel, hc, hnx, hn, ht, hsq, if_true, Option.some.injEq,
                Prod.mk.injEq] at h
              rw [← h.2]; exact only_marks_refl genes src
            · by_cases hseen : c.seen = true
              · simp only [can_evolve_fuel, hc, hnx, hn, ht, hsq, hseen, if_true, if_false,
                  Option.some.injEq, Prod.mk.injEq] at h
                rw [← h.2]; exact only_marks_refl genes src
              · have hseen' : c.seen = false := by simpa using hseen
                simp only [can_evolve_fuel, hc, hnx, hn, ht, hsq, hseen', if_false,
                  Bool.false_eq_true] at h
                exact only_marks_step genes genes' src nx c hc hseen' hnx (ih _ _ _ _ _ h)

theorem evolution_steps_fuel_only_marks :
    ∀ (fuel : Nat) (genes : List Gene) (src tgt : Nat) (r : Int) (genes' : List Gene),
      evolution_steps_fuel fuel genes src tgt = some (r, genes') →
      only_marks genes genes' src := by
  intro fuel
  induction fuel with
  | zero => intro genes src tgt r genes' h; simp [evolution_steps_fuel] at h
  | succ fuel ih =>
    intro genes src tgt r genes' h
    cases hc : genes[src]? with
    | none => simp [evolution_steps_fuel, hc] at h
    | some c =>
      cases hnx : c.mutation.target with
      | none =>
        simp only [evolution_steps_fuel, hc, hnx, Option.some.injEq, Prod.mk.injEq] at h
        rw [← h.2]; exact only_marks_refl genes src
      | some nx =>
        cases hn : genes[nx]? with
        | none => simp [evolution_steps_fuel, hc, hnx, hn] at h
        | some n =>
          cases ht : genes[tgt]? with
          | none => simp [evolution_steps_fuel, hc, hnx, hn, ht] at h
          | some t =>
            by_cases hsq : n.sq = t.sq
            · simp only [evolution_steps_fuel, hc, hnx, hn, ht, hsq, if_true,
                Option.some.injEq, Prod.mk.injEq] at h
              rw [← h.2]; exact only_marks_refl genes src
            · by_cases hseen : c.seen = true
              · simp only [evolution_steps_fuel, hc, hnx, hn, ht, hsq, hseen, if_true,
                  if_false, Option.some.injEq, Prod.mk.injEq] at h
                rw [← h.2]; exact only_marks_refl genes src
              · have hseen' : c.seen = false := by simpa using hseen
                simp only [evolution_steps_fuel, hc, hnx, hn, ht, hsq, hseen', if_false,
                  Bool.false_eq_true] at h
                cases hrec : evolution_steps_fuel fuel (mark_seen genes src) nx tgt with
                | none => rw [hrec] at h; cases h
                | some res =>
                  obtain ⟨r0, g0⟩ := res
                  rw [hrec] at h
                  simp only [Option.some.injEq, Prod.mk.injEq] at h
                  rw [← h.2]
                  exact only_marks_step genes g0 src nx c hc hseen' hnx (ih _ _ _ _ _ hrec)

theorem evolution_cost_fuel_only_marks :
    ∀ (fuel : Nat) (genes : List Gene) (src tgt : Nat) (r : Int) (genes' : List Gene),
      evolution_cost_fuel fuel genes src tgt = some (r, genes') →
      only_marks genes genes' src := by
  intro fuel
  induction fuel with
  | zero => intro genes src tgt r genes' h; simp [evolution_cost_fuel] at h
  | succ fuel ih =>
    intro genes src tgt r genes' h
    cases hc : genes[src]? with
    | none => simp [evolution_cost_fuel, hc] at h
    | some c =>
      cases hnx : c.mutation.target with
      | none =>
        simp only [evolution_cost_fuel, hc, hnx, Option.some.injEq, Prod.mk.injEq] at h
        rw [← h.2]; exact only_marks_refl genes src
      | some nx =>
        cases hn : genes[nx]? with
        | none => simp [evolution_cost_fuel, hc, hnx, hn] at h
        | some n =>
          cases ht : genes[tgt]? with
          | none => simp [evolution_cost_fuel, hc, hnx, hn, ht] at h
          | some t =>
            by_cases hsq : n.sq = t.sq
            · simp only [evolution_cost_fuel, hc, hnx, hn, ht, hsq, if_true,
                Option.some.injEq, Prod.mk.injEq] at h
              rw [← h.2]; exact only_marks_refl genes src
            · by_cases hseen : c.seen = true
              · simp only [evolution_cost_fuel, hc, hnx, hn, ht, hsq, hseen, if_true,
                  if_false, Option.some.injEq, Prod.mk.injEq] at h
                rw [← h.2]; exact only_marks_refl genes src
              · have hseen' : c.seen = false := by simpa using hseen
                simp only [evolution_cost_fuel, hc, hnx, hn, ht, hsq, hseen', if_false,
                  Bool.false_eq_true] at h
                cases hrec : evolution_cost_fuel fuel (mark_seen genes src) nx tgt with
                | none => rw [hrec] at h; cases h
                | some res =>
                  obtain ⟨r0, g0⟩ := res
                  rw [hrec] at h
                  simp only [Option.some.injEq, Prod.mk.injEq] at h
                  rw [← h.2]
                  exact only_marks_step genes g0 src nx c hc hseen' hnx (ih _ _ _ _ _ hrec)

theorem evolution_path_fuel_only_marks :
    ∀ (fuel : Nat) (genes : List Gene) (src tgt : Nat) (r : String) (genes' : List Gene),
      evolution_path_fuel fuel genes src tgt = some (r, genes') →
      only_marks genes genes' src := by
  intro fuel
  induction fuel with
  | zero => intro genes src tgt r genes' h; simp [evolution_path_fuel] at h
  | succ fuel ih =>
    intro genes src tgt r genes' h
    cases hc : genes[src]? with
    | none => simp [evolution_path_fuel, hc] at h
    | some c =>
      cases ht : genes[tgt]? with
      | none => simp [evolution_path_fuel, hc, ht] at h
      | some t =>
        by_cases hsq : c.sq = t.sq
        · simp only [evolution_path_fuel, hc, ht, hsq, if_true, Option.some.injEq,
            Prod.mk.injEq] at h
          rw [← h.2]; exact only_marks_refl genes src
        · cases hnx : c.mutation.target with
          | none =>
            simp only [evolution_path_fuel, hc, ht, hsq, hnx, if_false, Option.some.injEq,
              Prod.mk.injEq] at h
            rw [← h.2]; exact only_marks_refl genes src
          | some nx =>
            by_cases hseen : c.seen = true
            · simp only [evolution_path_fuel, hc, ht, hsq, hnx, hseen, if_true, if_false,
                Option.some.injEq, Prod.mk.injEq] at h
              rw [← h.2]; exact only_marks_refl genes src
            · have hseen' : c.seen = false := by simpa using hseen
              simp only [evolution_path_fuel, hc, ht, hsq, hnx, hseen', if_false,
                Bool.false_eq_true] at h
              cases hrec : evolution_path_fuel fuel (mark_seen genes src) nx tgt with
              | none => rw [hrec] at h; cases h
              | some res =>
                obtain ⟨r0, g0⟩ := res
                rw [hrec] at h
                simp only [Option.some.injEq, Prod.mk.injEq] at h
                rw [← h.2]
                exact only_marks_step genes g0 src nx c hc hseen' hnx (ih _ _ _ _ _ hrec)

/-- C15: whatever `can_evolve`, `evolution_steps`, `evolution_cost` and
`evolution_path` return, the gene array they leave has the same length and at
every index the same name, edge target and edge cost; a seen flag is either
unchanged or raised from false to true, and it is raised only at genes reached
from `src` by following mutation edges. -/
theorem traversals_only_mark (fuel : Nat) (genes genes' : List Gene) (src tgt : Nat) :
    (∀ r, can_evolve_fuel fuel genes src tgt = some (r, genes') →
      only_marks genes genes' src) ∧
    (∀ r, evolution_steps_fuel fuel genes src tgt = some (r, genes') →
      only_marks genes genes' src) ∧
    (∀ r, evolution_cost_fuel fuel genes src tgt = some (r, genes') →
      only_marks genes genes' src) ∧
    (∀ r, evolution_path_fuel fuel genes src tgt = some (r, genes') →
      only_marks genes genes' src) :=
  ⟨fun r h => can_evolve_fuel_only_marks fuel genes src tgt r genes' h,
   fun r h => evolution_steps_fuel_only_marks fuel genes src tgt r genes' h,
   fun r h => evolution_cost_fuel_only_marks fuel genes src tgt r genes' h,
   fun r h => evolution_path_fuel_only_marks fuel genes src tgt r genes' h⟩

theorem traversals_only_mark_witness :
    can_evolve fileS1 0 3 = some (true, mark_seen (mark_seen fileS1 0) 1) ∧
    evolution_path fileS1 0 3 =
      some ("AAA -> BBB -> CCC -> DDD", mark_seen (mark_seen (mark_seen fileS1 0) 1) 2) ∧
    only_marks fileS1 (mark_seen (mark_seen fileS1 0) 1) 0 ∧
    only_marks fileS1 (mark_seen (mark_seen (mark_seen fileS1 0) 1) 2) 0 :=
  ⟨by decide, by decide,
    (traversals_only_mark (fileS1.length + 1) fileS1 (mark_seen (mark_seen fileS1 0) 1)
      0 3).1 true (by decide),
    (traversals_only_mark (fileS1.length + 1) fileS1
      (mark_seen (mark_seen (mark_seen fileS1 0) 1) 2) 0 3).2.2.2
      "AAA -> BBB -> CCC -> DDD" (by decide)⟩

/-! ## Clearing the flags before a query -/

theorem getElem?_reset_seen (genes : List Gene) (p : Nat) :
    (reset_seen genes)[p]? = (genes[p]?).map (fun g => { g with seen := false }) := by
  simp [reset_seen]

theorem length_reset_seen (genes : List Gene) : (reset_seen genes).length = genes.length := by
  simp [reset_seen]

theorem all_unseen_reset_seen (genes : List Gene) : all_unseen (reset_seen genes) := by
  intro s hs
  simp only [reset_seen, List.mem_map] at hs
  obtain ⟨g, _, rfl⟩ := hs
  rfl

theorem reset_seen_of_all_unseen (genes : List Gene) (h : all_unseen genes) :
    reset_seen genes = genes := by
  unfold reset_seen
  conv_rhs => rw [← List.map_id genes]
  apply List.map_congr_left
  intro g hg
  have := h g hg
  cases g with
  | mk sq seen mutation => simp only at this; subst this; rfl

theorem reset_seen_idem (genes : List Gene) : reset_seen (reset_seen genes) = reset_seen genes :=
  reset_seen_of_all_unseen _ (all_unseen_reset_seen genes)

theorem reset_seen_of_only_marks (genes genes' : List Gene) (src : Nat)
    (h : only_marks genes genes' src) : reset_seen genes' = reset_seen genes := by
  obtain ⟨hlen, hall⟩ := h
  apply List.ext_getElem?
  intro p
  rw [getElem?_reset_seen, getElem?_reset_seen]
  cases hg : genes[p]? with
  | none =>
    have : genes'[p]? = none := by
      rw [List.getElem?_eq_none_iff] at hg ⊢
      omega
    rw [this]
  | some g =>
    obtain ⟨g', hg', hsq, hmut, _⟩ := hall p g hg
    rw [hg']
    cases g with
    | mk sq seen mutation =>
      cases g' with
      | mk sq' seen' mutation' =>
        simp only at hsq hmut
        subst hsq hmut
        rfl

theorem sq_at_reset_seen (genes : List Gene) (p : Nat) :
    sq_at (reset_seen genes) p = sq_at genes p := by
  unfold sq_at
  rw [getElem?_reset_seen]
  cases genes[p]? <;> rfl

theorem targets_in_range_reset_seen (genes : List Gene) (h : targets_in_range genes) :
    targets_in_range (reset_seen genes) := by
  rw [targets_in_range_iff] at h ⊢
  intro v s nx hv hnx
  rw [getElem?_reset_seen] at hv
  rw [length_reset_seen]
  cases hg : genes[v]? with
  | none => rw [hg] at hv; cases hv
  | some c =>
    rw [hg] at hv
    simp only [Option.map_some', Option.some.injEq] at hv
    subst hv
    exact h v c nx hg hnx

theorem index_of_from_reset_seen (seq : String) :
    ∀ (l : List Gene) (i : Nat),
      index_of_from seq (reset_seen l) i = index_of_from seq l i := by
  intro l
  induction l with
  | nil => intro i; rfl
  | cons d rest ih =>
    intro i
    have := ih (i + 1)
    simp only [reset_seen, List.map_cons, index_of_from] at this ⊢
    rw [this]

theorem gene_ptr_reset_seen (genes : List Gene) (a : String) :
    gene_ptr (reset_seen genes) (index_of (reset_seen genes) a) =
      gene_ptr genes (index_of genes a) := by
  unfold gene_ptr index_of
  rw [index_of_from_reset_seen, length_reset_seen]

/-! ## The handlers: what they leave and when they answer -/

theorem handle_e_state (genes genes' : List Gene) (a b out : String)
    (h : handle_e genes a b = some (out, genes')) : ∃ src, only_marks genes genes' src := by
  unfold handle_e at h
  split at h
  · rename_i src tgt _ _
    split at h
    · cases h
    · rename_i r g hrun
      split at h
      · split at h <;>
          (cases h; exact ⟨src, can_evolve_fuel_only_marks _ _ _ _ _ _ hrun⟩)
      · cases h
  · cases h

theorem handle_es_state (genes genes' : List Gene) (a b out : String)
    (h : handle_es genes a b = some (out, genes')) : ∃ src, only_marks genes genes' src := by
  unfold handle_es at h
  split at h
  · rename_i src tgt _ _
    split at h
    · cases h
    · rename_i r g hrun
      split at h
      · split at h <;>
          (cases h; exact ⟨src, evolution_steps_fuel_only_marks _ _ _ _ _ _ hrun⟩)
      · cases h
  · cases h

theorem handle_ene_state (genes genes' : List Gene) (a b out : String) (cost : Int)
    (h : handle_ene genes a b cost = some (out, genes')) :
    ∃ src, only_marks genes genes' src := by
  unfold handle_ene at h
  split at h
  · rename_i src tgt _ _
    split at h
    · cases h
    · rename_i r g hrun
      split at h
      · split at h <;>
          (cases h; exact ⟨src, evolution_cost_fuel_only_marks _ _ _ _ _ _ hrun⟩)
      · cases h
  · cases h

theorem handle_path_state (genes genes' : List Gene) (a b out : String)
    (h : handle_path genes a b = some (out, genes')) : ∃ src, only_marks genes genes' src := by
  unfold handle_path at h
  split at h
  · rename_i src tgt _ _
    split at h
    · cases h
    · rename_i r g hrun
      split at h
      · cases h
      · split at h
        · split at h
          · cases h; exact ⟨src, evolution_path_fuel_only_marks _ _ _ _ _ _ hrun⟩
          · cases h
        · cases h; exact ⟨src, evolution_path_fuel_only_marks _ _ _ _ _ _ hrun⟩
  · cases h

theorem handle_e_total (genes : List Gene) (a b : String) (hwf : targets_in_range genes)
    (ha : (gene_ptr genes (index_of genes a)).isSome)
    (hb : (gene_ptr genes (index_of genes b)).isSome) :
    ∃ r, handle_e genes a b = some r := by
  obtain ⟨src, hsrc⟩ := Option.isSome_iff_exists.mp ha
  obtain ⟨tgt, htgt⟩ := Option.isSome_iff_exists.mp hb
  obtain ⟨⟨r, g⟩, hrun⟩ := can_evolve_fuel_total (genes.length + 1) genes src tgt hwf
    (gene_ptr_index_of genes a src hsrc).1 (gene_ptr_index_of genes b tgt htgt).1
    (Nat.lt_succ_of_le (unseen_le_length genes))
  exact ⟨_, handle_e_eq genes g a b src tgt r hsrc htgt hrun⟩

theorem handle_es_total (genes : List Gene) (a b : String) (hwf : targets_in_range genes)
    (ha : (gene_ptr genes (index_of genes a)).isSome)
    (hb : (gene_ptr genes (index_of genes b)).isSome) :
    ∃ r, handle_es genes a b = some r := by
  obtain ⟨src, hsrc⟩ := Option.isSome_iff_exists.mp ha
  obtain ⟨tgt, htgt⟩ := Option.isSome_iff_exists.mp hb
  obtain ⟨⟨r, g⟩, hrun⟩ := evolution_steps_fuel_total (genes.length + 1) genes src tgt hwf
    (gene_ptr_index_of genes a src hsrc).1 (gene_ptr_index_of genes b tgt htgt).1
    (Nat.lt_succ_of_le (unseen_le_length genes))
  exact ⟨_, handle_es_eq genes g a b src tgt r hsrc htgt hrun⟩

theorem handle_ene_total (genes : List Gene) (a b : String) (cost : Int)
    (hwf : targets_in_range genes)
    (ha : (gene_ptr genes (index_of genes a)).isSome)
    (hb : (gene_ptr genes (index_of genes b)).isSome) :
    ∃ r, handle_ene genes a b cost = some r := by
  obtain ⟨src, hsrc⟩ := Option.isSome_iff_exists.mp ha
  obtain ⟨tgt, htgt⟩ := Option.isSome_iff_exists.mp hb
  obtain ⟨⟨r, g⟩, hrun⟩ := evolution_cost_fuel_total (genes.length + 1) genes src tgt hwf
    (gene_ptr_index_of genes a src hsrc).1 (gene_ptr_index_of genes b tgt htgt).1
    (Nat.lt_succ_of_le (unseen_le_length genes))
  exact ⟨_, handle_ene_eq genes g a b src tgt r cost hsrc htgt hrun⟩

theorem path_text_ne_nil (fuel : Nat) (genes genes' : List Gene) (src tgt : Nat) (r : String)
    (h : evolution_path_fuel fuel genes src tgt = some (r, genes'))
    (ht : ∀ t, genes[tgt]? = some t → t.sq ≠ "") : r.data ≠ [] := by
  cases fuel with
  | zero => simp [evolution_path_fuel] at h
  | succ fuel =>
    simp only [evolution_path_fuel] at h
    split at h
    · rename_i s t _ htg
      split at h
      · cases h
        intro hd
        exact ht t htg (String.ext hd)
      · split at h
        · cases h; decide
        · split at h
          · cases h; decide
          · split at h
            · cases h
            · cases h
              simp [String.data_append]
    · cases h

theorem handle_path_total (genes : List Gene) (a b : String) (hwf : targets_in_range genes)
    (ha : (gene_ptr genes (index_of genes a)).isSome)
    (hb : (gene_ptr genes (index_of genes b)).isSome) (hne : b ≠ "") :
    ∃ r, handle_path genes a b = some r := by
  obtain ⟨src, hsrc⟩ := Option.isSome_iff_exists.mp ha
  obtain ⟨tgt, htgt⟩ := Option.isSome_iff_exists.mp hb
  have hsa := gene_ptr_index_of genes a src hsrc
  have hsb := gene_ptr_index_of genes b tgt htgt
  obtain ⟨⟨r, g⟩, hrun⟩ := evolution_path_fuel_total (genes.length + 1) genes src tgt hwf
    hsa.1 hsb.1 (Nat.lt_succ_of_le (unseen_le_length genes))
  have hr : r.data ≠ [] := by
    apply path_text_ne_nil _ _ _ _ _ _ hrun
    intro t htg
    have := hsb.2
    rw [sq_at_of_getElem? genes tgt t htg] at this
    rw [Option.some.inj this]
    exact hne
  have hs : sq_at g src = some a := by
    rw [evolution_path_fuel_sq _ _ _ _ _ _ hrun]; exact hsa.2
  have ht : sq_at g tgt = some b := by
    rw [evolution_path_fuel_sq _ _ _ _ _ _ hrun]; exact hsb.2
  obtain ⟨c, hc⟩ : ∃ c, r.data.getLast? = some c := by
    cases hl : r.data.getLast? with
    | none => exact absurd (List.getLast?_eq_none_iff.mp hl) hr
    | some c => exact ⟨c, rfl⟩
  have hrun' : evolution_path genes src tgt = some (r, g) := hrun
  by_cases hX : c = 'X'
  · exact ⟨("There is no path from " ++ a ++ " to " ++ b ++ "\n\n", g),
      by simp only [handle_path, hsrc, htgt, hrun', hc, hX, if_true, hs, ht]⟩
  · exact ⟨(r ++ "\n\n", g),
      by simp only [handle_path, hsrc, htgt, hrun', hc, hX, if_false]⟩

/-! ## One pass of the query loop -/

theorem execute_congr (genes genes' : List Gene) (input : String) (cin : List String)
    (h : reset_seen genes = reset_seen genes') :
    execute genes input cin = execute genes' input cin := by
  unfold execute
  rw [h]

theorem execute_state (genes genes1 : List Gene) (input out : String) (cin cin1 : List String)
    (h : execute genes input cin = some (out, genes1, cin1)) :
    reset_seen genes1 = reset_seen genes := by
  have key : ∀ g1, (∃ src, only_marks (reset_seen genes) g1 src) →
      reset_seen g1 = reset_seen genes := by
    rintro g1 ⟨src, hm⟩
    rw [reset_seen_of_only_marks _ _ src hm, reset_seen_idem]
  unfold execute at h
  simp only [] at h
  split at h
  · obtain ⟨⟨o, g⟩, hh, heq⟩ := Option.map_eq_some'.mp h
    cases heq
    exact key _ (handle_e_state _ _ _ _ _ hh)
  · split at h
    · obtain ⟨⟨o, g⟩, hh, heq⟩ := Option.map_eq_some'.mp h
      cases heq
      exact key _ (handle_es_state _ _ _ _ _ hh)
    · split at h
      · split at h
        · cases h
        · obtain ⟨⟨o, g⟩, hh, heq⟩ := Option.map_eq_some'.mp h
          cases heq
          exact key _ (handle_ene_state _ _ _ _ _ _ hh)
      · split at h
        · obtain ⟨⟨o, g⟩, hh, heq⟩ := Option.map_eq_some'.mp h
          cases heq
          exact key _ (handle_path_state _ _ _ _ _ hh)
        · cases h
          exact reset_seen_idem genes

theorem loop_congr (fuel : Nat) (genes genes' : List Gene) (input : String)
    (cin : List String) (h : reset_seen genes = reset_seen genes') :
    prompt_and_execute_loop fuel genes input cin =
      prompt_and_execute_loop fuel genes' input cin := by
  cases fuel with
  | zero => rfl
  | succ fuel =>
    simp only [prompt_and_execute_loop]
    rw [execute_congr genes genes' input cin h]

/-- C12: the loop clears the seen flags before it dispatches a command, so a
pass through the loop on a gene array that differs from the freshly loaded one
only in its seen flags prints what it prints on the freshly loaded array and
leaves the same array and input; the array a pass leaves again differs from the
loaded one only in seen flags, and so the rest of the session is the same too. -/
theorem queries_independent (genes0 genes : List Gene) (input : String) (cin : List String)
    (hsame : reset_seen genes = genes0) :
    all_unseen genes0 ∧
    execute genes input cin = execute genes0 input cin ∧
    (∀ out genes1 cin1, execute genes input cin = some (out, genes1, cin1) →
      reset_seen genes1 = genes0) ∧
    (∀ fuel, prompt_and_execute_loop fuel genes input cin =
      prompt_and_execute_loop fuel genes0 input cin) := by
  have h0 : reset_seen genes = reset_seen genes0 := by
    rw [← hsame, reset_seen_idem]
  refine ⟨by rw [← hsame]; exact all_unseen_reset_seen genes,
    execute_congr genes genes0 input cin h0, ?_,
    fun fuel => loop_congr fuel genes genes0 input cin h0⟩
  intro out genes1 cin1 h
  rw [execute_state genes genes1 input out cin cin1 h, hsame]

theorem queries_independent_witness :
    can_evolve fileS1 0 3 = some (true, mark_seen (mark_seen fileS1 0) 1) ∧
    (execute (mark_seen (mark_seen fileS1 0) 1) "es" ["AAA", "DDD", "q"]).map (fun r => r.1) =
      some "It will take 3 evolutionary steps to get from AAA to DDD\n\n" ∧
    (all_unseen fileS1 ∧
    execute (mark_seen (mark_seen fileS1 0) 1) "es" ["AAA", "DDD", "q"] =
      execute fileS1 "es" ["AAA", "DDD", "q"] ∧
    (∀ out genes1 cin1,
      execute (mark_seen (mark_seen fileS1 0) 1) "es" ["AAA", "DDD", "q"] =
        some (out, genes1, cin1) → reset_seen genes1 = fileS1) ∧
    (∀ fuel, prompt_and_execute_loop fuel (mark_seen (mark_seen fileS1 0) 1) "es"
        ["AAA", "DDD", "q"] =
      prompt_and_execute_loop fuel fileS1 "es" ["AAA", "DDD", "q"])) :=
  ⟨by decide, by decide,
    queries_independent fileS1 (mark_seen (mark_seen fileS1 0) 1) "es" ["AAA", "DDD", "q"]
      (by decide)⟩

/-! ## Leaving the query loop -/

theorem execute_exhausted (genes genes1 : List Gene) (input out : String) (cin1 : List String)
    (h : execute genes input [] = some (out, genes1, cin1)) : cin1 = [] := by
  unfold execute at h
  simp only [Stream.read_string, Stream.read_int] at h
  split at h
  · obtain ⟨r, _, heq⟩ := Option.map_eq_some'.mp h
    cases heq; rfl
  · split at h
    · obtain ⟨r, _, heq⟩ := Option.map_eq_some'.mp h
      cases heq; rfl
    · split at h
      · cases h
      · split at h
        · obtain ⟨r, _, heq⟩ := Option.map_eq_some'.mp h
          cases heq; rfl
        · cases h; rfl

theorem loop_exhausted :
    ∀ (fuel : Nat) (genes : List Gene) (input : String), input ≠ "q" →
      prompt_and_execute_loop fuel genes input [] = none := by
  intro fuel
  induction fuel with
  | zero => intro genes input _; rfl
  | succ fuel ih =>
    intro genes input hq
    simp only [prompt_and_execute_loop, hq, if_false]
    cases hex : execute genes input [] with
    | none => rfl
    | some r =>
      obtain ⟨out, genes1, cin1⟩ := r
      have := execute_exhausted genes genes1 input out cin1 hex
      subst this
      simp only [Stream.read_string, ih genes1 input hq]

theorem script_loop (genes : List Gene) (cin : List String) (hs : Script genes cin)
    (hwf : targets_in_range genes) :
    ∀ (g : List Gene) (old : String), reset_seen g = reset_seen genes →
      ∃ fuel out, fuel ≤ cin.length ∧
        prompt_and_execute_loop fuel g (Stream.read_string cin old).1
          (Stream.read_string cin old).2 = some out := by
  induction hs with
  | quit rest =>
    intro g old _
    exact ⟨1, "", by simp, by simp [Stream.read_string, prompt_and_execute_loop]⟩
  | e a b rest ha hb _ ih =>
    intro g old hg
    have hwf' : targets_in_range (reset_seen g) := by
      rw [hg]; exact targets_in_range_reset_seen genes hwf
    have ha' : (gene_ptr (reset_seen g) (index_of (reset_seen g) a)).isSome := by
      rw [hg, gene_ptr_reset_seen]; exact ha
    have hb' : (gene_ptr (reset_seen g) (index_of (reset_seen g) b)).isSome := by
      rw [hg, gene_ptr_reset_seen]; exact hb
    obtain ⟨⟨o, g1⟩, hh⟩ := handle_e_total (reset_seen g) a b hwf' ha' hb'
    have hex : execute g "e" (a :: b :: rest) = some (o, g1, rest) := by
      simp [execute, Stream.read_string, hh]
    have hst := execute_state g g1 "e" o (a :: b :: rest) rest hex
    obtain ⟨fuel, out, hf, hl⟩ := ih g1 "e" (by rw [hst, hg])
    refine ⟨fuel + 1, o ++ "Enter a query: " ++ out, by simp only [List.length_cons]; omega, ?_⟩
    simp [Stream.read_string, prompt_and_execute_loop, hex]
    simp [Stream.read_string] at hl
    rw [hl]
  | es a b rest ha hb _ ih =>
    intro g old hg
    have hwf' : targets_in_range (reset_seen g) := by
      rw [hg]; exact targets_in_range_reset_seen genes hwf
    have ha' : (gene_ptr (reset_seen g) (index_of (reset_seen g) a)).isSome := by
      rw [hg, gene_ptr_reset_seen]; exact ha
    have hb' : (gene_ptr (reset_seen g) (index_of (reset_seen g) b)).isSome := by
      rw [hg, gene_ptr_reset_seen]; exact hb
    obtain ⟨⟨o, g1⟩, hh⟩ := handle_es_total (reset_seen g) a b hwf' ha' hb'
    have hex : execute g "es" (a :: b :: rest) = some (o, g1, rest) := by
      simp [execute, Stream.read_string, hh]
    have hst := execute_state g g1 "es" o (a :: b :: rest) rest hex
    obtain ⟨fuel, out, hf, hl⟩ := ih g1 "es" (by rw [hst, hg])
    refine ⟨fuel + 1, o ++ "Enter a query: " ++ out, by simp only [List.length_cons]; omega, ?_⟩
    simp [Stream.read_string, prompt_and_execute_loop, hex]
    simp [Stream.read_string] at hl
    rw [hl]
  | ene a b c rest ha hb hc _ ih =>
    intro g old hg
    have hwf' : targets_in_range (reset_seen g) := by
      rw [hg]; exact targets_in_range_reset_seen genes hwf
    have ha' : (gene_ptr (reset_seen g) (index_of (reset_seen g) a)).isSome := by
      rw [hg, gene_ptr_reset_seen]; exact ha
    have hb' : (gene_ptr (reset_seen g) (index_of (reset_seen g) b)).isSome := by
      rw [hg, gene_ptr_reset_seen]; exact hb
    obtain ⟨v, hv⟩ := Option.isSome_iff_exists.mp hc
    have hread : Stream.read_int (c :: rest) = (some v, rest) := by
      unfold Stream.token_value at hv
      unfold Stream.read_int
      split at hv
      · rename_i v' hscan
        cases hv
        simp only [hscan]
      · cases hv
    obtain ⟨⟨o, g1⟩, hh⟩ := handle_ene_total (reset_seen g) a b v hwf' ha' hb'
    have hex : execute g "ene" (a :: b :: c :: rest) = some (o, g1, rest) := by
      simp [execute, Stream.read_string, hread, hh]
    have hst := execute_state g g1 "ene" o (a :: b :: c :: rest) rest hex
    obtain ⟨fuel, out, hf, hl⟩ := ih g1 "ene" (by rw [hst, hg])
    refine ⟨fuel + 1, o ++ "Enter a query: " ++ out, by simp only [List.length_cons]; omega, ?_⟩
    simp [Stream.read_string, prompt_and_execute_loop, hex]
    simp [Stream.read_string] at hl
    rw [hl]
  | path a b rest ha hb hne _ ih =>
    intro g old hg
    have hwf' : targets_in_range (reset_seen g) := by
      rw [hg]; exact targets_in_range_reset_seen genes hwf
    have ha' : (gene_ptr (reset_seen g) (index_of (reset_seen g) a)).isSome := by
      rw [hg, gene_ptr_reset_seen]; exact ha
    have hb' : (gene_ptr (reset_seen g) (index_of (reset_seen g) b)).isSome := by
      rw [hg, gene_ptr_reset_seen]; exact hb
    obtain ⟨⟨o, g1⟩, hh⟩ := handle_path_total (reset_seen g) a b hwf' ha' hb' hne
    have hex : execute g "path" (a :: b :: rest) = some (o, g1, rest) := by
      simp [execute, Stream.read_string, hh]
    have hst := execute_state g g1 "path" o (a :: b :: rest) rest hex
    obtain ⟨fuel, out, hf, hl⟩ := ih g1 "path" (by rw [hst, hg])
    refine ⟨fuel + 1, o ++ "Enter a query: " ++ out, by simp only [List.length_cons]; omega, ?_⟩
    simp [Stream.read_string, prompt_and_execute_loop, hex]
    simp [Stream.read_string] at hl
    rw [hl]
  | other tok rest h1 h2 h3 h4 h5 _ ih =>
    intro g old hg
    have hex : execute g tok rest =
        some (tok ++ " not recognized." ++ "\n\n", reset_seen g, rest) := by
      simp [execute, h2, h3, h4, h5]
    obtain ⟨fuel, out, hf, hl⟩ := ih (reset_seen g) tok (by rw [reset_seen_idem, hg])
    refine ⟨fuel + 1, tok ++ " not recognized." ++ "\n\n" ++ "Enter a query: " ++ out,
      by simp only [List.length_cons]; omega, ?_⟩
    simp only [Stream.read_string, prompt_and_execute_loop, h1, if_false, hex]
    simp only [Stream.read_string] at hl
    rw [hl]

/-! ## Loading a well-formed file -/

theorem read_int_token (tok : String) (v : Int) (rest : List String)
    (h : Stream.token_value tok = some v) : Stream.read_int (tok :: rest) = (some v, rest) := by
  unfold Stream.token_value at h
  unfold Stream.read_int
  split at h
  · rename_i v' hscan
    cases h
    simp only [hscan]
  · cases h

theorem set_at_length (done rest : List Gene) (g x : Gene) :
    (done ++ g :: rest).set done.length x = done ++ x :: rest := by
  induction done with
  | nil => rfl
  | cons d done ih => simp [ih]

theorem getElem?_at_length (done rest : List Gene) (g : Gene) :
    (done ++ g :: rest)[done.length]? = some g := by
  induction done with
  | nil => simp
  | cons d done ih => simpa using ih

theorem set_sq_at_length (done rest : List Gene) (g : Gene) (seq : String) :
    set_sq (done ++ g :: rest) done.length seq = done ++ { g with sq := seq } :: rest := by
  unfold set_sq
  rw [getElem?_at_length]
  exact set_at_length done rest g _

theorem set_mut_at_length (done rest : List Gene) (g : Gene) (cost : Int) (index : Nat) :
    set_mut (done ++ g :: rest) done.length cost index =
      done ++ { g with mutation := ⟨cost, some index⟩ } :: rest := by
  unfold set_mut
  rw [getElem?_at_length]
  exact set_at_length done rest g _

theorem skip_pairs_record (names : List String) (r : Record) (tail : List String)
    (old : String) (h : r.well_formed names) :
    ∃ k : Int, (k = 0 ∨ k = 1) ∧
      Stream.read_int (Stream.read_string (r.tokens ++ tail) old).2 =
        (some k, (r.tokens ++ tail).drop 2) ∧
      (Stream.read_string (r.tokens ++ tail) old).1 = r.name ∧
      skip_pairs k.toNat ((r.tokens ++ tail).drop 2) = tail := by
  unfold Record.well_formed at h
  cases hedge : r.edge with
  | none =>
    rw [hedge] at h
    refine ⟨0, Or.inl rfl, ?_, ?_, ?_⟩
    · simp [Record.tokens, hedge, Stream.read_string, read_int_token _ _ _ h]
    · simp [Record.tokens, hedge, Stream.read_string]
    · simp [Record.tokens, hedge, skip_pairs]
  | some e =>
    obtain ⟨target, cost⟩ := e
    rw [hedge] at h
    obtain ⟨h1, h2, _⟩ := h
    obtain ⟨v, hv⟩ := Option.isSome_iff_exists.mp h2
    refine ⟨1, Or.inr rfl, ?_, ?_, ?_⟩
    · simp [Record.tokens, hedge, Stream.read_string, read_int_token _ _ _ h1]
    · simp [Record.tokens, hedge, Stream.read_string]
    · simp [Record.tokens, hedge, skip_pairs, Stream.read_string, read_int_token _ _ _ hv]

theorem populate_nodes_records (names : List String) :
    ∀ (records : List Record), (∀ r ∈ records, r.well_formed names) →
      ∀ (done : List Gene) (m : Nat) (tail : List String) (seq : String) (num_muts : Option Int),
        populate_nodes_from records.length done.length (done ++ init (records.length + m))
            ((records.flatMap Record.tokens) ++ tail) seq num_muts =
          some (done ++ named (records.map Record.name) ++ init m, tail) := by
  intro records
  induction records with
  | nil =>
    intro _ done m tail seq num_muts
    simp [populate_nodes_from, named]
  | cons r rs ih =>
    intro hwf done m tail seq num_muts
    obtain ⟨k, _, hread, hname, hskip⟩ :=
      skip_pairs_record names r (rs.flatMap Record.tokens ++ tail) seq
        (hwf r (List.mem_cons_self r rs))
    have hinit : init (rs.length + 1 + m) =
        (⟨"", false, ⟨-1, none⟩⟩ : Gene) :: init (rs.length + m) := by
      simp [init, List.replicate_succ, Nat.add_right_comm]
    have htok : (r :: rs).flatMap Record.tokens ++ tail =
        r.tokens ++ (rs.flatMap Record.tokens ++ tail) := by
      simp [List.flatMap_cons]
    simp only [List.length_cons, populate_nodes_from, htok, hread, hname, Option.orElse, hskip,
      hinit, set_sq_at_length]
    have := ih (fun r' hr' => hwf r' (List.mem_cons_of_mem r hr'))
      (done ++ [⟨r.name, false, ⟨-1, none⟩⟩]) m tail r.name (some k)
    simp only [List.length_append, List.length_singleton, List.append_assoc,
      List.singleton_append] at this
    rw [this]
    simp [named]

theorem index_of_from_congr (seq : String) :
    ∀ (l l' : List Gene) (i : Nat), l.map Gene.sq = l'.map Gene.sq →
      index_of_from seq l i = index_of_from seq l' i := by
  intro l
  induction l with
  | nil =>
    intro l' i h
    cases l' with
    | nil => rfl
    | cons d' l' => simp at h
  | cons d l ih =>
    intro l' i h
    cases l' with
    | nil => simp at h
    | cons d' l' =>
      simp only [List.map_cons, List.cons.injEq] at h
      simp only [index_of_from, h.1, ih l' (i + 1) h.2]

theorem map_sq_named (names : List String) : (named names).map Gene.sq = names := by
  simp [named, Function.comp_def]

theorem resolve_target (dna : List Gene) (target : String) (h : target ∈ dna.map Gene.sq) :
    gene_ptr dna (index_of dna target) = some (index_of dna target).toNat ∧
      sq_at dna (index_of dna target).toNat = some target := by
  rcases index_of_from_spec target dna 0 with h1 | ⟨j, h1, h2⟩
  · have := (index_of_from_none target dna 0).mp h1
    obtain ⟨g, hg, hgs⟩ := List.mem_map.mp h
    exact absurd hgs (this g hg)
  · have hj : j < dna.length := by
      unfold sq_at at h2
      cases hd : dna[j]? with
      | none => rw [hd] at h2; cases h2
      | some g => exact (List.getElem?_eq_some_iff.mp hd).1
    unfold gene_ptr index_of
    rw [h1]
    simp only [Nat.zero_add, Int.toNat_ofNat, Int.ofNat_zero_le, hj, and_self, if_true]
    exact ⟨trivial, h2⟩

theorem populate_links_records (names : List String) :
    ∀ (records : List Record), (∀ r ∈ records, r.well_formed names) →
      ∀ (done : List Gene) (tail : List String) (mut_seq : String) (num_muts : Option Int),
        (done ++ named (records.map Record.name)).map Gene.sq = names →
        populate_links_from records.length done.length
            (done ++ named (records.map Record.name))
            ((records.flatMap Record.tokens) ++ tail) mut_seq num_muts =
          some (done ++ records.map (Record.gene names), tail) := by
  intro records
  induction records with
  | nil =>
    intro _ done tail mut_seq num_muts _
    simp [populate_links_from, named]
  | cons r rs ih =>
    intro hwf done tail mut_seq num_muts hnames
    have hr := hwf r (List.mem_cons_self r rs)
    have hrs : ∀ r' ∈ rs, r'.well_formed names :=
      fun r' hr' => hwf r' (List.mem_cons_of_mem r hr')
    have hdna : done ++ named ((r :: rs).map Record.name) =
        done ++ (⟨r.name, false, ⟨-1, none⟩⟩ : Gene) :: named (rs.map Record.name) := by
      simp [named]
    have htok : (r :: rs).flatMap Record.tokens ++ tail =
        r.tokens ++ (rs.flatMap Record.tokens ++ tail) := by
      simp [List.flatMap_cons]
    rw [hdna] at hnames ⊢
    unfold Record.well_formed at hr
    cases hedge : r.edge with
    | none =>
      rw [hedge] at hr
      have hgene : Record.gene names r = ⟨r.name, false, ⟨-1, none⟩⟩ := by
        simp [Record.gene, hedge]
      have := ih hrs (done ++ [⟨r.name, false, ⟨-1, none⟩⟩]) tail mut_seq (some 0)
        (by simpa using hnames)
      simp only [List.length_append, List.length_singleton, List.append_assoc,
        List.singleton_append] at this
      simp only [List.length_cons, populate_links_from, htok, Record.tokens, hedge,
        Stream.read_string, List.cons_append, List.nil_append, read_int_token _ _ _ hr,
        Option.orElse]
      rw [if_neg (by decide), this]
      simp [hgene]
    | some e =>
      obtain ⟨target, cost⟩ := e
      rw [hedge] at hr
      obtain ⟨h1, h2, h3⟩ := hr
      obtain ⟨v, hv⟩ := Option.isSome_iff_exists.mp h2
      have hmem : target ∈
          (done ++ (⟨r.name, false, ⟨-1, none⟩⟩ : Gene) :: named (rs.map Record.name)).map
            Gene.sq := by
        rw [hnames]; exact h3
      obtain ⟨hptr, _⟩ := resolve_target _ target hmem
      have hidx : index_of
          (done ++ (⟨r.name, false, ⟨-1, none⟩⟩ : Gene) :: named (rs.map Record.name)) target =
          index_of (named names) target := by
        unfold index_of
        apply index_of_from_congr
        rw [hnames, map_sq_named]
      have hgene : Record.gene names r =
          ⟨r.name, false, ⟨v, some (index_of (named names) target).toNat⟩⟩ := by
        simp [Record.gene, hedge, hv]
      have := ih hrs (done ++ [Record.gene names r]) tail target (some 1)
        (by rw [hgene]; simpa using hnames)
      simp only [List.length_append, List.length_singleton, List.append_assoc,
        List.singleton_append] at this
      simp only [List.length_cons, populate_links_from, htok, Record.tokens, hedge,
        Stream.read_string, List.cons_append, List.nil_append, read_int_token _ _ _ h1,
        read_int_token _ _ _ hv, Option.orElse, if_true, hptr, set_mut_at_length]
      rw [hidx, ← hgene, this]
      simp

theorem gene_of_record (names : List String) (r : Record) :
    (Record.gene names r).sq = r.name ∧ (Record.gene names r).seen = false := by
  unfold Record.gene
  split <;> exact ⟨rfl, rfl⟩

theorem read_genes_records (count : String) (records : List Record)
    (hcount : Stream.token_value count = some (records.length : Int))
    (hwf : ∀ r ∈ records, r.well_formed (records.map Record.name)) :
    read_genes (count :: records.flatMap Record.tokens) =
      some (records.map (Record.gene (records.map Record.name))) := by
  have h1 := populate_nodes_records (records.map Record.name) records hwf [] 0 [] "" none
  have h2 := populate_links_records (records.map Record.name) records hwf [] [] "" none
    (by simp [map_sq_named])
  simp only [List.nil_append, List.length_nil, Nat.add_zero, List.append_nil, init,
    List.replicate_zero] at h1 h2
  have hneg : ¬ ((records.length : Int) < 0) := by omega
  simp only [read_genes, read_int_token count _ _ hcount, hneg, if_false, Int.toNat_ofNat,
    populate_nodes, populate_links, init, h1, Option.orElse, h2]

/-- C13: for a well-formed primary-variant file, the count `N` followed by `N`
node lines whose edge count is 0 or 1, with pairwise distinct names and every
target declared on some line, `read_genes` returns `N` genes in file order; gene
`i` has the `i`-th name and `seen = false`, has no target when its count is 0,
and when its count is 1 has the declared cost and as target the one gene that
carries the declared target name, whether declared before or after. -/
theorem read_genes_well_formed (count : String) (records : List Record)
    (hcount : Stream.token_value count = some (records.length : Int))
    (hwf : ∀ r ∈ records, r.well_formed (records.map Record.name))
    (hdistinct : (records.map Record.name).Nodup) :
    ∃ genes, read_genes (count :: records.flatMap Record.tokens) = some genes ∧
      genes.length = records.length ∧
      ∀ (i : Nat) (r : Record), records[i]? = some r →
        ∃ g, genes[i]? = some g ∧ g.sq = r.name ∧ g.seen = false ∧
          match r.edge with
          | none => g.mutation.target = none
          | some (target, cost) =>
            Stream.token_value cost = some g.mutation.cost ∧
            ∃ j, g.mutation.target = some j ∧ sq_at genes j = some target ∧
              ∀ j', sq_at genes j' = some target → j' = j := by
  refine ⟨_, read_genes_records count records hcount hwf, by simp, ?_⟩
  intro i r hi
  have hsq : (records.map (Record.gene (records.map Record.name))).map Gene.sq =
      records.map Record.name := by
    rw [List.map_map]
    apply List.map_congr_left
    intro r' _
    exact (gene_of_record _ r').1
  have hsq_at : ∀ p, sq_at (records.map (Record.gene (records.map Record.name))) p =
      (records.map Record.name)[p]? := by
    intro p
    unfold sq_at
    rw [← List.getElem?_map, hsq]
  refine ⟨Record.gene (records.map Record.name) r, by simp [hi], ?_, ?_, ?_⟩
  · exact (gene_of_record _ r).1
  · exact (gene_of_record _ r).2
  · have hr := hwf r (List.getElem?_mem hi)
    unfold Record.well_formed at hr
    cases hedge : r.edge with
    | none => simp [Record.gene, hedge]
    | some e =>
      obtain ⟨target, cost⟩ := e
      rw [hedge] at hr
      obtain ⟨_, h2, h3⟩ := hr
      obtain ⟨v, hv⟩ := Option.isSome_iff_exists.mp h2
      have hres := resolve_target (named (records.map Record.name)) target
        (by rw [map_sq_named]; exact h3)
      have hj : (records.map Record.name)[(index_of (named (records.map Record.name))
          target).toNat]? = some target := by
        have := hres.2
        unfold sq_at at this
        rw [← List.getElem?_map, map_sq_named] at this
        exact this
      simp only [Record.gene, hedge, hv, Option.getD_some, true_and]
      refine ⟨_, rfl, by rw [hsq_at]; exact hj, ?_⟩
      intro j' hj'
      rw [hsq_at] at hj'
      exact List.getElem?_inj (List.getElem?_eq_some_iff.mp hj').1 hdistinct (hj'.trans hj.symm)

theorem read_genes_well_formed_witness :
    read_genes tokensS3_forward =
      some [⟨"B", false, ⟨5, some 1⟩⟩, ⟨"A", false, ⟨-1, none⟩⟩] ∧
    read_genes tokensS1 = some fileS1 ∧ read_genes tokensS3 = some fileS3 ∧
    ∃ genes, read_genes
        ("2" :: [(⟨"B", "1", some ("A", "5")⟩ : Record), ⟨"A", "0", none⟩].flatMap
          Record.tokens) = some genes ∧
      genes.length = [(⟨"B", "1", some ("A", "5")⟩ : Record), ⟨"A", "0", none⟩].length ∧
      ∀ (i : Nat) (r : Record),
        [(⟨"B", "1", some ("A", "5")⟩ : Record), ⟨"A", "0", none⟩][i]? = some r →
        ∃ g, genes[i]? = some g ∧ g.sq = r.name ∧ g.seen = false ∧
          match r.edge with
          | none => g.mutation.target = none
          | some (target, cost) =>
            Stream.token_value cost = some g.mutation.cost ∧
            ∃ j, g.mutation.target = some j ∧ sq_at genes j = some target ∧
              ∀ j', sq_at genes j' = some target → j' = j :=
  ⟨by decide, by decide, by decide,
    read_genes_well_formed "2" [⟨"B", "1", some ("A", "5")⟩, ⟨"A", "0", none⟩]
      (by decide) (by decide) (by decide)⟩

/-! ## Queries without a path -/

theorem getLast?_of_failure_text (r : String)
    (h : r.data = ['X'] ∨ ∃ pre, r.data = pre ++ [' ', 'X']) : r.data.getLast? = some 'X' := by
  rcases h with h | ⟨pre, h⟩
  · rw [h]; rfl
  · rw [h, show pre ++ [' ', 'X'] = (pre ++ [' ']) ++ ['X'] by simp, List.getLast?_append]
    rfl

theorem no_path_fileS1 : ∀ k, name_after fileS1 k 2 ≠ some "AAA" := by
  intro k
  match k with
  | 0 => decide
  | 1 => decide
  | j + 2 =>
    rw [name_after_step fileS1 (j + 1) 2 3 ⟨"CCC", false, ⟨4, some 3⟩⟩ rfl rfl,
      name_after_dead_end fileS1 j 3 ⟨"DDD", false, ⟨-1, none⟩⟩ rfl rfl]
    simp

/-- C21: on a graph with all seen flags false, when no walk of `k ≥ 0` edges
from `src` arrives at a gene named like `tgt`, the string `evolution_path src
tgt` returns ends with the character `X`, and the `path` query prints `There is
no path from <src> to <tgt>` and nothing of the walk. -/
theorem evolution_path_no_path (genes : List Gene) (src tgt : Nat) (t : Gene)
    (hwf : targets_in_range genes) (hfresh : all_unseen genes)
    (hsrc : src < genes.length) (ht : genes[tgt]? = some t)
    (hno : ∀ k, name_after genes k src ≠ some t.sq) :
    (∃ (r : String) (genes' : List Gene),
      evolution_path genes src tgt = some (r, genes') ∧ r.data.getLast? = some 'X') ∧
    ∀ (input2 input3 : String),
      gene_ptr genes (index_of genes input2) = some src →
      gene_ptr genes (index_of genes input3) = some tgt →
      ∃ genes', handle_path genes input2 input3 =
        some ("There is no path from " ++ input2 ++ " to " ++ input3 ++ "\n\n", genes') := by
  obtain ⟨r, genes', hrun, _, hneg⟩ :=
    evolution_path_fuel_spec t.sq (genes.length + 1) genes src tgt hwf hsrc
      (sq_at_of_getElem? genes tgt t ht) (trail_of_all_unseen _ genes src hfresh)
      (Nat.lt_succ_of_le (unseen_le_length genes))
  have hlast := getLast?_of_failure_text r (hneg hno)
  have hrun' : evolution_path genes src tgt = some (r, genes') := hrun
  refine ⟨⟨r, genes', hrun, hlast⟩, ?_⟩
  intro input2 input3 h2 h3
  have hs : sq_at genes' src = some input2 := by
    rw [evolution_path_fuel_sq _ _ _ _ _ _ hrun]; exact (gene_ptr_index_of genes input2 src h2).2
  have ht' : sq_at genes' tgt = some input3 := by
    rw [evolution_path_fuel_sq _ _ _ _ _ _ hrun]; exact (gene_ptr_index_of genes input3 tgt h3).2
  refine ⟨genes', ?_⟩
  simp only [handle_path, h2, h3, hrun', hlast, hs, ht', if_true]

theorem evolution_path_no_path_witness :
    targets_in_range fileS1 ∧ all_unseen fileS1 ∧
    (evolution_path fileS1 2 0).map Prod.fst = some "CCC -> X" ∧
    (handle_path fileS1 "CCC" "AAA").map Prod.fst =
      some "There is no path from CCC to AAA\n\n" ∧
    ((∃ (r : String) (genes' : List Gene),
      evolution_path fileS1 2 0 = some (r, genes') ∧ r.data.getLast? = some 'X') ∧
    ∀ (input2 input3 : String),
      gene_ptr fileS1 (index_of fileS1 input2) = some 2 →
      gene_ptr fileS1 (index_of fileS1 input3) = some 0 →
      ∃ genes', handle_path fileS1 input2 input3 =
        some ("There is no path from " ++ input2 ++ " to " ++ input3 ++ "\n\n", genes')) :=
  ⟨by decide, by decide, by decide, by decide,
    evolution_path_no_path fileS1 2 0 ⟨"AAA", false, ⟨2, some 1⟩⟩
      (by decide) (by decide) (by decide) rfl no_path_fileS1⟩

/-- C22: on a graph with non-negative edge costs and all seen flags false, when
no walk of `k ≥ 1` edges from `src` arrives at a gene named like `tgt`, which
covers every pair without a path, `evolution_cost src tgt` returns the `int`
sum of 10,000,000 and the costs of the `m` edges walked; when that sum does not
overflow `int`, the value returned is 10,000,000 plus the cost of the edges
walked, a value of at least 10,000,000, and the `ene` query answers "cannot
evolve" for every budget below 10,000,000. -/
theorem evolution_cost_no_path (genes : List Gene) (src tgt : Nat) (t : Gene)
    (hwf : targets_in_range genes) (hfresh : all_unseen genes) (hcost : costs_nonneg genes)
    (hsrc : src < genes.length) (ht : genes[tgt]? = some t)
    (hno : ∀ k, 1 ≤ k → name_after genes k src ≠ some t.sq) :
    ∃ (r : Int) (genes' : List Gene) (m : Nat),
      evolution_cost genes src tgt = some (r, genes') ∧ m ≤ genes.length ∧
      r = wrap_int (10000000 + walk_cost genes m src) ∧
      (10000000 + walk_cost genes m src ≤ 2147483647 →
        10000000 ≤ r ∧ r = 10000000 + walk_cost genes m src ∧
        ∀ (input2 input3 : String) (budget : Int),
          gene_ptr genes (index_of genes input2) = some src →
          gene_ptr genes (index_of genes input3) = some tgt →
          budget < 10000000 →
          ∃ genes', handle_ene genes input2 input3 budget =
            some (input2 ++ " cannot evolve into " ++ input3 ++ " with at most "
              ++ toString budget ++ " evolutionary cost\n" ++ "\n", genes')) := by
  obtain ⟨r, genes', hrun, _, hneg⟩ :=
    evolution_cost_fuel_spec t.sq (genes.length + 1) genes src tgt hwf hsrc
      (sq_at_of_getElem? genes tgt t ht) (trail_of_all_unseen _ genes src hfresh)
      (Nat.lt_succ_of_le (unseen_le_length genes))
  obtain ⟨m, hmle, hm⟩ := hneg hno
  have hnn := walk_cost_nonneg genes hcost m src
  have hle := unseen_le_length genes
  refine ⟨r, genes', m, hrun, by omega, hm, ?_⟩
  intro hfit
  have hw := wrap_int_of_fits (10000000 + walk_cost genes m src) ⟨by omega, hfit⟩
  rw [hw] at hm
  refine ⟨by omega, hm, ?_⟩
  intro input2 input3 budget h2 h3 hb
  refine ⟨genes', ?_⟩
  rw [handle_ene_eq genes genes' input2 input3 src tgt r budget h2 h3 hrun, if_neg (by omega)]

theorem evolution_cost_no_path_witness :
    targets_in_range fileS1 ∧ all_unseen fileS1 ∧ costs_nonneg fileS1 ∧
    (evolution_cost fileS1 2 0).map Prod.fst = some 10000004 ∧
    10000000 + walk_cost fileS1 1 2 = 10000004 ∧
    (handle_ene fileS1 "CCC" "AAA" 9999999).map Prod.fst =
      some "CCC cannot evolve into AAA with at most 9999999 evolutionary cost\n\n" ∧
    ∃ (r : Int) (genes' : List Gene) (m : Nat),
      evolution_cost fileS1 2 0 = some (r, genes') ∧ m ≤ fileS1.length ∧
      r = wrap_int (10000000 + walk_cost fileS1 m 2) ∧
      (10000000 + walk_cost fileS1 m 2 ≤ 2147483647 →
        10000000 ≤ r ∧ r = 10000000 + walk_cost fileS1 m 2 ∧
        ∀ (input2 input3 : String) (budget : Int),
          gene_ptr fileS1 (index_of fileS1 input2) = some 2 →
          gene_ptr fileS1 (index_of fileS1 input3) = some 0 →
          budget < 10000000 →
          ∃ genes', handle_ene fileS1 input2 input3 budget =
            some (input2 ++ " cannot evolve into " ++ input3 ++ " with at most "
              ++ toString budget ++ " evolutionary cost\n" ++ "\n", genes')) :=
  ⟨by decide, by decide, by decide, by decide, by decide, by decide,
    evolution_cost_no_path fileS1 2 0 ⟨"AAA", false, ⟨2, some 1⟩⟩
      (by decide) (by decide) (by decide) (by decide) rfl
      (fun k _ => no_path_fileS1 k)⟩

/-! ## The query loop at the end of the input -/

theorem execute_unrecognised (genes : List Gene) (input : String) (cin : List String)
    (he : input ≠ "e") (hes : input ≠ "es") (hene : input ≠ "ene") (hpath : input ≠ "path") :
    execute genes input cin = some (input ++ " not recognized." ++ "\n\n", reset_seen genes, cin) := by
  simp [execute, he, hes, hene, hpath]

theorem passes_unrecognised (input : String) (hq : input ≠ "q")
    (he : input ≠ "e") (hes : input ≠ "es") (hene : input ≠ "ene") (hpath : input ≠ "path") :
    ∀ (n : Nat) (genes : List Gene),
      ∃ genes', passes n (genes, input, []) = some (genes', input, []) := by
  intro n
  induction n with
  | zero => intro genes; exact ⟨genes, rfl⟩
  | succ n ih =>
    intro genes
    obtain ⟨genes', h⟩ := ih (reset_seen genes)
    refine ⟨genes', ?_⟩
    simp only [passes, pass, if_neg hq, execute_unrecognised genes input [] he hes hene hpath,
      Stream.read_string]
    exact h

theorem execute_without_arguments (genes : List Gene) (input : String)
    (hnames : ∀ g ∈ genes, g.sq ≠ "")
    (hin : input = "e" ∨ input = "es" ∨ input = "ene" ∨ input = "path") :
    gene_ptr (reset_seen genes) (index_of (reset_seen genes) "") = none ∧
    execute genes input [] = none := by
  have hidx : index_of (reset_seen genes) "" = -1 := by
    unfold index_of
    rw [index_of_from_none]
    intro g hg
    unfold reset_seen at hg
    obtain ⟨g0, hg0, rfl⟩ := List.mem_map.mp hg
    exact hnames g0 hg0
  have hptr : gene_ptr (reset_seen genes) (index_of (reset_seen genes) "") = none := by
    rw [hidx]
    simp [gene_ptr]
  refine ⟨hptr, ?_⟩
  rcases hin with h | h | h | h <;> subst h <;>
    simp [execute, Stream.read_string, Stream.read_int, handle_e, handle_es, handle_path, hptr]

end Lineage

namespace Mutations

/-! ## The name check of the strict loader -/

theorem check_chars_from_spec :
    ∀ (count j : Nat) (source : String),
      (check_chars_from count j source = some true ↔
        ∀ k, j ≤ k → k < j + count → ∃ c, char_at source k = some c ∧ is_base c) ∧
      (j ≤ source.data.length → check_chars_from count j source ≠ none) := by
  intro count
  induction count with
  | zero =>
    intro j source
    refine ⟨?_, fun _ => by simp [check_chars_from]⟩
    simp only [check_chars_from, true_iff]
    intro k h1 h2; omega
  | succ count ih =>
    intro j source
    obtain ⟨ih1, ih2⟩ := ih (j + 1) source
    constructor
    · cases hc : char_at source j with
      | none =>
        simp only [check_chars_from, hc]
        constructor
        · intro h; cases h
        · intro h
          obtain ⟨c, hc', _⟩ := h j (Nat.le_refl j) (by omega)
          rw [hc] at hc'; cases hc'
      | some c =>
        by_cases hb : is_base c
        · have hcond : ¬ (c ≠ 'A' ∧ c ≠ 'G' ∧ c ≠ 'C' ∧ c ≠ 'T') := by
            unfold is_base at hb; tauto
          simp only [check_chars_from, hc]
          rw [if_neg hcond, ih1]
          constructor
          · intro h k h1 h2
            rcases Nat.eq_or_lt_of_le h1 with heq | hlt
            · subst heq; exact ⟨c, hc, hb⟩
            · exact h k hlt (by omega)
          · intro h k h1 h2
            exact h k (by omega) (by omega)
        · have hcond : c ≠ 'A' ∧ c ≠ 'G' ∧ c ≠ 'C' ∧ c ≠ 'T' := by
            unfold is_base at hb; tauto
          simp only [check_chars_from, hc]
          rw [if_pos hcond]
          constructor
          · intro h; cases h
          · intro h
            obtain ⟨c', hc', hb'⟩ := h j (Nat.le_refl j) (by omega)
            rw [hc] at hc'; cases hc'
            exact absurd hb' hb
    · intro hj
      by_cases hlt : j < source.data.length
      · have hc : char_at source j = some source.data[j] := by
          unfold char_at
          simp only [hlt, if_true]
          exact List.getElem?_eq_getElem hlt
        simp only [check_chars_from, hc]
        split
        · simp
        · exact ih2 hlt
      · have hjl : j = source.data.length := by omega
        have hc : char_at source j = some (Char.ofNat 0) := by
          unfold char_at; simp [hjl]
        simp only [check_chars_from, hc]
        rw [if_pos (by decide)]
        simp

theorem check_source_outcome (source : String) :
    check_source source = some (Except.ok ()) ∨ check_source source = some (Except.error 3) := by
  unfold check_source
  have := (check_chars_from_spec 4 0 source).2 (Nat.zero_le _)
  cases h : check_chars_from 4 0 source with
  | none => exact absurd h this
  | some b =>
    cases b with
    | false => exact Or.inr rfl
    | true =>
      simp only []
      split
      · exact Or.inr rfl
      · exact Or.inl rfl

theorem check_source_iff (source : String) :
    check_source source = some (Except.ok ()) ↔
      source.data.length = 4 ∧ ∀ c ∈ source.data, is_base c := by
  have hspec := (check_chars_from_spec 4 0 source).1
  have hlhs : check_source source = some (Except.ok ()) ↔
      check_chars_from 4 0 source = some true ∧ source.data.length ≤ 4 := by
    unfold check_source
    cases h : check_chars_from 4 0 source with
    | none => simp
    | some b =>
      cases b with
      | false => simp
      | true =>
        simp only [true_and]
        constructor
        · intro h'
          split at h'
          · cases h'
          · rename_i hlen; omega
        · intro h'
          rw [if_neg (by omega)]
  rw [hlhs, hspec]
  constructor
  · rintro ⟨hall, hlen⟩
    have h4 : source.data.length = 4 := by
      by_contra hne
      have hlt : source.data.length < 4 := by omega
      obtain ⟨c, hc, hb⟩ := hall source.data.length (Nat.zero_le _) (by omega)
      have : char_at source source.data.length = some (Char.ofNat 0) := by
        unfold char_at; simp
      rw [this] at hc
      cases hc
      exact absurd hb (by decide)
    refine ⟨h4, ?_⟩
    intro c hc
    obtain ⟨k, hk, hget⟩ := List.getElem_of_mem hc
    obtain ⟨c', hc', hb⟩ := hall k (Nat.zero_le _) (by omega)
    have : char_at source k = some c := by
      unfold char_at
      simp only [hk, if_true]
      rw [List.getElem?_eq_getElem hk, hget]
    rw [this] at hc'
    cases hc'
    exact hb
  · rintro ⟨h4, hall⟩
    refine ⟨?_, by omega⟩
    intro k _ hk
    have hk' : k < source.data.length := by omega
    refine ⟨source.data[k], ?_, hall _ (List.getElem_mem hk')⟩
    unfold char_at
    simp only [hk', if_true]
    exact List.getElem?_eq_getElem hk'

/-- What the two checks of `read_genes` on a name amount to: a name passes
exactly when it is 4 characters long and each character is one of `A`, `G`,
`C`, `T`; for every other name the check, and with it the load, ends with exit
status 3. -/
theorem name_check_accepts (source : String) :
    (check_source source = some (Except.ok ()) ↔
      source.data.length = 4 ∧ ∀ c ∈ source.data, is_base c) ∧
    (check_source source = some (Except.ok ()) ∨
      check_source source = some (Except.error 3)) ∧
    ∀ (count i : Nat) (genes : List Gene) (infile : List String) (g : Gene),
      genes[i]? = some g → (Stream.read_string infile g.source).1 = source →
      check_source source ≠ some (Except.ok ()) →
      read_genes_from (count + 1) i genes infile = some (Except.error 3) := by
  refine ⟨check_source_iff source, check_source_outcome source, ?_⟩
  intro count i genes infile g hg hsrc hbad
  rcases check_source_outcome source with h | h
  · exact absurd h hbad
  · simp only [read_genes_from, hg, hsrc, h]

/-- C16: the names `A` and `AGC` are over the alphabet and pass the length
test `length > 4` of `read_genes`, yet the loop over `source[0..3]` reads the
terminating null character at index `length`, takes it for a character outside
the alphabet, and the load ends with exit status 3; the 4-character name `AGCT`
is accepted. -/
theorem short_name_rejected :
    ("A".data.length = 1 ∧ ∀ c ∈ "A".data, is_base c) ∧
    ¬ (("A".data.length : Int) > 4) ∧
    char_at "A" 1 = some (Char.ofNat 0) ∧
    check_chars_from 4 0 "A" = some false ∧
    check_source "A" = some (Except.error 3) ∧
    ("AGC".data.length = 3 ∧ ∀ c ∈ "AGC".data, is_base c) ∧
    char_at "AGC" 3 = some (Char.ofNat 0) ∧
    check_source "AGC" = some (Except.error 3) ∧
    check_source "AGCT" = some (Except.ok ()) ∧
    read_data ["1", "A", "0"] = some (Except.error 3) ∧
    read_data ["1", "AGCT", "0"] =
      some (Except.ok [⟨"AGCT", 0, List.replicate 5 ⟨none, 0⟩⟩]) := by
  decide

/-! ## The line count of `is_valid` -/

theorem count_lines_spec :
    ∀ (rest : List Char) (next : Char) (i : Int),
      count_lines rest next i =
        i + (rest.count '\n' : Int) +
          (if (next :: rest).getLast? = some '\n' then 1 else 0) := by
  intro rest
  induction rest with
  | nil =>
    intro next i
    by_cases h : next = '\n' <;> simp [count_lines, h]
  | cons c rest ih =>
    intro next i
    simp only [count_lines, ih, List.getLast?_cons_cons]
    by_cases h : c = '\n'
    · subst h
      simp only [if_true, List.count_cons_self]
      push_cast
      omega
    · have hne : ('\n' == c) = false := by
        simp only [beq_eq_false_iff_ne, ne_eq]
        exact fun e => h e.symm
      simp only [h, if_false, List.count_cons, beq_iff_eq]
      have : ¬ (c = '\n') := h
      simp [this]

/-- C18, as the code has it: for a file whose first token is the integer `N`,
followed by at least one character, and that does not end in a newline,
`is_valid` accepts the file exactly when the file has `N - 1` newline characters
after the character that follows `N`, and exits with status 3 otherwise; a file
that ends with the token `N` is accepted exactly when `N = 1`. -/
theorem is_valid_line_count (lines : Int) (next : Char) (rest : List Char)
    (hlast : (next :: rest).getLast? ≠ some '\n') :
    (is_valid lines (next :: rest) = Except.ok () ↔ (rest.count '\n' : Int) = lines - 1) ∧
    (is_valid lines (next :: rest) = Except.ok () ∨
      is_valid lines (next :: rest) = Except.error 3) ∧
    (is_valid lines [] = Except.ok () ↔ lines = 1) := by
  have hcount : count_lines rest next 1 = 1 + (rest.count '\n' : Int) := by
    rw [count_lines_spec, if_neg hlast]; omega
  refine ⟨?_, ?_, ?_⟩
  · simp only [is_valid, hcount]
    by_cases h : 1 + (rest.count '\n' : Int) = lines
    · simp only [h, ne_eq, not_true_eq_false, if_false, true_iff]; omega
    · simp only [ne_eq, h, not_false_eq_true, if_true]
      constructor
      · intro h'; cases h'
      · intro h'; omega
  · simp only [is_valid]
    split
    · exact Or.inr rfl
    · exact Or.inl rfl
  · simp only [is_valid]
    by_cases h : (1 : Int) = lines
    · simp only [h, ne_eq, not_true_eq_false, if_false, true_iff]
    · simp only [ne_eq, h, not_false_eq_true, if_true]
      constructor
      · intro h'; cases h'
      · intro h'; omega

theorem is_valid_line_count_witness :
    "\nAAAA 0\nCCCC 0".data.getLast? ≠ some '\n' ∧
    is_valid 2 "\nAAAA 0\nCCCC 0".data = Except.ok () ∧
    is_valid 3 "\nAAAA 0\nCCCC 0".data = Except.error 3 ∧
    ((is_valid 2 ('\n' :: "AAAA 0\nCCCC 0".data) = Except.ok () ↔
      (("AAAA 0\nCCCC 0".data).count '\n' : Int) = 2 - 1) ∧
    (is_valid 2 ('\n' :: "AAAA 0\nCCCC 0".data) = Except.ok () ∨
      is_valid 2 ('\n' :: "AAAA 0\nCCCC 0".data) = Except.error 3) ∧
    (is_valid 2 [] = Except.ok () ↔ (2 : Int) = 1)) :=
  ⟨by decide, by decide, by decide,
    is_valid_line_count 2 '\n' "AAAA 0\nCCCC 0".data (by decide)⟩

/-- C18 fails as stated: the file `2\nAAAA 0\nCCCC 0\n` has exactly 2 newline
characters besides the one that ends line 1, and `is_valid` rejects it; the
same file without its last newline has 1 and is accepted. -/
theorem one_newline_per_line_rejected :
    ("\nAAAA 0\nCCCC 0\n".data.count '\n' - 1 = 2 ∧
      is_valid 2 "\nAAAA 0\nCCCC 0\n".data = Except.error 3) ∧
    ("\nAAAA 0\nCCCC 0".data.count '\n' - 1 = 1 ∧
      is_valid 2 "\nAAAA 0\nCCCC 0".data = Except.ok ()) := by
  decide

/-! ## The print command -/

theorem foldl_append_acc :
    ∀ (l : List String) (acc : String),
      l.foldl (fun r s => r ++ s) acc = acc ++ l.foldl (fun r s => r ++ s) "" := by
  intro l
  induction l with
  | nil => intro acc; simp
  | cons a l ih =>
    intro acc
    simp only [List.foldl_cons]
    rw [ih (acc ++ a), ih ("" ++ a), String.append_assoc]
    simp

theorem join_cons (a : String) (l : List String) :
    String.join (a :: l) = a ++ String.join l := by
  unfold String.join
  simp only [List.foldl_cons]
  rw [foldl_append_acc]
  simp

theorem print_mutations_lines (g : Gene) (genes : List Gene) :
    ∀ (count j : Nat), j + count ≤ g.mutations.length →
      (∀ m ∈ (g.mutations.drop j).take count, ∃ ptr ∈ m.mutation_name, ptr < genes.length) →
      print_mutations count j g genes =
        some (String.join (((g.mutations.drop j).take count).map (mutation_line genes))) := by
  intro count
  induction count with
  | zero => intro j _ _; simp [print_mutations, String.join]
  | succ count ih =>
    intro j hlen hall
    have hj : j < g.mutations.length := by omega
    have hdrop : g.mutations.drop j = g.mutations[j] :: g.mutations.drop (j + 1) :=
      List.drop_eq_getElem_cons hj
    rw [hdrop, List.take_succ_cons] at hall ⊢
    obtain ⟨ptr, hptr, hlt⟩ := hall g.mutations[j] (List.mem_cons_self _ _)
    have hptr' : (g.mutations[j]).mutation_name = some ptr := hptr
    have hrec := ih (j + 1) (by omega)
      (fun m hm => hall m (List.mem_cons_of_mem _ hm))
    simp only [print_mutations, List.getElem?_eq_getElem hj, hptr',
      List.getElem?_eq_getElem hlt, hrec, List.map_cons, join_cons]
    simp [mutation_line, target_source, hptr', List.getElem?_eq_getElem hlt]

theorem print_data_from_blocks (genes : List Gene) :
    ∀ (rest : List Gene),
      (∀ g ∈ rest, 0 ≤ g.possibilities ∧ g.possibilities ≤ 5 ∧
        g.possibilities.toNat ≤ g.mutations.length ∧
        ∀ m ∈ used_mutations g,
          (∃ ptr ∈ m.mutation_name, ptr < genes.length) ∧ 0 ≤ m.energy) →
      print_data_from rest genes = some (String.join (rest.map (gene_block genes))) := by
  intro rest
  induction rest with
  | nil => intro _; simp [print_data_from, String.join]
  | cons g rest ih =>
    intro hall
    obtain ⟨h0, _, hlen, hm⟩ := hall g (List.mem_cons_self g rest)
    have hrec := ih (fun g' hg' => hall g' (List.mem_cons_of_mem g hg'))
    by_cases hp : g.possibilities < 1
    · have hz : g.possibilities = 0 := by omega
      simp only [print_data_from, hp, if_true, hrec, List.map_cons, join_cons, gene_block]
      simp only [hz, if_true]
    · have hz : ¬ g.possibilities = 0 := by omega
      have hlines := print_mutations_lines g genes g.possibilities.toNat 0
        (by omega) (by
          intro m hmem
          rw [List.drop_zero] at hmem
          exact (hm m hmem).1)
      rw [List.drop_zero] at hlines
      simp only [print_data_from, hp, if_false, hlines, hrec, List.map_cons, join_cons,
        gene_block, hz, used_mutations]

/-- C19: for a strictly loaded graph `print_data` writes, for each gene in load
order, the line `== <name> ==`, the line `Mutations:`, then the line `None` when
the edge count is 0 and otherwise one line `<target-name> - Cost: <cost>` per
mutation in use, in the order of the slots, which is the order of the file. -/
theorem print_data_blocks (genes : List Gene) (h : strictly_loaded genes) :
    print_data genes = some (String.join (genes.map (gene_block genes))) :=
  print_data_from_blocks genes genes h

theorem print_data_blocks_witness :
    strictly_loaded two_genes ∧
    read_data ["2", "AAAA", "2", "CCCC", "3", "AAAA", "0", "CCCC", "0"] =
      some (Except.ok two_genes) ∧
    String.join (two_genes.map (gene_block two_genes)) =
      "== AAAA ==\nMutations:\nCCCC - Cost: 3\nAAAA - Cost: 0\n== CCCC ==\nMutations:\nNone\n" ∧
    print_data two_genes = some (String.join (two_genes.map (gene_block two_genes))) :=
  ⟨by decide, by decide, by decide, print_data_blocks two_genes (by decide)⟩

/-! ## The strict loader: first loop -/

theorem set_append_length {α : Type} (done rest : List α) (x y : α) :
    (done ++ x :: rest).set done.length y = done ++ y :: rest := by
  induction done with
  | nil => rfl
  | cons d done ih => simp [ih]

theorem getElem?_append_length {α : Type} (done rest : List α) (x : α) :
    (done ++ x :: rest)[done.length]? = some x := by
  induction done with
  | nil => simp
  | cons d done ih => simpa using ih

theorem read_string_stream (infile : List String) (old old' : String) :
    (Stream.read_string infile old).2 = (Stream.read_string infile old').2 := by
  cases infile <;> rfl

theorem read_string_value (infile : List String) (old old' : String) (h : infile ≠ []) :
    (Stream.read_string infile old).1 = (Stream.read_string infile old').1 := by
  cases infile with
  | nil => exact absurd rfl h
  | cons a l => rfl

theorem read_int_none (infile : List String) (h : (Stream.read_int infile).1 = none) :
    infile = [] ∧ (Stream.read_int infile).2 = [] := by
  cases infile with
  | nil => exact ⟨rfl, rfl⟩
  | cons tok rest =>
    simp only [Stream.read_int] at h
    split at h <;> cases h

theorem skip_pairs_nil : ∀ (n : Nat), skip_pairs n [] = [] := by
  intro n
  induction n with
  | zero => rfl
  | succ n ih => simpa [skip_pairs, Stream.read_string, Stream.read_int] using ih

theorem init_data_succ (n : Nat) :
    init_data (n + 1) = (⟨" ", 0, List.replicate 5 ⟨none, 0⟩⟩ : Gene) :: init_data n := by
  simp [init_data, List.replicate_succ]

theorem read_genes_from_ok :
    ∀ (n : Nat) (done : List Gene) (infile : List String) (genes' : List Gene),
      read_genes_from n done.length (done ++ init_data n) infile = some (Except.ok genes') →
      genes' = done ++ (scan n infile).map blank ∧
      ∀ e ∈ scan n infile, check_source e.1 = some (Except.ok ()) ∧ 0 ≤ e.2 ∧ e.2 ≤ 5 := by
  intro n
  induction n with
  | zero =>
    intro done infile genes' h
    simp only [read_genes_from, init_data, List.replicate_zero, List.append_nil,
      Option.some.injEq, Except.ok.injEq] at h
    subst h
    simp [scan]
  | succ n ih =>
    intro done infile genes' h
    rw [init_data_succ] at h
    simp only [read_genes_from, getElem?_append_length] at h
    split at h
    · cases h
    · cases h
    · rename_i hcheck
      split at h
      · cases h
      · rename_i hrange
        rw [set_append_length] at h
        have hrec := ih (done ++ [blank ((Stream.read_string infile " ").1,
          (Stream.read_int (Stream.read_string infile " ").2).1.getD 0)]) _ genes'
          (by
            simp only [List.length_append, List.length_singleton, List.append_assoc,
              List.singleton_append]
            exact h)
        obtain ⟨h1, h2⟩ := hrec
        constructor
        · rw [h1]; simp [scan]
        · intro e he
          simp only [scan, List.mem_cons] at he
          rcases he with rfl | he
          · refine ⟨hcheck, ?_, ?_⟩ <;> (simp only []; omega)
          · exact h2 e he

theorem read_genes_from_error :
    ∀ (n i : Nat) (genes : List Gene) (infile : List String) (status : Nat),
      read_genes_from n i genes infile = some (Except.error status) → status = 3 := by
  intro n
  induction n with
  | zero => intro i genes infile status h; simp [read_genes_from] at h
  | succ n ih =>
    intro i genes infile status h
    simp only [read_genes_from] at h
    split at h
    · cases h
    · split at h
      · cases h
      · rename_i st hcheck
        rcases check_source_outcome (Stream.read_string infile _).1 with h' | h'
        · rw [h'] at hcheck; cases hcheck
        · rw [h'] at hcheck
          cases hcheck
          cases h; rfl
      · split at h
        · cases h; rfl
        · exact ih _ _ _ _ h

/-! ## The strict loader: repeated names -/

theorem repeats_from_false (source : String) :
    ∀ (l : List Gene) (rep : Int), repeats_from source l rep = false →
      rep + (l.countP (fun g => decide (source = g.source)) : Int) ≤ 1 ∨ 1 < rep := by
  intro l
  induction l with
  | nil => intro rep _; simp; omega
  | cons g rest ih =>
    intro rep h
    by_cases hs : source = g.source
    · simp only [repeats_from, if_pos hs] at h
      by_cases hgt : rep + 1 > 1
      · rw [if_pos hgt] at h; cases h
      · rw [if_neg hgt] at h
        have := ih _ h
        have hc : (g :: rest).countP (fun g' => decide (source = g'.source)) =
            rest.countP (fun g' => decide (source = g'.source)) + 1 :=
          List.countP_cons_of_pos _ _ (by simp [hs])
        rw [hc]
        push_cast
        omega
    · simp only [repeats_from, if_neg hs] at h
      by_cases hgt : rep > 1
      · right; omega
      · rw [if_neg hgt] at h
        have := ih _ h
        have hc : (g :: rest).countP (fun g' => decide (source = g'.source)) =
            rest.countP (fun g' => decide (source = g'.source)) :=
          List.countP_cons_of_neg _ _ (by simp [hs])
        rw [hc]
        omega

theorem has_repeat_from_false (genes : List Gene) :
    ∀ (rest : List Gene), has_repeat_from genes rest = false →
      ∀ g ∈ rest, genes.countP (fun g' => decide (g.source = g'.source)) ≤ 1 := by
  intro rest
  induction rest with
  | nil => intro _ g hg; cases hg
  | cons a rest ih =>
    intro h g hg
    simp only [has_repeat_from] at h
    split at h
    · cases h
    · rename_i hrep
      rcases List.mem_cons.mp hg with rfl | hg'
      · have := repeats_from_false g.source genes 0 (by simpa using hrep)
        omega
      · exact ih h g hg'

theorem nodup_of_no_repeat (genes : List Gene) (h : has_repeat_from genes genes = false) :
    (genes.map Gene.source).Nodup := by
  rw [List.nodup_iff_count_le_one]
  intro a
  by_cases ha : a ∈ genes.map Gene.source
  · obtain ⟨g, hg, rfl⟩ := List.mem_map.mp ha
    have := has_repeat_from_false genes genes h g hg
    rw [List.count_eq_countP, List.countP_map]
    have heq : genes.countP ((fun x => x == g.source) ∘ Gene.source) =
        genes.countP (fun g' => decide (g.source = g'.source)) := by
      apply List.countP_congr
      intro x _
      simp only [Function.comp_apply, beq_iff_eq, decide_eq_true_eq]
      exact eq_comm
    rw [heq]
    exact this
  · rw [List.count_eq_zero_of_not_mem ha]
    omega

/-! ## The strict loader: second loop -/

theorem find_gene_from_lt (name : String) :
    ∀ (l : List Gene) (i p : Nat), find_gene_from name l i = some p → p < i + l.length := by
  intro l
  induction l with
  | nil => intro i p h; simp [find_gene_from] at h
  | cons g rest ih =>
    intro i p h
    simp only [find_gene_from] at h
    split at h
    · cases h; simp
    · have := ih (i + 1) p h
      simp only [List.length_cons]; omega

theorem find_gene_lt (genes : List Gene) (name : String) (p : Nat)
    (h : find_gene genes name = some p) : p < genes.length := by
  have := find_gene_from_lt name genes 0 p h
  omega

theorem length_set_energy (genes : List Gene) (i j : Nat) (e : Int) :
    (set_energy genes i j e).length = genes.length := by
  unfold set_energy
  split
  · rfl
  · split <;> simp

theorem set_energy_at (done rest : List Gene) (g : Gene) (j : Nat) (m : Mutation) (e : Int)
    (hm : g.mutations[j]? = some m) :
    set_energy (done ++ g :: rest) done.length j e =
      done ++ { g with mutations := g.mutations.set j { m with energy := e } } :: rest := by
  unfold set_energy
  rw [getElem?_append_length]
  simp only [hm]
  exact set_append_length done rest g _

theorem set_mutation_name_at (done rest : List Gene) (g : Gene) (j : Nat) (m : Mutation)
    (ptr : Nat) (hm : g.mutations[j]? = some m) :
    set_mutation_name (done ++ g :: rest) done.length j ptr =
      done ++ { g with mutations := g.mutations.set j { m with mutation_name := some ptr } }
        :: rest := by
  unfold set_mutation_name
  rw [getElem?_append_length]
  simp only [hm]
  exact set_append_length done rest g _

theorem energy_at_append (done rest : List Gene) (g : Gene) (j : Nat) :
    energy_at (done ++ g :: rest) done.length j = (g.mutations[j]?).map Mutation.energy := by
  unfold energy_at
  rw [getElem?_append_length]

theorem read_pairs_ok :
    ∀ (cnt j : Nat) (done rest : List Gene) (g : Gene) (infile : List String) (name : String)
      (genes' : List Gene) (infile' : List String) (name' : String),
      read_pairs cnt j done.length (done ++ g :: rest) infile name =
        some (Except.ok (genes', infile', name')) →
      infile' = skip_pairs cnt infile ∧
      ∃ g', genes' = done ++ g' :: rest ∧ g'.source = g.source ∧
        g'.possibilities = g.possibilities ∧ g'.mutations.length = g.mutations.length ∧
        (∀ q, q < j → g'.mutations[q]? = g.mutations[q]?) ∧
        ∀ q, j ≤ q → q < j + cnt →
          ∃ m ptr, g'.mutations[q]? = some m ∧ m.mutation_name = some ptr ∧
            ptr < (done ++ g :: rest).length ∧ 0 ≤ m.energy := by
  intro cnt
  induction cnt with
  | zero =>
    intro j done rest g infile name genes' infile' name' h
    simp only [read_pairs, Option.some.injEq, Except.ok.injEq, Prod.mk.injEq] at h
    obtain ⟨h1, h2, _⟩ := h
    subst h1 h2
    exact ⟨rfl, g, rfl, rfl, rfl, rfl, fun _ _ => rfl, fun q h1 h2 => by omega⟩
  | succ cnt ih =>
    intro j done rest g infile name genes' infile' name' h
    cases hm : g.mutations[j]? with
    | none =>
      simp only [read_pairs, energy_at_append, hm, Option.map_none'] at h
      cases h
    | some m0 =>
      simp only [read_pairs, energy_at_append, hm, Option.map_some'] at h
      split at h
      · cases h
      · rename_i hneg
        split at h
        · cases h
        · rename_i ptr hfind
          have hj : j < g.mutations.length := (List.getElem?_eq_some_iff.mp hm).1
          have hptr : ptr < (done ++ g :: rest).length := by
            have := find_gene_lt _ _ _ hfind
            rwa [length_set_energy] at this
          rw [set_energy_at done rest g j m0 _ hm] at h
          rw [set_mutation_name_at done rest _ j
            { m0 with energy :=
              (Stream.read_int (Stream.read_string infile name).2).1.getD m0.energy } ptr
            (by simp [List.getElem?_set_self hj])] at h
          obtain ⟨hs, g', hg', hsrc, hposs, hlen, hbefore, hslots⟩ := ih (j + 1) done rest _ _ _ _ _ _ h
          refine ⟨?_, g', hg', hsrc, hposs, by simpa using hlen, ?_, ?_⟩
          · rw [hs]
            simp only [skip_pairs]
            rw [read_string_stream infile name ""]
          · intro q hq
            rw [hbefore q (by omega)]
            simp only [List.set_set]
            rw [List.getElem?_set_ne (by omega)]
          · intro q hq1 hq2
            rcases Nat.eq_or_lt_of_le hq1 with heq | hlt
            · subst heq
              refine ⟨⟨some ptr,
                (Stream.read_int (Stream.read_string infile name).2).1.getD m0.energy⟩,
                ptr, ?_, rfl, hptr, ?_⟩
              · rw [hbefore j (by omega)]
                simp only [List.set_set]
                rw [List.getElem?_set_self hj]
              · simp only []; omega
            · obtain ⟨m, p, h1, h2, h3, h4⟩ := hslots q (by omega) (by omega)
              exact ⟨m, p, h1, h2, by simpa using h3, h4⟩

theorem read_pairs_error :
    ∀ (cnt j i : Nat) (genes : List Gene) (infile : List String) (name : String)
      (status : Nat),
      read_pairs cnt j i genes infile name = some (Except.error status) → status = 3 := by
  intro cnt
  induction cnt with
  | zero => intro j i genes infile name status h; simp [read_pairs] at h
  | succ cnt ih =>
    intro j i genes infile name status h
    simp only [read_pairs] at h
    split at h
    · cases h
    · split at h
      · cases h; rfl
      · split at h
        · cases h; rfl
        · exact ih _ _ _ _ _ _ h

theorem mem_take_slot (l : List Mutation) (c : Nat) (m : Mutation) (h : m ∈ l.take c) :
    ∃ q, q < c ∧ l[q]? = some m := by
  obtain ⟨q, hq, hget⟩ := List.mem_take_iff_getElem.mp h
  refine ⟨q, by omega, ?_⟩
  rw [List.getElem?_eq_getElem (by omega), hget]

theorem read_mutations_from_ok :
    ∀ (n : Nat) (done : List Gene) (infile : List String) (name : String) (prev : Option Int)
      (genes'' : List Gene),
      (∀ e ∈ scan n infile, 0 ≤ e.2 ∧ e.2 ≤ 5) →
      read_mutations_from n done.length (done ++ (scan n infile).map blank) infile name prev =
        some (Except.ok genes'') →
      ∃ built, genes'' = done ++ built ∧
        built.map Gene.source = (scan n infile).map Prod.fst ∧
        ∀ g ∈ built, good (done.length + n) g := by
  intro n
  induction n with
  | zero =>
    intro done infile name prev genes'' _ h
    simp only [read_mutations_from, scan, List.map_nil, List.append_nil, Option.some.injEq,
      Except.ok.injEq] at h
    exact ⟨[], by simp [h], by simp [scan], by simp⟩
  | succ n ih =>
    intro done infile name prev genes'' hall h
    have hstream : (Stream.read_string infile "").2 = (Stream.read_string infile " ").2 :=
      read_string_stream infile "" " "
    simp only [scan, List.map_cons, read_mutations_from, hstream] at h
    split at h
    · cases h
    · rename_i k hk
      split at h
      · cases h
      · cases h
      · rename_i genes_a infile_a name_a hpairs
        obtain ⟨hs, g', hg', hsrc, hposs, hlen, _, hslots⟩ :=
          read_pairs_ok k.toNat 0 done _ _ _ _ _ _ _ hpairs
        have he := hall _ (by simp only [scan]; exact List.mem_cons_self _ _)
        simp only [] at he
        -- the two loops are at the same place in the file
        have hsync : infile_a =
            skip_pairs ((Stream.read_int (Stream.read_string infile " ").2).1.getD 0).toNat
              (Stream.read_int (Stream.read_string infile " ").2).2 := by
          rw [hs]
          cases hr : (Stream.read_int (Stream.read_string infile " ").2).1 with
          | none =>
            rw [(read_int_none _ hr).2, skip_pairs_nil, skip_pairs_nil]
          | some v =>
            rw [hr] at hk
            simp only [Option.orElse, Option.some.injEq] at hk
            subst hk
            rfl
        have hcount : ∀ q, q < ((Stream.read_int (Stream.read_string infile " ").2).1.getD
            0).toNat → q < k.toNat := by
          intro q hq
          cases hr : (Stream.read_int (Stream.read_string infile " ").2).1 with
          | none => rw [hr] at hq; simp at hq
          | some v =>
            rw [hr] at hk hq
            simp only [Option.orElse, Option.some.injEq] at hk
            subst hk
            exact hq
        subst hg' hsync
        have hrec := ih (done ++ [g']) _ name_a (some k) genes''
          (fun e hmem => hall e (by simp only [scan]; exact List.mem_cons_of_mem _ hmem))
          (by
            simp only [List.length_append, List.length_singleton, List.append_assoc,
              List.singleton_append]
            exact h)
        obtain ⟨built, hb1, hb2, hb3⟩ := hrec
        refine ⟨g' :: built, by rw [hb1]; simp, ?_, ?_⟩
        · simp only [List.map_cons, scan, hb2, hsrc, blank]
        · intro g hg
          rcases List.mem_cons.mp hg with rfl | hg
          · have hlen5 : g.mutations.length = 5 := by rw [hlen]; simp [blank]
            have hp : g.possibilities =
                (Stream.read_int (Stream.read_string infile " ").2).1.getD 0 := by
              rw [hposs]; rfl
            refine ⟨by rw [hp]; exact he.1, by rw [hp]; exact he.2, by rw [hp, hlen5]; omega, ?_⟩
            intro m hm
            obtain ⟨q, hq, hget⟩ := mem_take_slot _ _ _ hm
            rw [hp] at hq
            obtain ⟨m', ptr, h1, h2, h3, h4⟩ := hslots q (Nat.zero_le q) (by
              have := hcount q hq; omega)
            rw [hget] at h1
            cases h1
            refine ⟨⟨ptr, h2, ?_⟩, h4⟩
            simp only [List.length_append, List.length_cons, List.length_map] at h3
            have hsl : (scan n (skip_pairs
                ((Stream.read_int (Stream.read_string infile " ").2).1.getD 0).toNat
                (Stream.read_int (Stream.read_string infile " ").2).2)).length = n := by
              clear * -
              generalize skip_pairs _ _ = s
              induction n generalizing s with
              | zero => rfl
              | succ n ih => simp [scan, ih]
            omega
          · have := hb3 g hg
            simp only [List.length_append, List.length_singleton] at this
            have heq : done.length + 1 + n = done.length + (n + 1) := by omega
            rw [heq] at this
            exact this

theorem read_mutations_from_error :
    ∀ (n i : Nat) (genes : List Gene) (infile : List String) (name : String)
      (prev : Option Int) (status : Nat),
      read_mutations_from n i genes infile name prev = some (Except.error status) →
      status = 3 := by
  intro n
  induction n with
  | zero => intro i genes infile name prev status h; simp [read_mutations_from] at h
  | succ n ih =>
    intro i genes infile name prev status h
    simp only [read_mutations_from] at h
    split at h
    · cases h
    · split at h
      · cases h
      · rename_i hp
        cases h
        exact read_pairs_error _ _ _ _ _ _ _ hp
      · exact ih _ _ _ _ _ _ h

/-! ## The strict loader: what a successful load guarantees -/

theorem good_strictly_loaded (genes : List Gene) (h : ∀ g ∈ genes, good genes.length g) :
    strictly_loaded genes := h

theorem scan_length : ∀ (n : Nat) (infile : List String), (scan n infile).length = n := by
  intro n
  induction n with
  | zero => intro _; rfl
  | succ n ih => intro infile; simp [scan, ih]

theorem read_data_ok (file : List String) (genes : List Gene)
    (h : read_data file = some (Except.ok genes)) :
    (genes.map Gene.source).Nodup ∧
    (∀ g ∈ genes, g.source.data.length = 4 ∧ ∀ c ∈ g.source.data, is_base c) ∧
    strictly_loaded genes := by
  unfold read_data at h
  split at h
  · cases h
  · rename_i num_genes hnum
    split at h
    · cases h
    · split at h
      · cases h
      · cases h
      · rename_i genes1 hread
        -- first loop and repeat check
        unfold read_genes at hread
        simp only [hnum, Option.getD_some] at hread
        split at hread
        · cases hread
        · cases hread
        · rename_i genes0 hfrom
          split at hread
          · cases hread
          · rename_i hrep
            simp only [Option.some.injEq, Except.ok.injEq] at hread
            subst hread
            obtain ⟨hg0, hscan⟩ := read_genes_from_ok num_genes.toNat [] _ genes0
              (by simpa using hfrom)
            simp only [List.nil_append] at hg0
            -- second loop
            unfold read_mutations at h
            simp only [hnum, Option.getD_some] at h
            rw [hg0] at h
            obtain ⟨built, hb1, hb2, hb3⟩ := read_mutations_from_ok num_genes.toNat [] _ "" none
              genes (fun e he => (hscan e he).2) (by simpa using h)
            simp only [List.nil_append, List.length_nil, Nat.zero_add] at hb1 hb3
            subst hb1
            have hsrc : genes.map Gene.source = genes0.map Gene.source := by
              rw [hb2, hg0, List.map_map]
              rfl
            have hlen : genes.length = num_genes.toNat := by
              have := congrArg List.length hb2
              simpa [scan_length] using this
            refine ⟨?_, ?_, ?_⟩
            · rw [hsrc]
              exact nodup_of_no_repeat genes0 (by simpa using hrep)
            · intro g hg
              have hmem : g.source ∈ (scan num_genes.toNat (Stream.read_int file).2).map
                  Prod.fst := by
                rw [← hb2]; exact List.mem_map_of_mem _ hg
              obtain ⟨e, he, hes⟩ := List.mem_map.mp hmem
              rw [← hes]
              exact (check_source_iff e.1).mp (hscan e he).1
            · apply good_strictly_loaded
              rw [hlen]
              exact hb3

theorem read_data_error (file : List String) (status : Nat)
    (h : read_data file = some (Except.error status)) : status = 3 := by
  unfold read_data at h
  split at h
  · cases h
  · split at h
    · cases h
    · split at h
      · cases h
      · rename_i st hread
        cases h
        unfold read_genes at hread
        split at hread
        · cases hread
        · rename_i hfrom
          cases hread
          exact read_genes_from_error _ _ _ _ _ hfrom
        · split at hread
          · cases hread; rfl
          · cases hread
      · unfold read_mutations at h
        exact read_mutations_from_error _ _ _ _ _ _ _ h

/-! ## The query loop of the strict program -/

theorem read_int_of_token_value (c : String) (rest : List String) (v : Int)
    (hv : Stream.token_value c = some v) : Stream.read_int (c :: rest) = (some v, rest) := by
  unfold Stream.token_value at hv
  unfold Stream.read_int
  split at hv
  · rename_i v' hscan
    cases hv
    simp only [hscan]
  · cases hv

theorem first_match_total (s : Gene) (genes : List Gene) (mutated : String) :
    ∀ (count j : Nat), j + count ≤ s.mutations.length →
      (∀ m ∈ (s.mutations.drop j).take count, ∃ ptr ∈ m.mutation_name, ptr < genes.length) →
      ∃ r, first_match count j s genes mutated = some r := by
  intro count
  induction count with
  | zero => intro j _ _; exact ⟨none, rfl⟩
  | succ count ih =>
    intro j hlen hall
    have hj : j < s.mutations.length := by omega
    have hdrop : s.mutations.drop j = s.mutations[j] :: s.mutations.drop (j + 1) :=
      List.drop_eq_getElem_cons hj
    rw [hdrop, List.take_succ_cons] at hall
    obtain ⟨ptr, hptr, hlt⟩ := hall s.mutations[j] (List.mem_cons_self _ _)
    have hptr' : (s.mutations[j]).mutation_name = some ptr := hptr
    obtain ⟨r, hr⟩ := ih (j + 1) (by omega) (fun m hm => hall m (List.mem_cons_of_mem _ hm))
    simp only [first_match, List.getElem?_eq_getElem hj, hptr', List.getElem?_eq_getElem hlt, hr]
    split
    · exact ⟨_, rfl⟩
    · exact ⟨_, rfl⟩

theorem matching_cost_total (s : Gene) (genes : List Gene) (mutated : String) :
    ∀ (count j : Nat) (cost : Int), j + count ≤ s.mutations.length →
      (∀ m ∈ (s.mutations.drop j).take count, ∃ ptr ∈ m.mutation_name, ptr < genes.length) →
      ∃ r, matching_cost count j s genes mutated cost = some r := by
  intro count
  induction count with
  | zero => intro j cost _ _; exact ⟨cost, rfl⟩
  | succ count ih =>
    intro j cost hlen hall
    have hj : j < s.mutations.length := by omega
    have hdrop : s.mutations.drop j = s.mutations[j] :: s.mutations.drop (j + 1) :=
      List.drop_eq_getElem_cons hj
    rw [hdrop, List.take_succ_cons] at hall
    obtain ⟨ptr, hptr, hlt⟩ := hall s.mutations[j] (List.mem_cons_self _ _)
    have hptr' : (s.mutations[j]).mutation_name = some ptr := hptr
    simp only [matching_cost, List.getElem?_eq_getElem hj, hptr', List.getElem?_eq_getElem hlt]
    exact ih (j + 1) _ (by omega) (fun m hm => hall m (List.mem_cons_of_mem _ hm))

theorem is_possible_total (genes : List Gene) (starting : Nat) (cin : List String)
    (h : strictly_loaded genes) (hs : starting < genes.length) :
    ∃ out ret, is_possible genes starting cin = some (out, ret, (Stream.read_string cin "").2) := by
  obtain ⟨_, _, hlen, hm⟩ := h genes[starting] (List.getElem_mem hs)
  obtain ⟨r, hr⟩ := first_match_total genes[starting] genes (Stream.read_string cin "").1
    genes[starting].possibilities.toNat 0 (by omega) (by
      intro m hmem
      rw [List.drop_zero] at hmem
      exact (hm m hmem).1)
  simp only [is_possible, List.getElem?_eq_getElem hs, hr]
  cases r with
  | none => exact ⟨_, _, rfl⟩
  | some i => exact ⟨_, _, rfl⟩

theorem energy_cost_total (genes : List Gene) (starting : Nat) (cin rest : List String) (v : Int)
    (h : strictly_loaded genes) (hs : starting < genes.length)
    (hread : Stream.read_int (Stream.read_string cin "").2 = (some v, rest)) :
    ∃ out, energy_cost genes starting cin = some (out, rest) := by
  obtain ⟨out, ret, hp⟩ := is_possible_total genes starting cin h hs
  obtain ⟨_, _, hlen, hm⟩ := h genes[starting] (List.getElem_mem hs)
  obtain ⟨r, hr⟩ := matching_cost_total genes[starting] genes ret
    genes[starting].possibilities.toNat 0 0 (by omega) (by
      intro m hmem
      rw [List.drop_zero] at hmem
      exact (hm m hmem).1)
  simp only [energy_cost, hp, List.getElem?_eq_getElem hs, hr, hread]
  exact ⟨_, rfl⟩

theorem is_possible_exhausted (genes : List Gene) (starting : Nat) (out ret : String)
    (cin1 : List String) (h : is_possible genes starting [] = some (out, ret, cin1)) :
    cin1 = [] := by
  unfold is_possible at h
  simp only [Stream.read_string] at h
  split at h
  · cases h
  · split at h
    · cases h
    · cases h; rfl
    · cases h; rfl

theorem energy_cost_exhausted (genes : List Gene) (starting : Nat) :
    energy_cost genes starting [] = none := by
  unfold energy_cost
  split
  · rfl
  · rename_i out ret cin1 hp
    have := is_possible_exhausted genes starting out ret cin1 hp
    subst this
    split
    · rfl
    · split
      · rfl
      · simp [Stream.read_int]

theorem repl_pass_exhausted (genes : List Gene) (input out : String) (cin1 : List String)
    (h : execute genes input [] = some (out, cin1)) : cin1 = [] := by
  unfold execute at h
  simp only [Stream.read_string] at h
  split at h
  · split at h
    · cases h
    · cases h; rfl
  · split at h
    · split at h
      · cases h
      · split at h
        · split at h
          · cases h
          · rename_i o r c hp
            cases h
            exact is_possible_exhausted genes _ o r _ hp
        · rw [energy_cost_exhausted] at h
          cases h
    · cases h; rfl

theorem repl_exhausted (genes : List Gene) :
    ∀ (fuel : Nat) (input : String), input ≠ "q" →
      prompt_and_execute_loop fuel genes input [] = none := by
  intro fuel
  induction fuel with
  | zero => intro input _; rfl
  | succ fuel ih =>
    intro input hq
    simp only [prompt_and_execute_loop, if_neg hq]
    split
    · rfl
    · rename_i out cin1 hex
      have := repl_pass_exhausted genes input out cin1 hex
      subst this
      simp only [Stream.read_string, ih input hq]

theorem repl_script (genes : List Gene) (cin : List String) (hs : Script genes cin)
    (h : strictly_loaded genes) :
    ∀ (old : String), ∃ fuel out, fuel ≤ cin.length ∧
      prompt_and_execute_loop fuel genes (Stream.read_string cin old).1
        (Stream.read_string cin old).2 = some out := by
  induction hs with
  | quit rest =>
    intro old
    exact ⟨1, "", by simp, by simp [Stream.read_string, prompt_and_execute_loop]⟩
  | p rest _ ih =>
    intro old
    have hex : execute genes "p" rest =
        some (String.join (genes.map (gene_block genes)) ++ "\n", rest) := by
      simp [execute, print_data_from_blocks genes genes h, print_data]
    obtain ⟨fuel, out, hf, hl⟩ := ih "p"
    refine ⟨fuel + 1, String.join (genes.map (gene_block genes)) ++ "\n" ++ "Enter a query: " ++ out, by simp only [List.length_cons]; omega, ?_⟩
    simp [Stream.read_string, prompt_and_execute_loop, hex]
    simp [Stream.read_string] at hl
    rw [hl]
  | m a b rest ha _ ih =>
    intro old
    obtain ⟨st, hst⟩ := Option.isSome_iff_exists.mp ha
    obtain ⟨o, r, hp⟩ := is_possible_total genes st (b :: rest) h (find_gene_lt genes a st hst)
    have hex : execute genes "m" (a :: b :: rest) = some (o ++ "\n" ++ "\n", rest) := by
      simp [execute, Stream.read_string, hst, hp]
    obtain ⟨fuel, out, hf, hl⟩ := ih "m"
    refine ⟨fuel + 1, o ++ "\n" ++ "\n" ++ "Enter a query: " ++ out, by simp only [List.length_cons]; omega, ?_⟩
    simp [Stream.read_string, prompt_and_execute_loop, hex]
    simp [Stream.read_string] at hl
    rw [hl]
  | me a b c rest ha hc _ ih =>
    intro old
    obtain ⟨st, hst⟩ := Option.isSome_iff_exists.mp ha
    obtain ⟨v, hv⟩ := Option.isSome_iff_exists.mp hc
    obtain ⟨o, hp⟩ := energy_cost_total genes st (b :: c :: rest) rest v h
      (find_gene_lt genes a st hst) (read_int_of_token_value c rest v hv)
    have hex : execute genes "me" (a :: b :: c :: rest) = some (o ++ "\n" ++ "\n", rest) := by
      simp [execute, Stream.read_string, hst, hp]
    obtain ⟨fuel, out, hf, hl⟩ := ih "me"
    refine ⟨fuel + 1, o ++ "\n" ++ "\n" ++ "Enter a query: " ++ out, by simp only [List.length_cons]; omega, ?_⟩
    simp [Stream.read_string, prompt_and_execute_loop, hex]
    simp [Stream.read_string] at hl
    rw [hl]
  | other tok rest hq hp hm hme _ ih =>
    intro old
    have hex : execute genes tok rest = some (tok ++ " not recognized." ++ "\n" ++ "\n", rest) := by
      simp [execute, hp, hm, hme]
    obtain ⟨fuel, out, hf, hl⟩ := ih tok
    refine ⟨fuel + 1, tok ++ " not recognized." ++ "\n" ++ "\n" ++ "Enter a query: " ++ out, by simp only [List.length_cons]; omega, ?_⟩
    simp [Stream.read_string, prompt_and_execute_loop, hex, hq]
    simp [Stream.read_string] at hl
    rw [hl]

/-! ## The queries `m` and `me` -/

theorem first_match_findIdx (s : Gene) (genes : List Gene) (mutated : String) :
    ∀ (count j : Nat), j + count ≤ s.mutations.length →
      (∀ m ∈ (s.mutations.drop j).take count, ∃ ptr ∈ m.mutation_name, ptr < genes.length) →
      first_match count j s genes mutated =
        some (List.findIdx? (fun m => target_source genes m = mutated)
          ((s.mutations.drop j).take count) j) := by
  intro count
  induction count with
  | zero => intro j _ _; simp [first_match]
  | succ count ih =>
    intro j hlen hall
    have hj : j < s.mutations.length := by omega
    have hdrop : s.mutations.drop j = s.mutations[j] :: s.mutations.drop (j + 1) :=
      List.drop_eq_getElem_cons hj
    rw [hdrop, List.take_succ_cons] at hall ⊢
    obtain ⟨ptr, hptr, hlt⟩ := hall s.mutations[j] (List.mem_cons_self _ _)
    have hptr' : (s.mutations[j]).mutation_name = some ptr := hptr
    have hrec := ih (j + 1) (by omega) (fun m hm => hall m (List.mem_cons_of_mem _ hm))
    have hname : target_source genes s.mutations[j] = genes[ptr].source := by
      simp [target_source, hptr', List.getElem?_eq_getElem hlt]
    simp only [first_match, List.getElem?_eq_getElem hj, hptr', List.getElem?_eq_getElem hlt,
      hrec, List.findIdx?_cons, hname, decide_eq_true_eq]
    split <;> rfl

theorem last_energy_cons (m : Mutation) (l : List Mutation) (cost : Int) :
    (((m :: l).getLast?).map Mutation.energy).getD cost =
      ((l.getLast?).map Mutation.energy).getD m.energy := by
  cases l with
  | nil => rfl
  | cons b l => rw [List.getLast?_cons_cons]; simp [List.getLast?_cons]

theorem matching_cost_last (s : Gene) (genes : List Gene) (mutated : String) :
    ∀ (count j : Nat) (cost : Int), j + count ≤ s.mutations.length →
      (∀ m ∈ (s.mutations.drop j).take count, ∃ ptr ∈ m.mutation_name, ptr < genes.length) →
      matching_cost count j s genes mutated cost =
        some (((((s.mutations.drop j).take count).filter
          (fun m => target_source genes m = mutated)).getLast?.map Mutation.energy).getD cost) := by
  intro count
  induction count with
  | zero => intro j cost _ _; simp [matching_cost]
  | succ count ih =>
    intro j cost hlen hall
    have hj : j < s.mutations.length := by omega
    have hdrop : s.mutations.drop j = s.mutations[j] :: s.mutations.drop (j + 1) :=
      List.drop_eq_getElem_cons hj
    rw [hdrop, List.take_succ_cons] at hall ⊢
    obtain ⟨ptr, hptr, hlt⟩ := hall s.mutations[j] (List.mem_cons_self _ _)
    have hptr' : (s.mutations[j]).mutation_name = some ptr := hptr
    have hrec := fun c => ih (j + 1) c (by omega) (fun m hm => hall m (List.mem_cons_of_mem _ hm))
    have hname : target_source genes s.mutations[j] = genes[ptr].source := by
      simp [target_source, hptr', List.getElem?_eq_getElem hlt]
    simp only [matching_cost, List.getElem?_eq_getElem hj, hptr', List.getElem?_eq_getElem hlt,
      hrec]
    by_cases hm : genes[ptr].source = mutated
    · rw [if_pos hm, List.filter_cons_of_pos (by simp [hname, hm]), last_energy_cons]
    · rw [if_neg hm, List.filter_cons_of_neg (by simp [hname, hm])]


theorem with_ne_but_not (x y : String) :
    x ++ " with evolutionary cost " ++ y ≠ x ++ " but not with evolutionary cost " ++ y := by
  intro h
  have := congrArg String.data h
  simp [String.data_append] at this

theorem can_ne_cannot (x m w y : String) :
    x ++ " can mutate into " ++ m ++ w ++ y ≠ x ++ " cannot mutate into " ++ m := by
  intro h
  have := congrArg String.data h
  simp [String.data_append] at this

theorem used_target (genes : List Gene) (s : Gene) (hload : strictly_loaded genes)
    (hs : s ∈ genes) (c : Mutation) (hc : c ∈ used_mutations s) :
    ∃ g ∈ genes, target_source genes c = g.source := by
  obtain ⟨ptr, hptr, hlt⟩ := ((hload s hs).2.2.2 c hc).1
  have hptr' : c.mutation_name = some ptr := hptr
  exact ⟨genes[ptr], List.getElem_mem hlt,
    by simp [target_source, hptr', List.getElem?_eq_getElem hlt]⟩

/-- C23: on a graph as the strict loader leaves it (no gene is named `no`, the
names there having 4 characters), for the gene `starting`, the name `m` and the
integer `r` read by the `me` query, `is_possible` stops at the first mutation
in use whose target is named `m`, and `energy_cost` prints
`<source> can mutate into <m> with evolutionary cost <r>` exactly when some
mutation in use has a target named `m` and the cost `c` of the last such
mutation is at most `r`, `<source> can mutate into <m> but not with
evolutionary cost <r>` exactly when there is one and `c > r`, and
`<source> cannot mutate into <m>` exactly when there is none. -/
theorem energy_cost_answers (genes : List Gene) (starting : Nat) (s : Gene) (m tok : String)
    (r : Int) (rest : List String)
    (hload : strictly_loaded genes) (hno : ∀ g ∈ genes, g.source ≠ "no")
    (hs : genes[starting]? = some s) (htok : Stream.token_value tok = some r) :
    first_match s.possibilities.toNat 0 s genes m =
      some (List.findIdx? (fun c => target_source genes c = m) (used_mutations s)) ∧
    ∃ text, energy_cost genes starting (m :: tok :: rest) = some (text, rest) ∧
      (text = s.source ++ " can mutate into " ++ m ++ " with evolutionary cost " ++ toString r ↔
        ∃ c, (matching genes s m).getLast? = some c ∧ c.energy ≤ r) ∧
      (text = s.source ++ " can mutate into " ++ m ++ " but not with evolutionary cost "
          ++ toString r ↔
        ∃ c, (matching genes s m).getLast? = some c ∧ r < c.energy) ∧
      (text = s.source ++ " cannot mutate into " ++ m ↔ matching genes s m = []) := by
  have hmem : s ∈ genes := List.getElem?_mem hs
  obtain ⟨_, _, hlen, hm⟩ := hload s hmem
  have hin : ∀ c ∈ (s.mutations.drop 0).take s.possibilities.toNat,
      ∃ ptr ∈ c.mutation_name, ptr < genes.length := by
    intro c hc
    rw [List.drop_zero] at hc
    exact (hm c hc).1
  have hfirst : first_match s.possibilities.toNat 0 s genes m =
      some (List.findIdx? (fun c => target_source genes c = m) (used_mutations s)) := by
    have := first_match_findIdx s genes m s.possibilities.toNat 0 (by omega) hin
    rw [List.drop_zero] at this
    exact this
  have hcost : ∀ name, matching_cost s.possibilities.toNat 0 s genes name 0 =
      some ((((matching genes s name).getLast?).map Mutation.energy).getD 0) := by
    intro name
    have := matching_cost_last s genes name s.possibilities.toNat 0 0 (by omega) hin
    rw [List.drop_zero] at this
    exact this
  have hread := read_int_of_token_value tok rest r htok
  refine ⟨hfirst, ?_⟩
  by_cases hnil : matching genes s m = []
  · have hnone : List.findIdx? (fun c => decide (target_source genes c = m))
        (used_mutations s) = none := by
      rw [List.findIdx?_eq_none_iff]
      intro c hc
      have := (List.filter_eq_nil_iff.mp hnil) c hc
      simpa using this
    refine ⟨s.source ++ " cannot mutate into " ++ m, ?_, ?_, ?_, ?_⟩
    · simp [energy_cost, is_possible, hs, Stream.read_string, hfirst, hnone, hcost, hread]
    · rw [hnil]
      constructor
      · intro h
        exact absurd h.symm (can_ne_cannot _ _ _ _)
      · rintro ⟨c, hc, _⟩
        cases hc
    · rw [hnil]
      constructor
      · intro h
        exact absurd h.symm (can_ne_cannot _ _ _ _)
      · rintro ⟨c, hc, _⟩
        cases hc
    · exact ⟨fun _ => hnil, fun _ => rfl⟩
  · obtain ⟨c, hc⟩ : ∃ c, (matching genes s m).getLast? = some c := by
      cases hl : (matching genes s m).getLast? with
      | none => exact absurd (List.getLast?_eq_none_iff.mp hl) hnil
      | some c => exact ⟨c, rfl⟩
    obtain ⟨i, hi⟩ : ∃ i, List.findIdx? (fun c => decide (target_source genes c = m))
        (used_mutations s) = some i := by
      cases hf : List.findIdx? (fun c => decide (target_source genes c = m))
          (used_mutations s) with
      | some i => exact ⟨i, rfl⟩
      | none =>
        rw [List.findIdx?_eq_none_iff] at hf
        exfalso
        apply hnil
        apply List.filter_eq_nil_iff.mpr
        intro a ha
        simpa using hf a ha
    have hmno : m ≠ "no" := by
      have hcm : c ∈ matching genes s m := List.mem_of_mem_getLast? hc
      obtain ⟨hcu, hcn⟩ := List.mem_filter.mp hcm
      obtain ⟨g, hg, hgs⟩ := used_target genes s hload hmem c hcu
      have : target_source genes c = m := by simpa using hcn
      rw [← this, hgs]
      exact hno g hg
    by_cases hle : c.energy ≤ r
    · have hnlt : ¬ r < c.energy := by omega
      refine ⟨s.source ++ " can mutate into " ++ m ++ " with evolutionary cost " ++ toString r,
        ?_, ?_, ?_, ?_⟩
      · simp [energy_cost, is_possible, hs, Stream.read_string, hfirst, hi, hcost, hread, hc,
          hmno, hle, hnlt, String.append_assoc]
      · exact ⟨fun _ => ⟨c, hc, hle⟩, fun _ => rfl⟩
      · constructor
        · intro h
          exact absurd h (with_ne_but_not _ _)
        · rintro ⟨c', hc', hlt⟩
          obtain rfl : c = c' := Option.some.inj (hc.symm.trans hc')
          omega
      · constructor
        · intro h
          exact absurd h (can_ne_cannot _ _ _ _)
        · intro h
          exact absurd h hnil
    · have hlt : r < c.energy := by omega
      refine ⟨s.source ++ " can mutate into " ++ m ++ " but not with evolutionary cost "
          ++ toString r, ?_, ?_, ?_, ?_⟩
      · simp [energy_cost, is_possible, hs, Stream.read_string, hfirst, hi, hcost, hread, hc,
          hmno, hle, hlt, String.append_assoc]
      · constructor
        · intro h
          exact absurd h.symm (with_ne_but_not _ _)
        · rintro ⟨c', hc', hle'⟩
          obtain rfl : c = c' := Option.some.inj (hc.symm.trans hc')
          exact absurd hle' hle
      · exact ⟨fun _ => ⟨c, hc, hlt⟩, fun _ => rfl⟩
      · constructor
        · intro h
          exact absurd h (can_ne_cannot _ _ _ _)
        · intro h
          exact absurd h hnil


set_option maxRecDepth 100000 in
theorem energy_cost_answers_witness :
    strictly_loaded twice_listed ∧
    read_data ["2", "AAAA", "2", "CCCC", "1", "CCCC", "7", "CCCC", "0"] =
      some (Except.ok twice_listed) ∧
    matching twice_listed ⟨"AAAA", 2, [⟨some 1, 1⟩, ⟨some 1, 7⟩, ⟨none, 0⟩, ⟨none, 0⟩, ⟨none, 0⟩]⟩
      "CCCC" = [⟨some 1, 1⟩, ⟨some 1, 7⟩] ∧
    energy_cost twice_listed 0 ["CCCC", "5"] =
      some ("AAAA can mutate into CCCC but not with evolutionary cost 5", []) ∧
    energy_cost twice_listed 0 ["CCCC", "7"] =
      some ("AAAA can mutate into CCCC with evolutionary cost 7", []) ∧
    energy_cost twice_listed 0 ["AAAA", "7"] = some ("AAAA cannot mutate into AAAA", []) ∧
    (first_match (2 : Int).toNat 0
        ⟨"AAAA", 2, [⟨some 1, 1⟩, ⟨some 1, 7⟩, ⟨none, 0⟩, ⟨none, 0⟩, ⟨none, 0⟩]⟩ twice_listed
        "CCCC" =
      some (List.findIdx? (fun c => target_source twice_listed c = "CCCC")
        (used_mutations
          ⟨"AAAA", 2, [⟨some 1, 1⟩, ⟨some 1, 7⟩, ⟨none, 0⟩, ⟨none, 0⟩, ⟨none, 0⟩]⟩)) ∧
    ∃ text, energy_cost twice_listed 0 ("CCCC" :: "5" :: []) = some (text, []) ∧
      (text = "AAAA" ++ " can mutate into " ++ "CCCC" ++ " with evolutionary cost "
          ++ toString (5 : Int) ↔
        ∃ c, (matching twice_listed
          ⟨"AAAA", 2, [⟨some 1, 1⟩, ⟨some 1, 7⟩, ⟨none, 0⟩, ⟨none, 0⟩, ⟨none, 0⟩]⟩
          "CCCC").getLast? = some c ∧ c.energy ≤ 5) ∧
      (text = "AAAA" ++ " can mutate into " ++ "CCCC" ++ " but not with evolutionary cost "
          ++ toString (5 : Int) ↔
        ∃ c, (matching twice_listed
          ⟨"AAAA", 2, [⟨some 1, 1⟩, ⟨some 1, 7⟩, ⟨none, 0⟩, ⟨none, 0⟩, ⟨none, 0⟩]⟩
          "CCCC").getLast? = some c ∧ 5 < c.energy) ∧
      (text = "AAAA" ++ " cannot mutate into " ++ "CCCC" ↔
        matching twice_listed
          ⟨"AAAA", 2, [⟨some 1, 1⟩, ⟨some 1, 7⟩, ⟨none, 0⟩, ⟨none, 0⟩, ⟨none, 0⟩]⟩
          "CCCC" = [])) :=
  ⟨by decide, by decide, by decide, by decide, by decide, by decide,
    energy_cost_answers twice_listed 0
      ⟨"AAAA", 2, [⟨some 1, 1⟩, ⟨some 1, 7⟩, ⟨none, 0⟩, ⟨none, 0⟩, ⟨none, 0⟩]⟩ "CCCC" "5" 5 []
      (by decide) (by decide) rfl (by decide)⟩

/-! ## The query loops at the end of the input -/

theorem repl_pass_other (genes : List Gene) (input : String) (hload : strictly_loaded genes)
    (hm : input ≠ "m") (hme : input ≠ "me") :
    ∃ out, execute genes input [] = some (out, []) := by
  by_cases hp : input = "p"
  · subst hp
    exact ⟨String.join (genes.map (gene_block genes)) ++ "\n",
      by simp [execute, print_data_from_blocks genes genes hload, print_data]⟩
  · exact ⟨input ++ " not recognized." ++ "\n" ++ "\n", by simp [execute, hp, hm, hme]⟩

theorem repl_passes_forever (genes : List Gene) (input : String) (hload : strictly_loaded genes)
    (hq : input ≠ "q") (hm : input ≠ "m") (hme : input ≠ "me") :
    ∀ (n : Nat), passes genes n (input, []) = some (input, []) := by
  intro n
  induction n with
  | zero => rfl
  | succ n ih =>
    obtain ⟨out, hex⟩ := repl_pass_other genes input hload hm hme
    simp only [passes, pass, if_neg hq, hex, Stream.read_string]
    exact ih

theorem find_gene_from_none (name : String) :
    ∀ (l : List Gene) (i : Nat), (∀ g ∈ l, g.source ≠ name) → find_gene_from name l i = none := by
  intro l
  induction l with
  | nil => intro i _; rfl
  | cons g rest ih =>
    intro i h
    have hg : ¬ name = g.source := fun e => h g (List.mem_cons_self g rest) e.symm
    simp only [find_gene_from, if_neg hg]
    exact ih (i + 1) (fun g' hg' => h g' (List.mem_cons_of_mem g hg'))

theorem repl_without_arguments (genes : List Gene) (input : String)
    (hnames : ∀ g ∈ genes, g.source ≠ "") (hin : input = "m" ∨ input = "me") :
    find_gene genes "" = none ∧ execute genes input [] = none := by
  have hfind : find_gene genes "" = none := find_gene_from_none "" genes 0 hnames
  refine ⟨hfind, ?_⟩
  rcases hin with h | h <;> subst h <;> simp [execute, Stream.read_string, hfind]

/-- C20 fails as stated: with the input exhausted and no `q` read, every pass of
either loop succeeds and leaves the command in place, so the loop makes any
number of passes and never stops; here for the tokens `zzz` (lineage program,
file S3) and `p` (strict program).  After the command `e` the repeated pass
finds no gene for its missing arguments and is undefined. -/
theorem loops_run_past_end_of_input :
    Lineage.execute Lineage.fileS3 "zzz" [] =
      some ("zzz not recognized.\n\n", Lineage.fileS3, []) ∧
    (∀ n, Lineage.passes n (Lineage.fileS3, "zzz", []) = some (Lineage.fileS3, "zzz", [])) ∧
    (∀ fuel, Lineage.prompt_and_execute fuel Lineage.fileS3 ["zzz"] = none) ∧
    execute two_genes "p" [] =
      some ("== AAAA ==\nMutations:\nCCCC - Cost: 3\nAAAA - Cost: 0\n" ++
        "== CCCC ==\nMutations:\nNone\n\n", []) ∧
    (∀ n, passes two_genes n ("p", []) = some ("p", [])) ∧
    (∀ fuel, prompt_and_execute fuel two_genes ["p"] = none) ∧
    Lineage.passes 1 (Lineage.fileS3, "e", ["B", "A"]) = some (Lineage.fileS3, "e", []) ∧
    Lineage.execute Lineage.fileS3 "e" [] = none := by
  refine ⟨by decide, ?_, ?_, by decide, ?_, ?_, by decide, by decide⟩
  · intro n
    induction n with
    | zero => rfl
    | succ n ih =>
      have hex : Lineage.execute Lineage.fileS3 "zzz" [] =
          some ("zzz not recognized.\n\n", Lineage.fileS3, []) := by decide
      simp only [Lineage.passes, Lineage.pass, hex, Stream.read_string]
      exact ih
  · intro fuel
    cases fuel with
    | zero => rfl
    | succ n =>
      simp [Lineage.prompt_and_execute, Stream.read_string, Lineage.prompt_and_execute_loop,
        Lineage.execute, Lineage.loop_exhausted n _ "zzz" (by decide)]
  · exact repl_passes_forever two_genes "p" (by decide) (by decide) (by decide) (by decide)
  · intro fuel
    cases fuel with
    | zero => rfl
    | succ n =>
      have hex : execute two_genes "p" [] =
          some ("== AAAA ==\nMutations:\nCCCC - Cost: 3\nAAAA - Cost: 0\n" ++
            "== CCCC ==\nMutations:\nNone\n\n", []) := by decide
      simp [prompt_and_execute, Stream.read_string, prompt_and_execute_loop, hex,
        repl_exhausted two_genes n "p" (by decide)]

/-- C20, as the code has it: each query loop stops when `q` is read after
commands it can carry out, after at most one pass per token.  Once the input is
exhausted and the command last read is not `q`, neither loop stops cleanly: a
failed read leaves the command as it was and no pass tests for end-of-input, so
a command without arguments (an unrecognised token, or `p` in the strict
program) is repeated for any number of passes, and a command with arguments
(`e`, `es`, `ene`, `path`; `m`, `me`) reads empty names, finds no gene
(`index_of` returns -1, the search of `m` and `me` leaves `starting`
uninitialised) and its next pass is undefined. -/
theorem query_loops_stop_only_at_quit (all_genes : List Lineage.Gene) (script : List String)
    (genes : List Gene) (cin : List String)
    (hwf : Lineage.targets_in_range all_genes) (hscript : Lineage.Script all_genes script)
    (hload : strictly_loaded genes) (hcin : Script genes cin) :
    (∃ fuel out, fuel ≤ script.length ∧
      Lineage.prompt_and_execute fuel all_genes script = some out) ∧
    (∃ fuel out, fuel ≤ cin.length ∧ prompt_and_execute fuel genes cin = some out) ∧
    (∀ input, input ≠ "q" → input ≠ "e" → input ≠ "es" → input ≠ "ene" → input ≠ "path" →
      ∀ n, ∃ genes', Lineage.passes n (all_genes, input, []) = some (genes', input, [])) ∧
    (∀ input, input ≠ "q" → input ≠ "m" → input ≠ "me" →
      ∀ n, passes genes n (input, []) = some (input, [])) ∧
    ((∀ g ∈ all_genes, g.sq ≠ "") →
      ∀ input, input = "e" ∨ input = "es" ∨ input = "ene" ∨ input = "path" →
        Lineage.gene_ptr (Lineage.reset_seen all_genes)
          (Lineage.index_of (Lineage.reset_seen all_genes) "") = none ∧
        Lineage.execute all_genes input [] = none) ∧
    ((∀ g ∈ genes, g.source ≠ "") →
      ∀ input, input = "m" ∨ input = "me" →
        find_gene genes "" = none ∧ execute genes input [] = none) := by
  refine ⟨?_, ?_, ?_, ?_, ?_, ?_⟩
  · obtain ⟨fuel, out, hf, hl⟩ := Lineage.script_loop all_genes script hscript hwf all_genes "" rfl
    exact ⟨fuel, "Enter a query: " ++ out, hf, by simp only [Lineage.prompt_and_execute, hl]⟩
  · obtain ⟨fuel, out, hf, hl⟩ := repl_script genes cin hcin hload ""
    exact ⟨fuel, "Enter a query: " ++ out, hf, by simp only [prompt_and_execute, hl]⟩
  · intro input hq he hes hene hpath n
    exact Lineage.passes_unrecognised input hq he hes hene hpath n all_genes
  · intro input hq hm hme n
    exact repl_passes_forever genes input hload hq hm hme n
  · intro hnames input hin
    exact Lineage.execute_without_arguments all_genes input hnames hin
  · intro hnames input hin
    exact repl_without_arguments genes input hnames hin

set_option maxRecDepth 100000 in
theorem query_loops_stop_only_at_quit_witness :
    Lineage.targets_in_range Lineage.fileS1 ∧ strictly_loaded two_genes ∧
    Lineage.prompt_and_execute 4 Lineage.fileS1
      ["e", "AAA", "DDD", "ene", "AAA", "DDD", "9", "zz", "q", "e"] =
      some ("Enter a query: AAA can evolve into DDD\n\nEnter a query: " ++
        "AAA can evolve into DDD with at most 9 evolutionary cost\n\nEnter a query: " ++
        "zz not recognized.\n\nEnter a query: ") ∧
    prompt_and_execute 4 two_genes ["p", "m", "AAAA", "CCCC", "me", "AAAA", "CCCC", "2", "q"] =
      some ("Enter a query: == AAAA ==\nMutations:\nCCCC - Cost: 3\nAAAA - Cost: 0\n" ++
        "== CCCC ==\nMutations:\nNone\n\nEnter a query: AAAA can mutate into CCCC\n\n" ++
        "Enter a query: AAAA can mutate into CCCC but not with evolutionary cost 2\n\n" ++
        "Enter a query: ") ∧
    ((∃ fuel out, fuel ≤ 10 ∧
      Lineage.prompt_and_execute fuel Lineage.fileS1
        ["e", "AAA", "DDD", "ene", "AAA", "DDD", "9", "zz", "q", "e"] = some out) ∧
    (∃ fuel out, fuel ≤ 9 ∧
      prompt_and_execute fuel two_genes
        ["p", "m", "AAAA", "CCCC", "me", "AAAA", "CCCC", "2", "q"] = some out) ∧
    (∀ input, input ≠ "q" → input ≠ "e" → input ≠ "es" → input ≠ "ene" → input ≠ "path" →
      ∀ n, ∃ genes', Lineage.passes n (Lineage.fileS1, input, []) = some (genes', input, [])) ∧
    (∀ input, input ≠ "q" → input ≠ "m" → input ≠ "me" →
      ∀ n, passes two_genes n (input, []) = some (input, [])) ∧
    ((∀ g ∈ Lineage.fileS1, g.sq ≠ "") →
      ∀ input, input = "e" ∨ input = "es" ∨ input = "ene" ∨ input = "path" →
        Lineage.gene_ptr (Lineage.reset_seen Lineage.fileS1)
          (Lineage.index_of (Lineage.reset_seen Lineage.fileS1) "") = none ∧
        Lineage.execute Lineage.fileS1 input [] = none) ∧
    ((∀ g ∈ two_genes, g.source ≠ "") →
      ∀ input, input = "m" ∨ input = "me" →
        find_gene two_genes "" = none ∧ execute two_genes input [] = none)) :=
  ⟨by decide, by decide, by decide, by decide,
    query_loops_stop_only_at_quit Lineage.fileS1
      ["e", "AAA", "DDD", "ene", "AAA", "DDD", "9", "zz", "q", "e"] two_genes
      ["p", "m", "AAAA", "CCCC", "me", "AAAA", "CCCC", "2", "q"]
      (by decide)
      (Lineage.Script.e "AAA" "DDD" _ (by decide) (by decide)
        (Lineage.Script.ene "AAA" "DDD" "9" _ (by decide) (by decide) (by decide)
          (Lineage.Script.other "zz" _ (by decide) (by decide) (by decide) (by decide)
            (by decide) (Lineage.Script.quit _))))
      (by decide)
      (Script.p _ (Script.m "AAAA" "CCCC" _ (by decide)
        (Script.me "AAAA" "CCCC" "2" _ (by decide) (by decide) (Script.quit _))))⟩

/-! ## The strict loader on a file in the format -/

theorem skip_pairs_edges :
    ∀ (edges : List (String × String)) (tail : List String),
      (∀ e ∈ edges, (Stream.token_value e.2).isSome) →
      skip_pairs edges.length (edges.flatMap (fun e => [e.1, e.2]) ++ tail) = tail := by
  intro edges
  induction edges with
  | nil => intro tail _; rfl
  | cons e edges ih =>
    intro tail h
    obtain ⟨v, hv⟩ := Option.isSome_iff_exists.mp (h e (List.mem_cons_self e edges))
    simp only [List.length_cons, List.flatMap_cons, List.cons_append, List.nil_append,
      skip_pairs, Stream.read_string, read_int_of_token_value e.2 _ v hv]
    exact ih tail (fun e' he' => h e' (List.mem_cons_of_mem e he'))

theorem read_genes_from_lines :
    ∀ (lines : List Line) (done : List Gene) (tail : List String),
      (∀ l ∈ lines, l.shaped) →
      ((∀ l ∈ lines, (l.name.data.length = 4 ∧ ∀ c ∈ l.name.data, is_base c) ∧
          0 ≤ l.edge_count ∧ l.edge_count ≤ 5) →
        read_genes_from lines.length done.length (done ++ init_data lines.length)
            (lines.flatMap Line.tokens ++ tail) =
          some (Except.ok (done ++ lines.map (fun l => blank (l.name, l.edge_count))))) ∧
      ((¬ ∀ l ∈ lines, (l.name.data.length = 4 ∧ ∀ c ∈ l.name.data, is_base c) ∧
          0 ≤ l.edge_count ∧ l.edge_count ≤ 5) →
        read_genes_from lines.length done.length (done ++ init_data lines.length)
            (lines.flatMap Line.tokens ++ tail) = some (Except.error 3)) := by
  intro lines
  induction lines with
  | nil =>
    intro done tail _
    refine ⟨fun _ => by simp [read_genes_from, init_data], fun h => absurd (by simp) h⟩
  | cons l lines ih =>
    intro done tail hshape
    obtain ⟨hc, hlen, hcosts⟩ := hshape l (List.mem_cons_self l lines)
    obtain ⟨c, hcv⟩ := Option.isSome_iff_exists.mp hc
    have hcount : l.edge_count = c := by simp [Line.edge_count, hcv]
    have hrest := ih (done ++ [blank (l.name, l.edge_count)]) tail
      (fun l' hl' => hshape l' (List.mem_cons_of_mem l hl'))
    have hstream : lines.flatMap Line.tokens ++ tail =
        skip_pairs c.toNat (l.edges.flatMap (fun e => [e.1, e.2]) ++
          (lines.flatMap Line.tokens ++ tail)) := by
      rw [← hcount, ← hlen]
      exact (skip_pairs_edges l.edges _ hcosts).symm
    have hstep : ∀ r, read_genes_from lines.length (done.length + 1)
          (done ++ blank (l.name, l.edge_count) :: init_data lines.length)
          (lines.flatMap Line.tokens ++ tail) = r →
        check_source l.name = some (Except.ok ()) → 0 ≤ l.edge_count → l.edge_count ≤ 5 →
        read_genes_from (l :: lines).length done.length (done ++ init_data (l :: lines).length)
          ((l :: lines).flatMap Line.tokens ++ tail) = r := by
      intro r hr hname h0 h5
      simp only [List.length_cons, init_data_succ, read_genes_from, getElem?_append_length,
        List.flatMap_cons, Line.tokens, List.cons_append, Stream.read_string, hname,
        read_int_of_token_value l.count _ c hcv, Option.getD_some, set_append_length]
      rw [hcount] at h0 h5
      rw [if_neg (by omega), List.append_assoc, ← hstream, ← hr, hcount]
      rfl
    have hrest' : ∀ r, read_genes_from lines.length (done ++ [blank (l.name, l.edge_count)]).length
          ((done ++ [blank (l.name, l.edge_count)]) ++ init_data lines.length)
          (lines.flatMap Line.tokens ++ tail) = r →
        read_genes_from lines.length (done.length + 1)
          (done ++ blank (l.name, l.edge_count) :: init_data lines.length)
          (lines.flatMap Line.tokens ++ tail) = r := by
      intro r hr
      simpa using hr
    constructor
    · intro hall
      obtain ⟨hname, h0, h5⟩ := hall l (List.mem_cons_self l lines)
      have := hrest.1 (fun l' hl' => hall l' (List.mem_cons_of_mem l hl'))
      rw [hstep _ (hrest' _ this) ((check_source_iff l.name).mpr hname) h0 h5]
      simp
    · intro hnot
      by_cases hhead : (l.name.data.length = 4 ∧ ∀ c ∈ l.name.data, is_base c) ∧
          0 ≤ l.edge_count ∧ l.edge_count ≤ 5
      · obtain ⟨hname, h0, h5⟩ := hhead
        have hnot' : ¬ ∀ l' ∈ lines, (l'.name.data.length = 4 ∧ ∀ c ∈ l'.name.data, is_base c) ∧
            0 ≤ l'.edge_count ∧ l'.edge_count ≤ 5 := by
          intro h
          apply hnot
          intro l' hl'
          rcases List.mem_cons.mp hl' with rfl | hl'
          · exact ⟨hname, h0, h5⟩
          · exact h l' hl'
        have := hrest.2 hnot'
        rw [hstep _ (hrest' _ this) ((check_source_iff l.name).mpr hname) h0 h5]
      · simp only [List.length_cons, init_data_succ, read_genes_from, getElem?_append_length,
          List.flatMap_cons, Line.tokens, List.cons_append, Stream.read_string,
          read_int_of_token_value l.count _ c hcv, Option.getD_some]
        by_cases hname : l.name.data.length = 4 ∧ ∀ c ∈ l.name.data, is_base c
        · rw [(check_source_iff l.name).mpr hname]
          have : ¬ (0 ≤ c ∧ c ≤ 5) := by
            rw [← hcount]
            exact fun h => hhead ⟨hname, h⟩
          simp only []
          rw [if_pos (by omega)]
        · rcases check_source_outcome l.name with h | h
          · exact absurd ((check_source_iff l.name).mp h) hname
          · rw [h]

theorem repeats_from_of_count (source : String) :
    ∀ (l : List Gene) (rep : Int),
      rep + (l.countP (fun g => decide (source = g.source)) : Int) ≤ 1 →
      repeats_from source l rep = false := by
  intro l
  induction l with
  | nil => intro rep _; rfl
  | cons g rest ih =>
    intro rep h
    by_cases hs : source = g.source
    · have hc : (g :: rest).countP (fun g' => decide (source = g'.source)) =
          rest.countP (fun g' => decide (source = g'.source)) + 1 :=
        List.countP_cons_of_pos _ _ (by simp [hs])
      rw [hc] at h
      push_cast at h
      simp only [repeats_from, if_pos hs]
      rw [if_neg (by omega)]
      exact ih _ (by omega)
    · have hc : (g :: rest).countP (fun g' => decide (source = g'.source)) =
          rest.countP (fun g' => decide (source = g'.source)) :=
        List.countP_cons_of_neg _ _ (by simp [hs])
      rw [hc] at h
      simp only [repeats_from, if_neg hs]
      rw [if_neg (by omega)]
      exact ih _ h

theorem has_repeat_from_of_count (genes : List Gene) :
    ∀ (rest : List Gene),
      (∀ g ∈ rest, genes.countP (fun g' => decide (g.source = g'.source)) ≤ 1) →
      has_repeat_from genes rest = false := by
  intro rest
  induction rest with
  | nil => intro _; rfl
  | cons a rest ih =>
    intro h
    have ha := h a (List.mem_cons_self a rest)
    have := repeats_from_of_count a.source genes 0 (by omega)
    simp only [has_repeat_from, this]
    exact ih (fun g hg => h g (List.mem_cons_of_mem a hg))

theorem no_repeat_of_nodup (genes : List Gene) (h : (genes.map Gene.source).Nodup) :
    has_repeat_from genes genes = false := by
  apply has_repeat_from_of_count
  intro g hg
  have := (List.nodup_iff_count_le_one.mp h) g.source
  rw [List.count_eq_countP, List.countP_map] at this
  have heq : genes.countP ((fun x => x == g.source) ∘ Gene.source) =
      genes.countP (fun g' => decide (g.source = g'.source)) := by
    apply List.countP_congr
    intro x _
    simp only [Function.comp_apply, beq_iff_eq, decide_eq_true_eq]
    exact eq_comm
  rw [heq] at this
  exact this

theorem find_gene_from_indexOf (name : String) :
    ∀ (l : List Gene) (i : Nat),
      (name ∈ l.map Gene.source →
        find_gene_from name l i = some (i + (l.map Gene.source).indexOf name)) ∧
      (name ∉ l.map Gene.source → find_gene_from name l i = none) := by
  intro l
  induction l with
  | nil => intro i; simp [find_gene_from]
  | cons g rest ih =>
    intro i
    by_cases hg : name = g.source
    · subst hg
      simp [find_gene_from, List.indexOf_cons]
    · have hg' : ¬ g.source = name := fun e => hg e.symm
      have hbeq : (g.source == name) = false := by simpa using hg'
      constructor
      · intro hmem
        have hmem' : name ∈ rest.map Gene.source := by
          simp only [List.map_cons, List.mem_cons] at hmem
          rcases hmem with h | h
          · exact absurd h hg
          · exact h
        simp only [find_gene_from, if_neg hg, (ih (i + 1)).1 hmem', List.map_cons,
          List.indexOf_cons, hbeq, cond_false]
        congr 1
        omega
      · intro hmem
        have hmem' : name ∉ rest.map Gene.source := by
          intro h
          exact hmem (by simp only [List.map_cons, List.mem_cons]; exact Or.inr h)
        simp only [find_gene_from, if_neg hg, (ih (i + 1)).2 hmem']


theorem find_gene_names (genes : List Gene) (names : List String) (name : String)
    (h : genes.map Gene.source = names) :
    (name ∈ names → find_gene genes name = some (names.indexOf name)) ∧
    (name ∉ names → find_gene genes name = none) := by
  subst h
  have := find_gene_from_indexOf name genes 0
  simp only [Nat.zero_add] at this
  exact this

theorem read_pairs_edges (names : List String) :
    ∀ (edges : List (String × String)) (pre : List Mutation) (k : Nat) (src : String)
      (poss : Int) (done rest : List Gene) (tail : List String) (name : String),
      (done ++ (⟨src, poss, pre ++ List.replicate k ⟨none, 0⟩⟩ : Gene) :: rest).map Gene.source
        = names →
      edges.length ≤ k → (∀ e ∈ edges, (Stream.token_value e.2).isSome) →
      ((∀ e ∈ edges, 0 ≤ edge_cost e ∧ e.1 ∈ names) →
        ∃ name', read_pairs edges.length pre.length done.length
            (done ++ (⟨src, poss, pre ++ List.replicate k ⟨none, 0⟩⟩ : Gene) :: rest)
            (edges.flatMap (fun e => [e.1, e.2]) ++ tail) name =
          some (Except.ok (done ++ (⟨src, poss,
            pre ++ edges.map (fun e => ⟨some (names.indexOf e.1), edge_cost e⟩) ++
              List.replicate (k - edges.length) ⟨none, 0⟩⟩ : Gene) :: rest, tail, name'))) ∧
      ((¬ ∀ e ∈ edges, 0 ≤ edge_cost e ∧ e.1 ∈ names) →
        read_pairs edges.length pre.length done.length
            (done ++ (⟨src, poss, pre ++ List.replicate k ⟨none, 0⟩⟩ : Gene) :: rest)
            (edges.flatMap (fun e => [e.1, e.2]) ++ tail) name = some (Except.error 3)) := by
  intro edges
  induction edges with
  | nil =>
    intro pre k src poss done rest tail name _ _ _
    refine ⟨fun _ => ⟨name, by simp [read_pairs]⟩, fun h => absurd (by simp) h⟩
  | cons e edges ih =>
    intro pre k src poss done rest tail name hnames hk hcosts
    obtain ⟨k', rfl⟩ : ∃ k', k = k' + 1 := ⟨k - 1, by simp only [List.length_cons] at hk; omega⟩
    obtain ⟨v, hv⟩ := Option.isSome_iff_exists.mp (hcosts e (List.mem_cons_self e edges))
    have hcost : edge_cost e = v := by simp [edge_cost, hv]
    have hslot : (pre ++ List.replicate (k' + 1) (⟨none, 0⟩ : Mutation))[pre.length]? =
        some ⟨none, 0⟩ := by
      rw [List.replicate_succ]
      exact getElem?_append_length pre _ _
    have hset1 : (pre ++ List.replicate (k' + 1) (⟨none, 0⟩ : Mutation)).set pre.length
        ⟨none, v⟩ = pre ++ ⟨none, v⟩ :: List.replicate k' ⟨none, 0⟩ := by
      rw [List.replicate_succ]
      exact set_append_length pre _ _ _
    have hset2 : (pre ++ (⟨none, v⟩ : Mutation) :: List.replicate k' ⟨none, 0⟩).set pre.length
        ⟨some (names.indexOf e.1), v⟩ =
        (pre ++ [⟨some (names.indexOf e.1), v⟩]) ++ List.replicate k' ⟨none, 0⟩ := by
      rw [set_append_length]
      simp
    have hen : set_energy
        (done ++ (⟨src, poss, pre ++ List.replicate (k' + 1) ⟨none, 0⟩⟩ : Gene) :: rest)
        done.length pre.length v =
        done ++ (⟨src, poss, pre ++ ⟨none, v⟩ :: List.replicate k' ⟨none, 0⟩⟩ : Gene) :: rest := by
      rw [set_energy_at done rest _ pre.length ⟨none, 0⟩ v hslot]
      simp only [hset1]
    have hnames1 : (done ++ (⟨src, poss, pre ++ ⟨none, v⟩ :: List.replicate k' ⟨none, 0⟩⟩ : Gene)
        :: rest).map Gene.source = names := by
      rw [← hnames]; simp
    have hfind := find_gene_names _ names e.1 hnames1
    have hmn : set_mutation_name
        (done ++ (⟨src, poss, pre ++ ⟨none, v⟩ :: List.replicate k' ⟨none, 0⟩⟩ : Gene) :: rest)
        done.length pre.length (names.indexOf e.1) =
        done ++ (⟨src, poss, (pre ++ [⟨some (names.indexOf e.1), v⟩]) ++
          List.replicate k' ⟨none, 0⟩⟩ : Gene) :: rest := by
      rw [set_mutation_name_at done rest _ pre.length ⟨none, v⟩ _
        (getElem?_append_length pre _ _)]
      simp only [hset2]
    have hnames2 : (done ++ (⟨src, poss, (pre ++ [⟨some (names.indexOf e.1), v⟩]) ++
          List.replicate k' ⟨none, 0⟩⟩ : Gene) :: rest).map Gene.source = names := by
      rw [← hnames]; simp
    have hrec := ih (pre ++ [⟨some (names.indexOf e.1), v⟩]) k' src poss done rest tail e.1
      hnames2 (by simp only [List.length_cons] at hk; omega)
      (fun e' he' => hcosts e' (List.mem_cons_of_mem e he'))
    have hlen : (pre ++ [(⟨some (names.indexOf e.1), v⟩ : Mutation)]).length = pre.length + 1 := by
      simp
    rw [hlen] at hrec
    have hunfold : ∀ r, 0 ≤ v → e.1 ∈ names →
        read_pairs edges.length (pre.length + 1) done.length
          (done ++ (⟨src, poss, (pre ++ [⟨some (names.indexOf e.1), v⟩]) ++
            List.replicate k' ⟨none, 0⟩⟩ : Gene) :: rest)
          (edges.flatMap (fun e => [e.1, e.2]) ++ tail) e.1 = r →
        read_pairs (e :: edges).length pre.length done.length
          (done ++ (⟨src, poss, pre ++ List.replicate (k' + 1) ⟨none, 0⟩⟩ : Gene) :: rest)
          ((e :: edges).flatMap (fun e => [e.1, e.2]) ++ tail) name = r := by
      intro r h0 hmem hr
      simp only [List.length_cons, read_pairs, energy_at_append, hslot, Option.map_some',
        List.flatMap_cons, List.cons_append, List.nil_append, Stream.read_string,
        read_int_of_token_value e.2 _ v hv, Option.getD_some, hen, hfind.1 hmem, hmn]
      rw [if_neg (by omega)]
      exact hr
    constructor
    · intro hall
      obtain ⟨h0, hmem⟩ := hall e (List.mem_cons_self e edges)
      rw [hcost] at h0
      obtain ⟨name', hr⟩ := hrec.1 (fun e' he' => hall e' (List.mem_cons_of_mem e he'))
      refine ⟨name', ?_⟩
      rw [hunfold _ h0 hmem hr]
      simp [hcost]
    · intro hnot
      by_cases hhead : 0 ≤ edge_cost e ∧ e.1 ∈ names
      · obtain ⟨h0, hmem⟩ := hhead
        rw [hcost] at h0
        have hnot' : ¬ ∀ e' ∈ edges, 0 ≤ edge_cost e' ∧ e'.1 ∈ names := by
          intro h
          apply hnot
          intro e' he'
          rcases List.mem_cons.mp he' with rfl | he'
          · exact ⟨by rw [hcost]; exact h0, hmem⟩
          · exact h e' he'
        exact hunfold _ h0 hmem (hrec.2 hnot')
      · simp only [List.length_cons, read_pairs, energy_at_append, hslot, Option.map_some',
          List.flatMap_cons, List.cons_append, List.nil_append, Stream.read_string,
          read_int_of_token_value e.2 _ v hv, Option.getD_some, hen]
        by_cases h0 : v < 0
        · rw [if_pos h0]
        · rw [if_neg h0]
          have hmem : e.1 ∉ names := by
            intro hmem
            exact hhead ⟨by rw [hcost]; omega, hmem⟩
          rw [hfind.2 hmem]


theorem read_mutations_lines (names : List String) :
    ∀ (lines : List Line) (done : List Gene) (tail : List String) (name : String)
      (prev : Option Int),
      (∀ l ∈ lines, l.shaped ∧ 0 ≤ l.edge_count ∧ l.edge_count ≤ 5) →
      (done ++ lines.map (fun l => blank (l.name, l.edge_count))).map Gene.source = names →
      ((∀ l ∈ lines, ∀ e ∈ l.edges, 0 ≤ edge_cost e ∧ e.1 ∈ names) →
        read_mutations_from lines.length done.length
            (done ++ lines.map (fun l => blank (l.name, l.edge_count)))
            (lines.flatMap Line.tokens ++ tail) name prev =
          some (Except.ok (done ++ lines.map (declared_gene names)))) ∧
      ((¬ ∀ l ∈ lines, ∀ e ∈ l.edges, 0 ≤ edge_cost e ∧ e.1 ∈ names) →
        read_mutations_from lines.length done.length
            (done ++ lines.map (fun l => blank (l.name, l.edge_count)))
            (lines.flatMap Line.tokens ++ tail) name prev = some (Except.error 3)) := by
  intro lines
  induction lines with
  | nil =>
    intro done tail name prev _ _
    refine ⟨fun _ => by simp [read_mutations_from], fun h => absurd (by simp) h⟩
  | cons l lines ih =>
    intro done tail name prev hshape hnames
    obtain ⟨⟨hc, hlen, hcosts⟩, h0, h5⟩ := hshape l (List.mem_cons_self l lines)
    obtain ⟨c, hcv⟩ := Option.isSome_iff_exists.mp hc
    have hcount : l.edge_count = c := by simp [Line.edge_count, hcv]
    have hlen5 : l.edges.length ≤ 5 := by rw [hlen]; omega
    have hpairs := read_pairs_edges names l.edges [] 5 l.name l.edge_count done
      (lines.map (fun l => blank (l.name, l.edge_count))) (lines.flatMap Line.tokens ++ tail)
      name (by rw [← hnames]; simp [blank]) hlen5 hcosts
    have hnames' : ((done ++ [declared_gene names l]) ++
        lines.map (fun l => blank (l.name, l.edge_count))).map Gene.source = names := by
      rw [← hnames]; simp [blank, declared_gene]
    have hrec := ih (done ++ [declared_gene names l]) tail
    have hstart : read_mutations_from (l :: lines).length done.length
        (done ++ (l :: lines).map (fun l => blank (l.name, l.edge_count)))
        ((l :: lines).flatMap Line.tokens ++ tail) name prev =
        match read_pairs l.edges.length 0 done.length
            (done ++ (⟨l.name, l.edge_count, [] ++ List.replicate 5 ⟨none, 0⟩⟩ : Gene) ::
              lines.map (fun l => blank (l.name, l.edge_count)))
            (l.edges.flatMap (fun e => [e.1, e.2]) ++ (lines.flatMap Line.tokens ++ tail))
            name with
        | none => none
        | some (Except.error status) => some (Except.error status)
        | some (Except.ok (genes, infile, name)) =>
          read_mutations_from lines.length (done.length + 1) genes infile name (some c) := by
      simp only [List.length_cons, read_mutations_from, List.flatMap_cons, Line.tokens,
        List.cons_append, Stream.read_string, read_int_of_token_value l.count _ c hcv,
        Option.orElse, List.map_cons, blank, List.nil_append, List.append_assoc]
      rw [hlen, hcount]
    constructor
    · intro hall
      obtain ⟨name', hp⟩ := hpairs.1 (hall l (List.mem_cons_self l lines))
      have hp' : read_pairs l.edges.length 0 done.length
          (done ++ (⟨l.name, l.edge_count, [] ++ List.replicate 5 ⟨none, 0⟩⟩ : Gene) ::
            lines.map (fun l => blank (l.name, l.edge_count)))
          (l.edges.flatMap (fun e => [e.1, e.2]) ++ (lines.flatMap Line.tokens ++ tail))
          name =
          some (Except.ok (done ++ declared_gene names l ::
            lines.map (fun l => blank (l.name, l.edge_count)),
            lines.flatMap Line.tokens ++ tail, name')) := by
        rw [show (([] : List Mutation)).length = 0 from rfl] at hp
        rw [hp]
        simp [declared_gene]
      have := (hrec name' (some c)
        (fun l' hl' => hshape l' (List.mem_cons_of_mem l hl')) hnames').1
        (fun l' hl' => hall l' (List.mem_cons_of_mem l hl'))
      rw [hstart, hp']
      simp only [List.length_append, List.length_singleton, List.append_assoc,
        List.singleton_append] at this
      simp only [this, List.map_cons]
    · intro hnot
      by_cases hhead : ∀ e ∈ l.edges, 0 ≤ edge_cost e ∧ e.1 ∈ names
      · obtain ⟨name', hp⟩ := hpairs.1 hhead
        have hp' : read_pairs l.edges.length 0 done.length
            (done ++ (⟨l.name, l.edge_count, [] ++ List.replicate 5 ⟨none, 0⟩⟩ : Gene) ::
              lines.map (fun l => blank (l.name, l.edge_count)))
            (l.edges.flatMap (fun e => [e.1, e.2]) ++ (lines.flatMap Line.tokens ++ tail))
            name =
            some (Except.ok (done ++ declared_gene names l ::
              lines.map (fun l => blank (l.name, l.edge_count)),
              lines.flatMap Line.tokens ++ tail, name')) := by
          rw [show (([] : List Mutation)).length = 0 from rfl] at hp
          rw [hp]
          simp [declared_gene]
        have hnot' : ¬ ∀ l' ∈ lines, ∀ e ∈ l'.edges, 0 ≤ edge_cost e ∧ e.1 ∈ names := by
          intro h
          apply hnot
          intro l' hl'
          rcases List.mem_cons.mp hl' with rfl | hl'
          · exact hhead
          · exact h l' hl'
        have := (hrec name' (some c)
          (fun l' hl' => hshape l' (List.mem_cons_of_mem l hl')) hnames').2 hnot'
        rw [hstart, hp']
        simp only [List.length_append, List.length_singleton, List.append_assoc,
          List.singleton_append] at this
        simp only [this]
      · have hp := hpairs.2 hhead
        rw [show (([] : List Mutation)).length = 0 from rfl] at hp
        rw [hstart, hp]

theorem read_int_count (n : String) (lines : List Line) (tail : List String)
    (hn : Stream.token_value n = some (lines.length : Int)) :
    Stream.read_int (n :: tail) = (some (lines.length : Int), tail) :=
  read_int_of_token_value n tail _ hn

theorem read_data_lines (n : String) (lines : List Line)
    (hn : Stream.token_value n = some (lines.length : Int))
    (hshape : ∀ l ∈ lines, l.shaped) :
    (valid lines →
      read_data (file_tokens n lines) = some (Except.ok (declared_genes lines))) ∧
    (¬ valid lines → read_data (file_tokens n lines) = some (Except.error 3)) := by
  have hread := read_int_count n lines (lines.flatMap Line.tokens) hn
  have hfirst := read_genes_from_lines lines [] [] hshape
  simp only [List.length_nil, List.nil_append, List.append_nil] at hfirst
  have hnamesb : (lines.map (fun l => blank (l.name, l.edge_count))).map Gene.source =
      names_of lines := by
    simp [names_of, blank]
  have hdata : ∀ r, read_genes (file_tokens n lines) (init_data lines.length) lines.length = r →
      read_data (file_tokens n lines) =
        match r with
        | none => none
        | some (Except.error status) => some (Except.error status)
        | some (Except.ok genes) => read_mutations (file_tokens n lines) genes lines.length := by
    intro r hr
    subst hr
    simp only [read_data, file_tokens, hread]
    rw [if_neg (by omega)]
    simp
  have hgenes : ∀ r, read_genes_from lines.length 0 (init_data lines.length)
        (lines.flatMap Line.tokens) = r →
      read_genes (file_tokens n lines) (init_data lines.length) lines.length =
        match r with
        | none => none
        | some (Except.error status) => some (Except.error status)
        | some (Except.ok genes) =>
          if has_repeat_from genes genes then some (Except.error 3) else some (Except.ok genes) := by
    intro r hr
    subst hr
    simp only [read_genes, file_tokens, hread]
    simp
  by_cases h1 : ∀ l ∈ lines, (l.name.data.length = 4 ∧ ∀ c ∈ l.name.data, is_base c) ∧
      0 ≤ l.edge_count ∧ l.edge_count ≤ 5
  · have hg := hgenes _ (hfirst.1 h1)
    simp only [] at hg
    by_cases h2 : (names_of lines).Nodup
    · have hrep : has_repeat_from (lines.map (fun l => blank (l.name, l.edge_count)))
          (lines.map (fun l => blank (l.name, l.edge_count))) = false :=
        no_repeat_of_nodup _ (by rw [hnamesb]; exact h2)
      rw [hrep] at hg
      have hd := hdata _ hg
      simp only [Bool.false_eq_true, if_false] at hd
      have hmut := read_mutations_lines (names_of lines) lines [] [] "" none
        (fun l hl => ⟨hshape l hl, (h1 l hl).2⟩) (by simpa using hnamesb)
      simp only [List.length_nil, List.nil_append, List.append_nil] at hmut
      have hrm : read_mutations (file_tokens n lines)
          (lines.map (fun l => blank (l.name, l.edge_count))) lines.length =
          read_mutations_from lines.length 0 (lines.map (fun l => blank (l.name, l.edge_count)))
            (lines.flatMap Line.tokens) "" none := by
        simp only [read_mutations, file_tokens, hread]
        simp
      rw [hd, hrm]
      by_cases h3 : ∀ l ∈ lines, ∀ e ∈ l.edges, 0 ≤ edge_cost e ∧ e.1 ∈ names_of lines
      · refine ⟨fun _ => ?_, fun hv => absurd ⟨h2, fun l hl =>
          ⟨(h1 l hl).1, (h1 l hl).2.1, (h1 l hl).2.2, h3 l hl⟩⟩ hv⟩
        rw [hmut.1 h3]
        rfl
      · refine ⟨fun hv => absurd (fun l hl => (hv.2 l hl).2.2.2) h3, fun _ => hmut.2 h3⟩
    · have hrep : has_repeat_from (lines.map (fun l => blank (l.name, l.edge_count)))
          (lines.map (fun l => blank (l.name, l.edge_count))) = true := by
        cases hb : has_repeat_from (lines.map (fun l => blank (l.name, l.edge_count)))
            (lines.map (fun l => blank (l.name, l.edge_count))) with
        | true => rfl
        | false =>
          have := nodup_of_no_repeat _ hb
          rw [hnamesb] at this
          exact absurd this h2
      rw [hrep] at hg
      have hd := hdata _ hg
      simp only [if_true] at hd
      exact ⟨fun hv => absurd hv.1 h2, fun _ => hd⟩
  · have hg := hgenes _ (hfirst.2 h1)
    have hd := hdata _ hg
    simp only [] at hd
    exact ⟨fun hv => absurd (fun l hl => ⟨(hv.2 l hl).1, (hv.2 l hl).2.1, (hv.2 l hl).2.2.1⟩) h1,
      fun _ => hd⟩


/-- C17: for a file in the format (the count token is the number of node lines,
each line lists as many edges as it declares, counts and costs are single `int`
tokens), the strict loader (`read_genes` then `read_mutations`) returns the
gene array the file declares when the file is `valid`, and ends with exit
status 3 otherwise: in particular for every file in which some gene name is
longer than 4 characters or has a character outside `A`, `G`, `C`, `T`, some
edge count is outside `[0, 5]`, some cost is negative, some target is not a
declared name, or two genes share a name.  For any sequence of tokens, after a
load that succeeds the names are pairwise distinct and of 4 characters over the
alphabet, every edge count is in `[0, 5]` and each mutation in use has a target
in the array and a cost that is not negative, and an exit has status 3. -/
theorem strict_load_guarantees (n : String) (lines : List Line)
    (hn : Stream.token_value n = some (lines.length : Int))
    (hshape : ∀ l ∈ lines, l.shaped) :
    (valid lines →
      read_data (file_tokens n lines) = some (Except.ok (declared_genes lines))) ∧
    (¬ valid lines → read_data (file_tokens n lines) = some (Except.error 3)) ∧
    (((∃ l ∈ lines, l.name.data.length > 4 ∨ (∃ c ∈ l.name.data, ¬ is_base c) ∨
          l.edge_count < 0 ∨ 5 < l.edge_count ∨
          ∃ e ∈ l.edges, edge_cost e < 0 ∨ e.1 ∉ names_of lines) ∨
        ¬ (names_of lines).Nodup) →
      read_data (file_tokens n lines) = some (Except.error 3)) ∧
    ∀ (file : List String),
      (∀ genes, read_data file = some (Except.ok genes) →
        (genes.map Gene.source).Nodup ∧
        (∀ g ∈ genes, g.source.data.length = 4 ∧ ∀ c ∈ g.source.data, is_base c) ∧
        strictly_loaded genes) ∧
      (∀ status, read_data file = some (Except.error status) → status = 3) := by
  obtain ⟨hok, herr⟩ := read_data_lines n lines hn hshape
  refine ⟨hok, herr, ?_, fun file =>
    ⟨fun genes h => read_data_ok file genes h, fun status h => read_data_error file status h⟩⟩
  intro hviol
  apply herr
  rintro ⟨hnodup, hall⟩
  rcases hviol with ⟨l, hl, hv⟩ | hv
  · obtain ⟨⟨hlen, hbase⟩, h0, h5, hedges⟩ := hall l hl
    rcases hv with h | ⟨c, hc, hcb⟩ | h | h | ⟨e, he, h | h⟩
    · omega
    · exact hcb (hbase c hc)
    · omega
    · omega
    · have := (hedges e he).1
      omega
    · exact h (hedges e he).2
  · exact hv hnodup

theorem strict_load_guarantees_witness :
    Stream.token_value "2" = some 2 ∧
    file_tokens "2" [⟨"AAAA", "2", [("CCCC", "3"), ("AAAA", "0")]⟩, ⟨"CCCC", "0", []⟩] =
      ["2", "AAAA", "2", "CCCC", "3", "AAAA", "0", "CCCC", "0"] ∧
    valid [⟨"AAAA", "2", [("CCCC", "3"), ("AAAA", "0")]⟩, ⟨"CCCC", "0", []⟩] ∧
    declared_genes [⟨"AAAA", "2", [("CCCC", "3"), ("AAAA", "0")]⟩, ⟨"CCCC", "0", []⟩] =
      two_genes ∧
    read_data ["2", "AAAA", "2", "CCCC", "3", "AAAA", "0", "CCCC", "0"] =
      some (Except.ok two_genes) ∧
    read_data ["1", "AAAAA", "0"] = some (Except.error 3) ∧
    read_data ["1", "AAXA", "0"] = some (Except.error 3) ∧
    read_data ["1", "AAAA", "6"] = some (Except.error 3) ∧
    read_data ["1", "AAAA", "-1"] = some (Except.error 3) ∧
    read_data ["1", "AAAA", "1", "AAAA", "-2"] = some (Except.error 3) ∧
    read_data ["2", "AAAA", "0", "AAAA", "0"] = some (Except.error 3) ∧
    read_data ["1", "AAAA", "1", "CCCC", "2"] = some (Except.error 3) ∧
    read_data ["1", "AAAA", "1", "AAAAT", "2"] = some (Except.error 3) ∧
    ((valid [⟨"AAAA", "2", [("CCCC", "3"), ("AAAA", "0")]⟩, ⟨"CCCC", "0", []⟩] →
      read_data
          (file_tokens "2" [⟨"AAAA", "2", [("CCCC", "3"), ("AAAA", "0")]⟩, ⟨"CCCC", "0", []⟩]) =
        some (Except.ok
          (declared_genes [⟨"AAAA", "2", [("CCCC", "3"), ("AAAA", "0")]⟩, ⟨"CCCC", "0", []⟩]))) ∧
    (¬ valid [⟨"AAAA", "2", [("CCCC", "3"), ("AAAA", "0")]⟩, ⟨"CCCC", "0", []⟩] →
      read_data
          (file_tokens "2" [⟨"AAAA", "2", [("CCCC", "3"), ("AAAA", "0")]⟩, ⟨"CCCC", "0", []⟩]) =
        some (Except.error 3)) ∧
    (((∃ l ∈ [(⟨"AAAA", "2", [("CCCC", "3"), ("AAAA", "0")]⟩ : Line), ⟨"CCCC", "0", []⟩],
          l.name.data.length > 4 ∨ (∃ c ∈ l.name.data, ¬ is_base c) ∨
          l.edge_count < 0 ∨ 5 < l.edge_count ∨
          ∃ e ∈ l.edges, edge_cost e < 0 ∨
            e.1 ∉ names_of [⟨"AAAA", "2", [("CCCC", "3"), ("AAAA", "0")]⟩, ⟨"CCCC", "0", []⟩]) ∨
        ¬ (names_of
          [⟨"AAAA", "2", [("CCCC", "3"), ("AAAA", "0")]⟩, ⟨"CCCC", "0", []⟩]).Nodup) →
      read_data
          (file_tokens "2" [⟨"AAAA", "2", [("CCCC", "3"), ("AAAA", "0")]⟩, ⟨"CCCC", "0", []⟩]) =
        some (Except.error 3)) ∧
    ∀ (file : List String),
      (∀ genes, read_data file = some (Except.ok genes) →
        (genes.map Gene.source).Nodup ∧
        (∀ g ∈ genes, g.source.data.length = 4 ∧ ∀ c ∈ g.source.data, is_base c) ∧
        strictly_loaded genes) ∧
      (∀ status, read_data file = some (Except.error status) → status = 3)) :=
  ⟨by decide, by decide, by decide, by decide, by decide, by decide, by decide, by decide,
    by decide, by decide, by decide, by decide, by decide,
    strict_load_guarantees "2" [⟨"AAAA", "2", [("CCCC", "3"), ("AAAA", "0")]⟩, ⟨"CCCC", "0", []⟩]
      (by decide) (by decide)⟩


end Mutations
